import Mathlib

/-!
# kdbl: the kernel debug log, trace flags and profile counters

A shallow embedding of `kdbl/patches/kdbl.c`.

* C strings (`char *`) are lists of characters; the terminating NUL is not part of the
  list.  A buffer that comes from user space may hold NUL bytes: every function that reads
  it as a string stops at the first one, as the C loops do.
* `int`/`ssize_t` results are values of `Ret`: `Ret.err e` stands for `-e`, `Ret.val n` for
  the non-negative value `n`.
* `kmalloc` and `copy_to_user` are the environment: their outcome is an argument of the
  function that calls them.
* Pointers that serve as identity (the trace handle `tc_array`, the profile cookie) are
  natural numbers; the memory they point to is stored next to them.
* A lock is held around every access to the shared structures, so an operation is one
  atomic step on the state.
-/

namespace Kdbl

/-! ## Results -/

/-- The errno values used by kdbl.c. -/
inductive Errno where
  | ENOENT | ENOMEM | EFAULT | EEXIST | EINVAL | ENOSYS | ENOBUFS
  deriving DecidableEq, Repr

/-- Result of a function returning `-errno` or a non-negative number. -/
inductive Ret where
  | val (n : Nat)
  | err (e : Errno)
  deriving DecidableEq, Repr

/-- The NUL character that terminates a C string. -/
def NUL : Char := Char.ofNat 0

/-! ## str2words -/

/-- First loop of `str2words`: `for (p = str; *p; p++) if (*p == ' ') n++;`. -/
def str2words_count : List Char → Nat → Nat
  | [], n => n
  | c :: p, n =>
    if c = NUL then n
    else if c = ' ' then str2words_count p (n + 1)
    else str2words_count p n

/-- Second loop of `str2words`: every space becomes a terminator and the character after it
starts the next word; the words are the pieces between the spaces, up to the terminator of
the string. -/
def str2words_split : List Char → List (List Char)
  | [] => [[]]
  | c :: p =>
    if c = NUL then [[]]
    else if c = ' ' then [] :: str2words_split p
    else
      match str2words_split p with
      | [] => [[c]]
      | w :: ws => (c :: w) :: ws

/-- Function `str2words(str, &words)`: the number of words and the words.  `words_alloc` tells
whether the `kmalloc` of the word array succeeds. -/
def str2words (words_alloc : Bool) (str : List Char) : Ret × List (List Char) :=
  let n := str2words_count str 1
  if words_alloc then (Ret.val n, str2words_split str) else (Ret.err Errno.ENOMEM, [])

/-! ## Profile counters -/

/-- The struct profile_element: four `uint64_t` counters. -/
structure profile_element where
  pe_total_calls : Nat
  pe_total_micros : Nat
  pe_min_micros : Nat
  pe_max_micros : Nat
  deriving DecidableEq, Repr

/-- The value `(uint64_t)-1`. -/
def UINT64_MAX : Nat := 2 ^ 64 - 1

/-- The value of `sizeof(struct profile_element)`: four 8-byte fields. -/
def sizeof_profile_element : Nat := 32

/-- A `profile_element` after `memset(.., 0, ..)` and `pe_min_micros = (uint64_t)-1`. -/
def profile_element_reset : profile_element :=
  { pe_total_calls := 0, pe_total_micros := 0, pe_min_micros := UINT64_MAX, pe_max_micros := 0 }

/-- The struct profile.  `pc_self` is the address of the struct, which is the cookie handed
to the caller; `pc_array` and `pc_array2` are the two arrays of `pc_flags` elements. -/
structure profile where
  pc_self : Nat
  pc_program : List Char
  pc_version : List Char
  pc_flags : Nat
  pc_array : List profile_element
  pc_array2 : List profile_element
  deriving DecidableEq, Repr

/-- The locked section of `kdbl_profile_exit` on one element. -/
def profile_element_credit (pe : profile_element) (elapsed : Nat) : profile_element :=
  let pe1 := { pe with pe_total_calls := (pe.pe_total_calls + 1) % 2 ^ 64 }
  let pe2 := { pe1 with pe_total_micros := (pe1.pe_total_micros + elapsed) % 2 ^ 64 }
  let pe3 := if pe2.pe_min_micros > elapsed then { pe2 with pe_min_micros := elapsed } else pe2
  if pe3.pe_max_micros < elapsed then { pe3 with pe_max_micros := elapsed } else pe3

/-- The elapsed time computed by `kdbl_profile_exit`: `stop - start` when `stop > start`,
else 0. -/
def profile_elapsed (stop start : Nat) : Nat :=
  if stop > start then stop - start else 0

/-- Function `kdbl_profile_exit(cookie, flag, start)` on the struct the cookie points to.
`stop` is the value of `kdbl_profile_enter()` read at entry.  The C code indexes
`pc_array + flag` unchecked: `flag < pc_flags` is the caller's duty, and an index outside
the array leaves the struct as it is here. -/
def kdbl_profile_exit (stop : Nat) (pc : profile) (flag start : Nat) : profile :=
  match pc.pc_array.get? flag with
  | none => pc
  | some pe =>
    { pc with pc_array := pc.pc_array.set flag (profile_element_credit pe (profile_elapsed stop start)) }

/-- The list walk `for (tmp = head->next; tmp != head; ..) if (strcmp(.., name) == 0) break;`
on `profile_list`: the entries before the first match, the match, the entries after it. -/
def profile_lookup (name : List Char) : List profile → Option (List profile × profile × List profile)
  | [] => none
  | pc :: rest =>
    if pc.pc_program = name then some ([], pc, rest)
    else
      match profile_lookup name rest with
      | none => none
      | some (pre, found, post) => some (pc :: pre, found, post)

/-- Function `kdbl_profile_create_array(program, version, flags, &cookie)`.
`pc_alloc` is the result of the `kmalloc` of the struct (its address, or `none` for NULL),
`array_alloc` tells whether the `kmalloc` of `pc_array` succeeds, `array2_alloc` is the
block obtained for `pc_array2` with the contents it happens to have (`none` for NULL).
Returns the result, the cookie and the new `profile_list`. -/
def kdbl_profile_create_array (program version : List Char) (flags : Nat)
    (pc_alloc : Option Nat) (array_alloc : Bool) (array2_alloc : Option (List profile_element))
    (profile_list : List profile) : Ret × Option Nat × List profile :=
  match profile_lookup program profile_list with
  | some _ => (Ret.err Errno.EEXIST, none, profile_list)
  | none =>
    match pc_alloc with
    | none => (Ret.err Errno.ENOMEM, none, profile_list)
    | some addr =>
      if array_alloc then
        match array2_alloc with
        | none => (Ret.err Errno.ENOMEM, none, profile_list)
        | some block =>
          let pc : profile :=
            { pc_self := addr, pc_program := program, pc_version := version, pc_flags := flags,
              pc_array := List.replicate flags profile_element_reset, pc_array2 := block }
          (Ret.val 0, some addr, pc :: profile_list)
      else (Ret.err Errno.ENOMEM, none, profile_list)

/-- Function `kdbl_profile_destroy_array(cookie)`: unlinks the struct the cookie points to.  A
cookie that is no live entry is outside the defined behaviour of the C code; the list is
left as it is then. -/
def kdbl_profile_destroy_array (cookie : Nat) : List profile → List profile
  | [] => []
  | pc :: rest =>
    if pc.pc_self = cookie then rest else pc :: kdbl_profile_destroy_array cookie rest

/-- The section of `profile_dump` under `pc_spin`: `memcpy` of `pc_array` to `pc_array2`,
then `memset` of `pc_array` and `pe_min_micros = (uint64_t)-1` in every element.  Both
arrays hold `pc_flags` elements, so the copy and the reset cover them whole. -/
def profile_snapshot (pc : profile) : profile :=
  { pc with pc_array2 := pc.pc_array,
            pc_array := List.replicate pc.pc_flags profile_element_reset }

/-- Function `profile_dump(command, buf, size)`.  `copy_ok` tells whether `copy_to_user`
succeeds.  The byte count `pc_flags * sizeof(..)` is kept exact, which is the value of the
`int` result as long as the count is below 2^31, that is for fewer than 2^26 flags (an
array of 2 GiB or more is beyond this model).  Returns the result, the elements delivered
to the user buffer, and the new `profile_list`. -/
def profile_dump (words_alloc : Bool) (command : List Char) (_size : Nat) (copy_ok : Bool)
    (profile_list : List profile) : Ret × List profile_element × List profile :=
  match str2words words_alloc command with
  | (Ret.err e, _) => (Ret.err e, [], profile_list)
  | (Ret.val n, words) =>
    if n ≠ 3 then (Ret.err Errno.EINVAL, [], profile_list)
    else
      match profile_lookup (words.getD 1 []) profile_list with
      | none => (Ret.err Errno.ENOENT, [], profile_list)
      | some (pre, pc, post) =>
        if pc.pc_version ≠ words.getD 2 [] then (Ret.err Errno.EINVAL, [], profile_list)
        else
          let pc1 := profile_snapshot pc
          if copy_ok then
            (Ret.val (pc.pc_flags * sizeof_profile_element), pc1.pc_array2, pre ++ pc1 :: post)
          else (Ret.err Errno.EFAULT, [], pre ++ pc1 :: post)

/-! ## The log buffer -/

/-- The constant PRINTF_BUF_LEN of kdbl.c. -/
def PRINTF_BUF_LEN : Nat := 1048576

/-- The constant PRINTF_BUF_WIDTH of kdbl.c. -/
def PRINTF_BUF_WIDTH : Nat := 256

/-- The globals `printf_buf` (an array of `2 * PRINTF_BUF_LEN` chars, whose second half is
the `tmp_buf` of `printf_dump`) and `printf_point`. -/
structure printf_state where
  printf_buf : List Char
  printf_point : Nat
  deriving DecidableEq, Repr

/-- Subtraction of two `unsigned int`. -/
def usub32 (a b : Nat) : Nat := (a + 2 ^ 32 - b % 2 ^ 32) % 2 ^ 32

/-- Stores `data` at offset `off` of `buf`.  A store past the end of the array is outside
the defined behaviour of C; only the part inside the array is kept here. -/
def write_at (buf : List Char) (off : Nat) (data : List Char) : List Char :=
  buf.take off ++ data.take (buf.length - off) ++ buf.drop (off + data.length)

/-- The library call `memset(buf + off, c, n)`. -/
def memset (buf : List Char) (off : Nat) (c : Char) (n : Nat) : List Char :=
  write_at buf off (List.replicate n c)

/-- The `n` chars of `buf` from offset `off` on. -/
def read_at (buf : List Char) (off n : Nat) : List Char :=
  (buf.drop off).take n

/-- The library call `vsnprintf(buf + off, size, fmt, va)` where `text` is the formatted
output: at most `size - 1` chars of it are stored, followed by a NUL. -/
def vsnprintf (buf : List Char) (off size : Nat) (text : List Char) : List Char :=
  if size = 0 then buf else write_at buf off (text.take (size - 1) ++ [NUL])

/-- Function `kdbl_printf(fmt, ...)`, for the buffer length `LEN` and the width `WIDTH`
(PRINTF_BUF_LEN and PRINTF_BUF_WIDTH in kdbl.c); `text` is the formatted message.
Returns `count`, the length of the formatted message, and the new state. -/
def kdbl_printf (LEN WIDTH : Nat) (text : List Char) (st : printf_state) : Nat × printf_state :=
  let st1 : printf_state :=
    if (st.printf_point + WIDTH) % 2 ^ 32 > LEN then
      { printf_buf := memset st.printf_buf st.printf_point NUL (usub32 LEN st.printf_point),
        printf_point := 0 }
    else st
  let count := text.length
  (count, { printf_buf := vsnprintf st1.printf_buf st1.printf_point LEN text,
            printf_point := (st1.printf_point + count) % 2 ^ 32 })

/-- The two loops of `kdbl_printf_dump2console`: the chars printed between the header and
the closing newline. -/
def dump2console_body (LEN : Nat) (st : printf_state) : List Char :=
  (read_at st.printf_buf st.printf_point (LEN - st.printf_point)).filter (fun c => c ≠ NUL)
    ++ (read_at st.printf_buf 0 st.printf_point).filter (fun c => c ≠ NUL)

/-- Function `kdbl_printf_dump2console()`: everything it hands to `printk`. -/
def kdbl_printf_dump2console (LEN : Nat) (st : printf_state) : List Char :=
  "\nKdbl log:\n\n".toList ++ dump2console_body LEN st ++ "\n".toList

/-- Function `printf_dump(buf, size)`.  `copy1_ok` and `copy2_ok` tell whether the first and
the second `copy_to_user` succeed.  Returns the result, the chars delivered to the user
buffer by the calls that succeeded, and the new state. -/
def printf_dump (LEN : Nat) (size : Nat) (copy1_ok copy2_ok : Bool) (st : printf_state) :
    Ret × List Char × printf_state :=
  if size < LEN then (Ret.err Errno.ENOBUFS, [], st)
  else
    let buf1 := write_at st.printf_buf LEN (read_at st.printf_buf 0 LEN)
    let point := st.printf_point
    let st1 : printf_state := { printf_buf := memset buf1 0 NUL LEN, printf_point := 0 }
    let part1 := read_at buf1 (LEN + point) (usub32 LEN point)
    let part2 := read_at buf1 LEN point
    if copy1_ok = false then (Ret.err Errno.EFAULT, [], st1)
    else if point ≠ 0 ∧ copy2_ok = false then (Ret.err Errno.EFAULT, part1, st1)
    else (Ret.val LEN, part1 ++ part2, st1)

/-- The state set up by `kdbl_init`: the array all zero, `printf_point = 0`. -/
def printf_init (LEN : Nat) : printf_state :=
  { printf_buf := List.replicate (2 * LEN) NUL, printf_point := 0 }

/-! ## Trace flags -/

/-- The struct trace.  `tc_array` is the address of the flag array, which is the handle
handed to the caller; `tc_bytes` are the `unsigned char`s stored there. -/
structure trace where
  tc_program : List Char
  tc_version : List Char
  tc_flags : Nat
  tc_array : Nat
  tc_bytes : List Nat
  deriving DecidableEq, Repr

/-- The macro `DIV_RU(num, den)`, evaluated in `unsigned int` as at its one use. -/
def DIV_RU (num den : Nat) : Nat := ((num + den - 1) % 2 ^ 32) / den

/-- Modelled from the spec: the macro KDBL_TRACE_TEST of linux/kdbl.h, which is not among
the sources; it reads bit `flag % 8` of byte `flag / 8` of the array. -/
def KDBL_TRACE_TEST (array : List Nat) (flag : Nat) : Bool :=
  (array.getD (flag / 8) 0).testBit (flag % 8)

/-- Modelled from the spec: the macro KDBL_TRACE_SET of linux/kdbl.h, which is not among the
sources; it sets bit `flag % 8` of byte `flag / 8` of the array. -/
def KDBL_TRACE_SET (array : List Nat) (flag : Nat) : List Nat :=
  array.set (flag / 8) ((array.getD (flag / 8) 0 ||| (1 <<< (flag % 8))) % 256)

/-- Modelled from the spec: the macro KDBL_TRACE_CLEAR of linux/kdbl.h, which is not among
the sources; it clears bit `flag % 8` of byte `flag / 8` of the array. -/
def KDBL_TRACE_CLEAR (array : List Nat) (flag : Nat) : List Nat :=
  array.set (flag / 8) (array.getD (flag / 8) 0 &&& (255 ^^^ (1 <<< (flag % 8))))

/-- The list walk over `trace_list` looking for a program name: the entries before the
first match, the match, the entries after it. -/
def trace_lookup (name : List Char) : List trace → Option (List trace × trace × List trace)
  | [] => none
  | tc :: rest =>
    if tc.tc_program = name then some ([], tc, rest)
    else
      match trace_lookup name rest with
      | none => none
      | some (pre, found, post) => some (tc :: pre, found, post)

/-- Function `kdbl_trace_create_array(program, version, flags, &array)`.  `tc_alloc` tells
whether the `kmalloc` of the struct succeeds, `array_alloc` is the result of the `kmalloc`
of the flag array (its address, or `none` for NULL).  Returns the result, the handle and
the new `trace_list`. -/
def kdbl_trace_create_array (program version : List Char) (flags : Nat)
    (tc_alloc : Bool) (array_alloc : Option Nat) (trace_list : List trace) :
    Ret × Option Nat × List trace :=
  match trace_lookup program trace_list with
  | some _ => (Ret.err Errno.EEXIST, none, trace_list)
  | none =>
    if tc_alloc then
      match array_alloc with
      | none => (Ret.err Errno.ENOMEM, none, trace_list)
      | some addr =>
        let tc : trace :=
          { tc_program := program, tc_version := version, tc_flags := flags, tc_array := addr,
            tc_bytes := List.replicate (DIV_RU flags 8) 0 }
        (Ret.val 0, some addr, tc :: trace_list)
    else (Ret.err Errno.ENOMEM, none, trace_list)

/-- Function `kdbl_trace_destroy_array(array)`: unlinks the first entry whose `tc_array` is
`array`; with no such entry the list stays and a message goes to `printk`.  Returns the
`printk` output and the new `trace_list`. -/
def kdbl_trace_destroy_array (array : Nat) : List trace → Option String × List trace
  | [] => (some "kdbl: kdbl_trace_destroy_array(): unknown array\n", [])
  | tc :: rest =>
    if tc.tc_array = array then (none, rest)
    else
      let r := kdbl_trace_destroy_array array rest
      (r.1, tc :: r.2)

/-- The test `isspace` of the kernel's ctype table. -/
def isspace (c : Char) : Bool :=
  c.toNat = 32 ∨ (9 ≤ c.toNat ∧ c.toNat ≤ 13) ∨ c.toNat = 160

/-- The test `isdigit`. -/
def isdigit (c : Char) : Bool := 48 ≤ c.toNat ∧ c.toNat ≤ 57

/-- The digit loop of `simple_strtoul` in base 10: `result = result * 10 + value` while
the next char is a digit. -/
def simple_strtoul : List Char → Nat → Nat
  | [], result => result
  | c :: cp, result =>
    if isdigit c then simple_strtoul cp (result * 10 + (c.toNat - 48)) else result

/-- The kernel library call `sscanf(str, "%u", &flag)` (vsscanf of lib/vsprintf.c): skips
white space, fails (returns 0) unless a digit follows, else stores the digits read by
`simple_strtoul`, converted to `unsigned int`, and returns 1; what follows the digits is
not looked at.  `simple_strtoul` wraps in `unsigned long`, which the final reduction modulo
2^32 absorbs.  The result is `none` for 0 and `some flag` for 1. -/
def sscanf_u (str : List Char) : Option Nat :=
  match str.dropWhile isspace with
  | [] => none
  | c :: cp => if isdigit c then some (simple_strtoul (c :: cp) 0 % 2 ^ 32) else none

/-- Function `trace_change(command)`.  Returns the result and the new `trace_list`. -/
def trace_change (words_alloc : Bool) (command : List Char) (trace_list : List trace) :
    Ret × List trace :=
  match str2words words_alloc command with
  | (Ret.err e, _) => (Ret.err e, trace_list)
  | (Ret.val n, words) =>
    if n ≠ 5 then (Ret.err Errno.EINVAL, trace_list)
    else
      match trace_lookup (words.getD 1 []) trace_list with
      | none => (Ret.err Errno.ENOENT, trace_list)
      | some (pre, tc, post) =>
        if tc.tc_version ≠ words.getD 2 [] then (Ret.err Errno.EINVAL, trace_list)
        else
          match sscanf_u (words.getD 3 []) with
          | none => (Ret.err Errno.EINVAL, trace_list)
          | some flag =>
            if flag ≥ tc.tc_flags then (Ret.err Errno.EINVAL, trace_list)
            else if words.getD 4 [] = "on".toList then
              (Ret.val 0, pre ++ { tc with tc_bytes := KDBL_TRACE_SET tc.tc_bytes flag } :: post)
            else if words.getD 4 [] = "off".toList then
              (Ret.val 0, pre ++ { tc with tc_bytes := KDBL_TRACE_CLEAR tc.tc_bytes flag } :: post)
            else (Ret.err Errno.EINVAL, trace_list)

/-- The decimal numeral of a number, as `printf("%u")` writes it. -/
def decimal (n : Nat) : List Char := Nat.toDigits 10 n

/-! ## Sequences of operations on one profile entry -/

/-- Function `kdbl_profile_exit` reached through the cookie: the struct at address `cookie`
is the one updated. -/
def profile_exit_at (cookie stop flag start : Nat) (profile_list : List profile) : List profile :=
  profile_list.map fun pc => if pc.pc_self = cookie then kdbl_profile_exit stop pc flag start else pc

/-- An operation on a profile entry: a sample recorded by `kdbl_profile_exit` (with the clock
value `stop` it reads), or a `profile_dump` command. -/
inductive ProfileOp where
  | exit (flag start stop : Nat)
  | dump (words_alloc : Bool) (command : List Char) (size : Nat) (copy_ok : Bool)
  deriving DecidableEq, Repr

/-- Runs the operations in order on the entry with cookie `cookie`; returns what every
`profile_dump` returned (result, delivered elements, list afterwards), in order, and the
final `profile_list`. -/
def profile_run (cookie : Nat) :
    List ProfileOp → List profile → List (Ret × List profile_element × List profile) × List profile
  | [], l => ([], l)
  | ProfileOp.exit flag start stop :: ops, l =>
    profile_run cookie ops (profile_exit_at cookie stop flag start l)
  | ProfileOp.dump wa command size ok :: ops, l =>
    let r := profile_dump wa command size ok l
    let rest := profile_run cookie ops r.2.2
    (r :: rest.1, rest.2)

/-- The live `pc_array` of the entry with cookie `cookie`. -/
def profile_active (cookie : Nat) (profile_list : List profile) : List profile_element :=
  match profile_list.find? (fun pc => pc.pc_self = cookie) with
  | none => []
  | some pc => pc.pc_array

/-- The shadow `pc_array2` of the entry with cookie `cookie`. -/
def profile_shadow (cookie : Nat) (profile_list : List profile) : List profile_element :=
  match profile_list.find? (fun pc => pc.pc_self = cookie) with
  | none => []
  | some pc => pc.pc_array2

/-- The `calls` field of element `f` of an array of statistics. -/
def calls_of (f : Nat) (a : List profile_element) : Nat :=
  (a.getD f profile_element_reset).pe_total_calls

/-- Sum of the `calls` of flag `f` over the dumps that returned data. -/
def calls_reported (f : Nat) : List (Ret × List profile_element × List profile) → Nat
  | [] => 0
  | (Ret.val _, out, _) :: rs => calls_of f out + calls_reported f rs
  | (Ret.err _, _, _) :: rs => calls_reported f rs

/-- Sum of the `calls` of flag `f` that dumps failing with EFAULT had moved to the shadow
array of the entry. -/
def calls_dropped (cookie f : Nat) : List (Ret × List profile_element × List profile) → Nat
  | [] => 0
  | (Ret.err Errno.EFAULT, _, l) :: rs => calls_of f (profile_shadow cookie l) + calls_dropped cookie f rs
  | (_, _, _) :: rs => calls_dropped cookie f rs

/-- Number of samples recorded on flag `f` in a sequence of operations. -/
def exit_count (f : Nat) : List ProfileOp → Nat
  | [] => 0
  | ProfileOp.exit flag _ _ :: ops => (if flag = f then 1 else 0) + exit_count f ops
  | ProfileOp.dump _ _ _ _ :: ops => exit_count f ops

/-- An operation keeps to the arrays: a sample names a flag below `flags`. -/
def op_in_range (flags : Nat) : ProfileOp → Bool
  | ProfileOp.exit flag _ _ => decide (flag < flags)
  | ProfileOp.dump _ _ _ _ => true

/-- Every sample of the sequence names a flag below `flags`. -/
def ops_in_range (flags : Nat) (ops : List ProfileOp) : Prop :=
  ∀ op ∈ ops, op_in_range flags op = true

instance (flags : Nat) (ops : List ProfileOp) : Decidable (ops_in_range flags ops) :=
  inferInstanceAs (Decidable (∀ op ∈ ops, op_in_range flags op = true))

/-- The `copy_to_user` of the operation, if it is a dump, succeeds. -/
def op_no_fault : ProfileOp → Bool
  | ProfileOp.exit _ _ _ => true
  | ProfileOp.dump _ _ _ ok => ok

/-- No `profile_dump` of the sequence has its `copy_to_user` fail. -/
def ops_no_fault (ops : List ProfileOp) : Prop :=
  ∀ op ∈ ops, op_no_fault op = true

instance (ops : List ProfileOp) : Decidable (ops_no_fault ops) :=
  inferInstanceAs (Decidable (∀ op ∈ ops, op_no_fault op = true))

/-- The `profile_list` holding one entry just made by `kdbl_profile_create_array`. -/
def profile_fresh (program version : List Char) (flags addr : Nat) (block : List profile_element) :
    List profile :=
  (kdbl_profile_create_array program version flags (some addr) true (some block) []).2.2

/-- A word of the command grammar: a string without a space (and, as every C string,
without a NUL). -/
def is_token (w : List Char) : Prop := ' ' ∉ w ∧ NUL ∉ w

instance (w : List Char) : Decidable (is_token w) :=
  inferInstanceAs (Decidable (' ' ∉ w ∧ NUL ∉ w))

/-- Records the samples `(flag, start, stop)` in order on the entry with cookie `cookie`. -/
def record_samples (cookie : Nat) (samples : List (Nat × Nat × Nat)) (profile_list : List profile) :
    List profile :=
  samples.foldl (fun l s => profile_exit_at cookie s.2.2 s.1 s.2.1 l) profile_list

/-- The elapsed time of a sample in the words of the spec: `max(0, now - start)`. -/
def elapsed_spec (start stop : Nat) : Nat := (max 0 ((stop : Int) - (start : Int))).toNat

/-- The elapsed times of the samples recorded on flag `f`, in order. -/
def elapsed_on (f : Nat) (samples : List (Nat × Nat × Nat)) : List Nat :=
  (samples.filter (fun s => s.1 = f)).map (fun s => elapsed_spec s.2.1 s.2.2)

/-- The statistics of a list of elapsed times in the words of the spec: their number, their
sum modulo 2^64, their minimum and their maximum; `{0, 0, UINT64_MAX, 0}` for no sample. -/
def is_statistics_of (els : List Nat) (pe : profile_element) : Prop :=
  pe.pe_total_calls = els.length % 2 ^ 64 ∧
  pe.pe_total_micros = els.sum % 2 ^ 64 ∧
  (els = [] → pe.pe_min_micros = UINT64_MAX ∧ pe.pe_max_micros = 0) ∧
  (els ≠ [] → (pe.pe_min_micros ∈ els ∧ ∀ x ∈ els, pe.pe_min_micros ≤ x) ∧
              (pe.pe_max_micros ∈ els ∧ ∀ x ∈ els, x ≤ pe.pe_max_micros))

/-- The command text `profile_dump <program> <version>`. -/
def profile_dump_command (program version : List Char) : List Char :=
  "profile_dump".toList ++ ' ' :: (program ++ ' ' :: version)

/-- The command text `trace_change <program> <version> <flag> <onoff>`, the flag index
written in decimal. -/
def trace_change_command (program version : List Char) (flag : Nat) (onoff : List Char) :
    List Char :=
  "trace_change".toList ++ ' ' :: (program ++ ' ' :: (version ++ ' ' :: (decimal flag ++ ' ' :: onoff)))

/-- The C string held in a buffer: the chars before the first NUL. -/
def cstr (buf : List Char) : List Char := buf.takeWhile (fun c => c ≠ NUL)

/-- The space-separated tokens of a command text, in the words of the spec: the pieces of
the text between its spaces. -/
def tokens (command : List Char) : List (List Char) := (cstr command).splitOn ' '

/-- A plain non-negative decimal integer: one digit or more and nothing else. -/
def is_decimal_numeral (w : List Char) : Prop := w ≠ [] ∧ ∀ c ∈ w, isdigit c = true

instance (w : List Char) : Decidable (is_decimal_numeral w) :=
  inferInstanceAs (Decidable (w ≠ [] ∧ ∀ c ∈ w, isdigit c = true))

/-- The value of a string of decimal digits. -/
def numeral_value (w : List Char) : Nat := w.foldl (fun acc c => acc * 10 + (c.toNat - 48)) 0

/-- The digits that `sscanf` with `%u` reads from a token: the run of digits that follows
the leading white space. -/
def leading_digits (w : List Char) : List Char := (w.dropWhile isspace).takeWhile isdigit

/-- The number that `sscanf` with `%u` stores for a token holding a digit after its leading
white space: the value of the leading digits, reduced to an `unsigned int`. -/
def scanned_value (w : List Char) : Nat := numeral_value (leading_digits w) % 2 ^ 32

/-- The first entry of the list named `name` is `tc`. -/
def first_named (name : List Char) (tc : trace) (trace_list : List trace) : Prop :=
  ∃ pre post, trace_list = pre ++ tc :: post ∧ (∀ x ∈ pre, x.tc_program ≠ name) ∧
    tc.tc_program = name

/-! ## Sequences of operations on the registries -/

/-- An operation on the trace registry, with the outcome of the allocations it makes. -/
inductive TraceOp where
  | create (program version : List Char) (flags : Nat) (tc_alloc : Bool) (array_alloc : Option Nat)
  | destroy (array : Nat)
  | change (words_alloc : Bool) (command : List Char)
  deriving DecidableEq, Repr

/-- The `trace_list` after one operation. -/
def trace_step (st : List trace) : TraceOp → List trace
  | TraceOp.create program version flags tc_alloc array_alloc =>
    (kdbl_trace_create_array program version flags tc_alloc array_alloc st).2.2
  | TraceOp.destroy array => (kdbl_trace_destroy_array array st).2
  | TraceOp.change wa command => (trace_change wa command st).2

/-- The `trace_list` reached from the empty list of `kdbl_init` by a sequence of
operations. -/
def trace_reach (ops : List TraceOp) : List trace := ops.foldl trace_step []

/-- An operation on the profile registry, with the outcome of the allocations and of the
transfer it makes. -/
inductive ProfileRegOp where
  | create (program version : List Char) (flags : Nat) (pc_alloc : Option Nat) (array_alloc : Bool)
      (array2_alloc : Option (List profile_element))
  | destroy (cookie : Nat)
  | exit (cookie flag start stop : Nat)
  | dump (words_alloc : Bool) (command : List Char) (size : Nat) (copy_ok : Bool)
  deriving DecidableEq, Repr

/-- The `profile_list` after one operation. -/
def profile_step (l : List profile) : ProfileRegOp → List profile
  | ProfileRegOp.create program version flags pc_alloc array_alloc array2_alloc =>
    (kdbl_profile_create_array program version flags pc_alloc array_alloc array2_alloc l).2.2
  | ProfileRegOp.destroy cookie => kdbl_profile_destroy_array cookie l
  | ProfileRegOp.exit cookie flag start stop => profile_exit_at cookie stop flag start l
  | ProfileRegOp.dump wa command size ok => (profile_dump wa command size ok l).2.2

/-- The `profile_list` reached from the empty list of `kdbl_init` by a sequence of
operations. -/
def profile_reach (ops : List ProfileRegOp) : List profile := ops.foldl profile_step []

/-! ## Appending to the log -/

/-- The state after appending the messages in order, from the state of `kdbl_init`. -/
def printf_all (LEN WIDTH : Nat) (msgs : List (List Char)) : printf_state :=
  msgs.foldl (fun st m => (kdbl_printf LEN WIDTH m st).2) (printf_init LEN)

/-- The shape of the array between two appends: the text `cur` of the current lap from
offset 0 to the cursor, the NUL that ends the last message, what is left of the text `prev`
of the lap before, zeros up to `LEN`, and the scratch half `scratch`. -/
def log_shape (LEN : Nat) (st : printf_state) (prev cur : List Char) (k : Nat)
    (scratch : List Char) : Prop :=
  st.printf_buf
    = cur ++ NUL :: (prev.drop (cur.length + 1) ++ (List.replicate k NUL ++ scratch)) ∧
  st.printf_point = cur.length ∧
  cur.length + 1 + (prev.drop (cur.length + 1)).length + k = LEN ∧
  NUL ∉ cur ∧ NUL ∉ prev

/-! ## Sequences of operations on the log -/

/-- An operation on the log: a `kdbl_printf` of a formatted message, or a `printf_dump`
with the size of the destination and the outcome of its two transfers. -/
inductive LogOp where
  | append (text : List Char)
  | drain (size : Nat) (copy1_ok copy2_ok : Bool)
  deriving DecidableEq, Repr

/-- The log state after one operation. -/
def log_step (LEN WIDTH : Nat) (st : printf_state) : LogOp → printf_state
  | LogOp.append text => (kdbl_printf LEN WIDTH text st).2
  | LogOp.drain size c1 c2 => (printf_dump LEN size c1 c2 st).2.2

/-- The log state reached from the state of `kdbl_init` by a sequence of operations. -/
def log_reach (LEN WIDTH : Nat) (ops : List LogOp) : printf_state :=
  ops.foldl (log_step LEN WIDTH) (printf_init LEN)

/-- The operation, if it is an append, has a message shorter than `n`. -/
def append_shorter (n : Nat) : LogOp → Bool
  | LogOp.append text => decide (text.length < n)
  | LogOp.drain _ _ _ => true

/-- Every message appended by the sequence is shorter than `n`. -/
def appends_shorter (n : Nat) (ops : List LogOp) : Prop :=
  ∀ op ∈ ops, append_shorter n op = true

instance (n : Nat) (ops : List LogOp) : Decidable (appends_shorter n ops) :=
  inferInstanceAs (Decidable (∀ op ∈ ops, append_shorter n op = true))

/-! ## The command channel -/

/-- The globals of kdbl.c that a command reaches: the log, `trace_list`, `profile_list`. -/
structure kdbl_state where
  log : printf_state
  trace_list : List trace
  profile_list : List profile
  deriving DecidableEq, Repr

/-- The library call `strcmp(s1, s2) == 0` on two buffers read as C strings. -/
def strcmp_eq (s1 s2 : List Char) : Bool := decide (cstr s1 = cstr s2)

/-- The library call `strncmp(s1, s2, n) == 0` on two buffers read as C strings. -/
def strncmp_eq (s1 s2 : List Char) (n : Nat) : Bool :=
  decide ((cstr s1).take n = (cstr s2).take n)

/-- Function `kdbl_proc_write(file, buf, size, offset)`, where `buf` holds the `size` chars of
the user buffer and `private_data` is `file->private_data` (`none` for NULL).  `p_alloc`
tells whether `kmalloc(size + 1)` succeeds, `copy_ok` whether `copy_from_user` does.
Returns the result and the new `file->private_data`. -/
def kdbl_proc_write (p_alloc copy_ok : Bool) (buf : List Char) (_private_data : Option (List Char)) :
    Ret × Option (List Char) :=
  if buf.length = 0 then (Ret.err Errno.EINVAL, none)
  else if p_alloc = false then (Ret.err Errno.ENOMEM, none)
  else if copy_ok = false then (Ret.err Errno.EFAULT, none)
  else (Ret.val buf.length, some buf)

/-- Function `kdbl_proc_read(file, buf, size, offset)`.  `words_alloc`, `copy1_ok` and
`copy2_ok` are the outcomes of the `kmalloc` of `str2words` and of the `copy_to_user`
calls of the command that runs (`profile_dump` makes one call, `copy1_ok`).  Returns the
result, the chars and the statistics delivered to the user buffer, the new
`file->private_data` and the new globals. -/
def kdbl_proc_read (LEN : Nat) (words_alloc copy1_ok copy2_ok : Bool) (size : Nat)
    (private_data : Option (List Char)) (st : kdbl_state) :
    Ret × (List Char × List profile_element) × Option (List Char) × kdbl_state :=
  match private_data with
  | none => (Ret.err Errno.ENOENT, ([], []), none, st)
  | some p =>
    if size = 0 then (Ret.err Errno.EINVAL, ([], []), none, st)
    else if strcmp_eq p "printf_dump".toList then
      let r := printf_dump LEN size copy1_ok copy2_ok st.log
      (r.1, (r.2.1, []), none, { st with log := r.2.2 })
    else if strncmp_eq p "trace_change".toList 12 then
      let r := trace_change words_alloc p st.trace_list
      (r.1, ([], []), none, { st with trace_list := r.2 })
    else if strncmp_eq p "profile_dump".toList 12 then
      let r := profile_dump words_alloc p (size % 2 ^ 32) copy1_ok st.profile_list
      (r.1, ([], r.2.1), none, { st with profile_list := r.2.2 })
    else (Ret.err Errno.ENOSYS, ([], []), none, st)

/-! ## Statistics of the profile registry -/

/-- The clock value of the operation, if it is a sample, is a `uint64_t`. -/
def regop_typed : ProfileRegOp → Bool
  | ProfileRegOp.exit _ _ _ stop => decide (stop < 2 ^ 64)
  | _ => true

/-- Every sample of the sequence carries a `uint64_t` clock value. -/
def regops_typed (ops : List ProfileRegOp) : Prop := ∀ op ∈ ops, regop_typed op = true

instance (ops : List ProfileRegOp) : Decidable (regops_typed ops) :=
  inferInstanceAs (Decidable (∀ op ∈ ops, regop_typed op = true))

/-- The dump took the snapshot of its entry: it returned a byte count, or it failed with
EFAULT, the failure of the transfer that follows the snapshot. -/
def took_snapshot : Ret → Bool
  | Ret.val _ => true
  | Ret.err Errno.EFAULT => true
  | Ret.err _ => false

/-- What one operation, run on the list `l`, does to the elapsed times `els` that cell `f`
of the entry named `name` holds since its last reset: a create that registers `name` and a
dump that takes the snapshot of the entry `name` start them afresh, a sample on flag `f`
through the cookie of the entry `name` adds its elapsed time, and any other operation
leaves them (after a destroy the entry is gone, and a create of the name starts afresh). -/
def cell_samples_step (name : List Char) (f : Nat) (l : List profile) (els : List Nat) :
    ProfileRegOp → List Nat
  | ProfileRegOp.create program version flags pc_alloc array_alloc array2_alloc =>
    if program = name ∧
        (kdbl_profile_create_array program version flags pc_alloc array_alloc array2_alloc l).1
          = Ret.val 0
    then [] else els
  | ProfileRegOp.destroy _ => els
  | ProfileRegOp.exit cookie flag start stop =>
    if flag = f ∧ ∃ pc ∈ l, pc.pc_self = cookie ∧ pc.pc_program = name
    then els ++ [profile_elapsed stop start] else els
  | ProfileRegOp.dump wa command size ok =>
    if (str2words wa command).2.getD 1 [] = name ∧
        took_snapshot (profile_dump wa command size ok l).1 = true
    then [] else els

/-- The elapsed times of the samples that cell `f` of the entry named `name` holds after
the operations, in order: those recorded on it since the entry was created or a dump last
reset it.  The cell counts them in `calls` and adds them up in `totalMicros`, both modulo
2^64: `calls` has not wrapped while they are fewer than 2^64, `totalMicros` has not wrapped
while their sum is below 2^64. -/
def cell_samples (name : List Char) (f : Nat) (ops : List ProfileRegOp) : List Nat :=
  (ops.foldl
    (fun (acc : List profile × List Nat) op =>
      (profile_step acc.1 op, cell_samples_step name f acc.1 acc.2 op))
    ([], [])).2

/-- What one operation, run on the list `l`, does to the elapsed times that cell `f` of the
shadow array of the entry named `name` holds, `els` being those of the active cell: a dump
that takes the snapshot of the entry copies the active cell there; a create that registers
`name` gives the entry a shadow array that nothing has written yet (`none`); any other
operation leaves the shadow array as it is. -/
def shadow_samples_step (name : List Char) (l : List profile) (els : List Nat)
    (sh : Option (List Nat)) : ProfileRegOp → Option (List Nat)
  | ProfileRegOp.create program version flags pc_alloc array_alloc array2_alloc =>
    if program = name ∧
        (kdbl_profile_create_array program version flags pc_alloc array_alloc array2_alloc l).1
          = Ret.val 0
    then none else sh
  | ProfileRegOp.destroy _ => sh
  | ProfileRegOp.exit _ _ _ _ => sh
  | ProfileRegOp.dump wa command size ok =>
    if (str2words wa command).2.getD 1 [] = name ∧
        took_snapshot (profile_dump wa command size ok l).1 = true
    then some els else sh

/-- The elapsed times of the samples that cell `f` of the shadow array of the entry named
`name` holds after the operations: those that the active cell held when a dump last took
the snapshot of the entry; `none` as long as no dump has written the shadow array since
the entry was created (it holds what the `kmalloc` block held). -/
def shadow_samples (name : List Char) (f : Nat) (ops : List ProfileRegOp) : Option (List Nat) :=
  (ops.foldl
    (fun (acc : List ProfileRegOp × Option (List Nat)) op =>
      (acc.1 ++ [op],
        shadow_samples_step name (profile_reach acc.1) (cell_samples name f acc.1) acc.2 op))
    ([], none)).2

/-! # Theorems -/

theorem profile_lookup_some {name : List Char} {l pre post : List profile} {pc : profile}
    (h : profile_lookup name l = some (pre, pc, post)) :
    l = pre ++ pc :: post ∧ pc.pc_program = name ∧ ∀ x ∈ pre, x.pc_program ≠ name := by
  induction l generalizing pre with
  | nil => simp [profile_lookup] at h
  | cons a rest ih =>
    unfold profile_lookup at h
    by_cases ha : a.pc_program = name
    · simp only [ha, if_true, Option.some.injEq, Prod.mk.injEq] at h
      obtain ⟨h1, h2, h3⟩ := h
      subst h1 h2 h3
      simp [ha]
    · simp only [ha, if_false] at h
      cases hr : profile_lookup name rest with
      | none => simp [hr] at h
      | some t =>
        obtain ⟨pre1, found, post1⟩ := t
        simp only [hr, Option.some.injEq, Prod.mk.injEq] at h
        obtain ⟨h1, h2, h3⟩ := h
        subst h1 h2 h3
        obtain ⟨e1, e2, e3⟩ := ih hr
        refine ⟨by simp [e1], e2, ?_⟩
        intro x hx
        rcases List.mem_cons.mp hx with hx | hx
        · subst hx; exact ha
        · exact e3 x hx

theorem profile_lookup_none {name : List Char} {l : List profile} :
    profile_lookup name l = none ↔ ∀ x ∈ l, x.pc_program ≠ name := by
  induction l with
  | nil => simp [profile_lookup]
  | cons a rest ih =>
    unfold profile_lookup
    by_cases ha : a.pc_program = name
    · simp [ha]
    · simp only [ha, if_false, List.mem_cons, forall_eq_or_imp, ne_eq, not_false_eq_true, true_and]
      rw [← ih]
      cases hr : profile_lookup name rest with
      | none => simp
      | some t => obtain ⟨pre1, found, post1⟩ := t; simp

theorem profile_dump_cases (wa : Bool) (cmd : List Char) (size : Nat) (ok : Bool) (l : List profile) :
    (∃ e, e ≠ Errno.EFAULT ∧ profile_dump wa cmd size ok l = (Ret.err e, [], l)) ∨
    (∃ pre pc post, wa = true ∧ str2words_count cmd 1 = 3 ∧
      profile_lookup ((str2words_split cmd).getD 1 []) l = some (pre, pc, post) ∧
      pc.pc_version = (str2words_split cmd).getD 2 [] ∧
      profile_dump wa cmd size ok l =
        if ok then (Ret.val (pc.pc_flags * sizeof_profile_element), pc.pc_array,
                    pre ++ profile_snapshot pc :: post)
        else (Ret.err Errno.EFAULT, [], pre ++ profile_snapshot pc :: post)) := by
  cases wa with
  | false => left; exact ⟨Errno.ENOMEM, by decide, by simp [profile_dump, str2words]⟩
  | true =>
    by_cases hn : str2words_count cmd 1 = 3
    · cases hl : profile_lookup ((str2words_split cmd).getD 1 []) l with
      | none =>
        left
        refine ⟨Errno.ENOENT, by decide, ?_⟩
        simp only [profile_dump, str2words, if_true, hn, ne_eq, not_true_eq_false, if_false, hl]
      | some t =>
        obtain ⟨pre, pc, post⟩ := t
        by_cases hv : pc.pc_version = (str2words_split cmd).getD 2 []
        · right
          refine ⟨pre, pc, post, rfl, hn, rfl, hv, ?_⟩
          simp only [profile_dump, str2words, if_true, hn, ne_eq, not_true_eq_false, if_false, hl,
            hv, profile_snapshot]
        · left
          refine ⟨Errno.EINVAL, by decide, ?_⟩
          simp only [profile_dump, str2words, if_true, hn, ne_eq, not_true_eq_false, if_false, hl,
            hv, not_false_eq_true]
    · left
      refine ⟨Errno.EINVAL, by decide, ?_⟩
      simp only [profile_dump, str2words, if_true, hn, ne_eq, not_false_eq_true]

theorem profile_exit_at_single (addr stop flag start : Nat) (pc : profile) (h : pc.pc_self = addr) :
    profile_exit_at addr stop flag start [pc] = [kdbl_profile_exit stop pc flag start] := by
  simp [profile_exit_at, h]

theorem kdbl_profile_exit_self (stop : Nat) (pc : profile) (flag start : Nat) :
    (kdbl_profile_exit stop pc flag start).pc_self = pc.pc_self ∧
    (kdbl_profile_exit stop pc flag start).pc_flags = pc.pc_flags ∧
    (kdbl_profile_exit stop pc flag start).pc_array.length = pc.pc_array.length := by
  unfold kdbl_profile_exit
  cases h : pc.pc_array.get? flag <;> simp

theorem calls_of_exit (stop : Nat) (pc : profile) (flag start f : Nat)
    (hflag : flag < pc.pc_array.length) :
    calls_of f (kdbl_profile_exit stop pc flag start).pc_array =
      if flag = f then (calls_of f pc.pc_array + 1) % 2 ^ 64 else calls_of f pc.pc_array := by
  unfold kdbl_profile_exit
  have hg : pc.pc_array.get? flag = some (pc.pc_array.get ⟨flag, hflag⟩) := List.get?_eq_get hflag
  rw [hg]
  simp only [calls_of]
  by_cases hf : flag = f
  · subst hf
    simp only [if_true]
    rw [List.getD_eq_getElem _ _ (by simpa using hflag), List.getD_eq_getElem _ _ hflag]
    simp only [List.getElem_set_self, List.get_eq_getElem]
    unfold profile_element_credit
    simp only
    split <;> split <;> rfl
  · simp only [hf, if_false]
    simp only [List.getD_eq_getElem?_getD]
    rw [List.getElem?_set_ne hf]

theorem calls_of_replicate (f n : Nat) :
    calls_of f (List.replicate n profile_element_reset) = 0 := by
  unfold calls_of
  by_cases h : f < n
  · rw [List.getD_eq_getElem _ _ (by simpa using h)]
    simp [profile_element_reset]
  · rw [List.getD_eq_default _ _ (by simpa using h)]
    rfl

theorem profile_active_single (addr : Nat) (pc : profile) (h : pc.pc_self = addr) :
    profile_active addr [pc] = pc.pc_array := by
  simp [profile_active, List.find?, h]

theorem profile_shadow_single (addr : Nat) (pc : profile) (h : pc.pc_self = addr) :
    profile_shadow addr [pc] = pc.pc_array2 := by
  simp [profile_shadow, List.find?, h]

theorem profile_dump_single (wa : Bool) (cmd : List Char) (size : Nat) (ok : Bool) (pc : profile) :
    (∃ e, e ≠ Errno.EFAULT ∧ profile_dump wa cmd size ok [pc] = (Ret.err e, [], [pc])) ∨
    (ok = true ∧ profile_dump wa cmd size ok [pc] =
      (Ret.val (pc.pc_flags * sizeof_profile_element), pc.pc_array, [profile_snapshot pc])) ∨
    (ok = false ∧ profile_dump wa cmd size ok [pc] =
      (Ret.err Errno.EFAULT, [], [profile_snapshot pc])) := by
  rcases profile_dump_cases wa cmd size ok [pc] with h | ⟨pre, pc1, post, _, _, hl, _, hd⟩
  · exact Or.inl h
  · right
    have hs := (profile_lookup_some hl).1
    have hpre : pre = [] := by
      cases pre with
      | nil => rfl
      | cons a t =>
        have := congrArg List.length hs
        simp at this
    subst hpre
    simp only [List.nil_append, List.cons.injEq] at hs
    obtain ⟨h1, h2⟩ := hs
    subst h1 h2
    cases ok with
    | true => left; exact ⟨rfl, by simpa using hd⟩
    | false => right; exact ⟨rfl, by simpa using hd⟩

theorem profile_run_accounted (addr f : Nat) (ops : List ProfileOp) :
    ∀ pc : profile, pc.pc_self = addr → pc.pc_array.length = pc.pc_flags →
      ops_in_range pc.pc_flags ops → f < pc.pc_flags →
      (calls_reported f (profile_run addr ops [pc]).1
        + calls_dropped addr f (profile_run addr ops [pc]).1
        + calls_of f (profile_active addr (profile_run addr ops [pc]).2)) % 2 ^ 64
      = (calls_of f pc.pc_array + exit_count f ops) % 2 ^ 64 := by
  induction ops with
  | nil =>
    intro pc hs _ _ _
    simp [profile_run, calls_reported, calls_dropped, exit_count, profile_active_single addr pc hs]
  | cons op ops ih =>
    intro pc hs hlen hr hf
    have hr1 : ops_in_range pc.pc_flags ops := fun op hm => hr op (List.mem_cons_of_mem _ hm)
    cases op with
    | exit flag start stop =>
      have hflag : flag < pc.pc_flags := by
        simpa [op_in_range] using hr _ (List.mem_cons_self _ _)
      obtain ⟨e1, e2, e3⟩ := kdbl_profile_exit_self stop pc flag start
      have := ih (kdbl_profile_exit stop pc flag start) (e1.trans hs) (by rw [e3, e2]; exact hlen)
        (by rw [e2]; exact hr1) (by rw [e2]; exact hf)
      simp only [profile_run, profile_exit_at_single addr stop flag start pc hs, exit_count]
      rw [this, calls_of_exit stop pc flag start f (by rw [hlen]; exact hflag)]
      by_cases hff : flag = f
      · simp only [hff, if_true]; omega
      · simp only [hff, if_false]; omega
    | dump wa cmd size ok =>
      simp only [profile_run, exit_count]
      rcases profile_dump_single wa cmd size ok pc with ⟨e, he, hd⟩ | ⟨_, hd⟩ | ⟨_, hd⟩
      · rw [hd]
        have := ih pc hs hlen hr1 hf
        cases e <;> simp_all [calls_reported, calls_dropped]
      · rw [hd]
        have := ih (profile_snapshot pc) hs (by simp [profile_snapshot]) hr1 hf
        simp only [calls_reported, calls_dropped]
        simp only [profile_snapshot, calls_of_replicate] at this
        simp only [profile_snapshot]
        omega
      · rw [hd]
        have := ih (profile_snapshot pc) hs (by simp [profile_snapshot]) hr1 hf
        simp only [calls_reported, calls_dropped,
          profile_shadow_single addr (profile_snapshot pc) hs]
        simp only [profile_snapshot, calls_of_replicate] at this
        simp only [profile_snapshot]
        omega

theorem calls_dropped_no_fault (addr f : Nat) (ops : List ProfileOp) :
    ∀ pc : profile, pc.pc_self = addr → ops_no_fault ops →
      calls_dropped addr f (profile_run addr ops [pc]).1 = 0 := by
  induction ops with
  | nil => intro pc _ _; rfl
  | cons op ops ih =>
    intro pc hs hn
    have hn1 : ops_no_fault ops := fun op hm => hn op (List.mem_cons_of_mem _ hm)
    cases op with
    | exit flag start stop =>
      simp only [profile_run, profile_exit_at_single addr stop flag start pc hs]
      exact ih _ ((kdbl_profile_exit_self stop pc flag start).1.trans hs) hn1
    | dump wa cmd size ok =>
      have hok : ok = true := by simpa [op_no_fault] using hn _ (List.mem_cons_self _ _)
      simp only [profile_run]
      rcases profile_dump_single wa cmd size ok pc with ⟨e, he, hd⟩ | ⟨_, hd⟩ | ⟨hf, _⟩
      · rw [hd]
        have := ih pc hs hn1
        cases e <;> simp_all [calls_dropped]
      · rw [hd]
        have := ih (profile_snapshot pc) hs hn1
        simpa [calls_dropped] using this
      · rw [hok] at hf; cases hf

/-- C1, as stated, fails: one sample is recorded on flag 0, then a dump whose transfer to
the caller faults; no successful dump reports the sample and the live counter is 0 again,
so reported plus live calls is 0 while one sample was recorded. -/
theorem profile_calls_lost_by_faulting_dump :
    (calls_reported 0
        (profile_run 9 [ProfileOp.exit 0 0 5, ProfileOp.dump true "profile_dump p v".toList 32 false]
          (profile_fresh "p".toList "v".toList 1 9 [])).1
      + calls_of 0 (profile_active 9
        (profile_run 9 [ProfileOp.exit 0 0 5, ProfileOp.dump true "profile_dump p v".toList 32 false]
          (profile_fresh "p".toList "v".toList 1 9 [])).2)) % 2 ^ 64
    ≠ exit_count 0 [ProfileOp.exit 0 0 5, ProfileOp.dump true "profile_dump p v".toList 32 false]
        % 2 ^ 64 := by
  decide

/-- C1, amended: for every sequence of samples (on flags below flagCount) and dumps on a
freshly created entry and every flag f below flagCount, the calls of f reported by the
successful dumps, plus the calls of f that dumps failing with EFAULT had already moved to
the shadow array, plus the final live calls of f equal the number of samples recorded on f,
modulo 2^64; when no dump faults, reported plus live calls alone equal that number. -/
theorem profile_calls_accounted (program version : List Char) (flags addr : Nat)
    (block : List profile_element) (ops : List ProfileOp) (f : Nat)
    (hf : f < flags) (hr : ops_in_range flags ops) :
    (calls_reported f (profile_run addr ops (profile_fresh program version flags addr block)).1
      + calls_dropped addr f (profile_run addr ops (profile_fresh program version flags addr block)).1
      + calls_of f (profile_active addr
          (profile_run addr ops (profile_fresh program version flags addr block)).2)) % 2 ^ 64
      = exit_count f ops % 2 ^ 64
    ∧ (ops_no_fault ops →
      (calls_reported f (profile_run addr ops (profile_fresh program version flags addr block)).1
        + calls_of f (profile_active addr
            (profile_run addr ops (profile_fresh program version flags addr block)).2)) % 2 ^ 64
        = exit_count f ops % 2 ^ 64) := by
  have hfresh : profile_fresh program version flags addr block =
      [{ pc_self := addr, pc_program := program, pc_version := version, pc_flags := flags,
         pc_array := List.replicate flags profile_element_reset, pc_array2 := block }] := by
    simp [profile_fresh, kdbl_profile_create_array, profile_lookup]
  rw [hfresh]
  have h := profile_run_accounted addr f ops
    { pc_self := addr, pc_program := program, pc_version := version, pc_flags := flags,
      pc_array := List.replicate flags profile_element_reset, pc_array2 := block }
    rfl (by simp) hr hf
  simp only [calls_of_replicate, Nat.zero_add] at h
  refine ⟨h, fun hn => ?_⟩
  rw [calls_dropped_no_fault addr f ops _ rfl hn] at h
  simpa using h

/-- Witness of C1 (amended): two samples on flag 0, a good dump, a sample on flag 1, a
faulting dump and one more sample on flag 0, on an entry with 2 flags. -/
theorem profile_calls_accounted_witness :
    (0 < 2 ∧ ops_in_range 2
      [ProfileOp.exit 0 0 50, ProfileOp.exit 0 5 15, ProfileOp.dump true "profile_dump p v".toList 64 true,
       ProfileOp.exit 1 0 7, ProfileOp.exit 0 1 2, ProfileOp.dump true "profile_dump p v".toList 64 false,
       ProfileOp.exit 0 3 9]) ∧
    exit_count 0
      [ProfileOp.exit 0 0 50, ProfileOp.exit 0 5 15, ProfileOp.dump true "profile_dump p v".toList 64 true,
       ProfileOp.exit 1 0 7, ProfileOp.exit 0 1 2, ProfileOp.dump true "profile_dump p v".toList 64 false,
       ProfileOp.exit 0 3 9] = 4 ∧
    (calls_reported 0 (profile_run 9
      [ProfileOp.exit 0 0 50, ProfileOp.exit 0 5 15, ProfileOp.dump true "profile_dump p v".toList 64 true,
       ProfileOp.exit 1 0 7, ProfileOp.exit 0 1 2, ProfileOp.dump true "profile_dump p v".toList 64 false,
       ProfileOp.exit 0 3 9] (profile_fresh "p".toList "v".toList 2 9 [])).1
      + calls_dropped 9 0 (profile_run 9
      [ProfileOp.exit 0 0 50, ProfileOp.exit 0 5 15, ProfileOp.dump true "profile_dump p v".toList 64 true,
       ProfileOp.exit 1 0 7, ProfileOp.exit 0 1 2, ProfileOp.dump true "profile_dump p v".toList 64 false,
       ProfileOp.exit 0 3 9] (profile_fresh "p".toList "v".toList 2 9 [])).1
      + calls_of 0 (profile_active 9 (profile_run 9
      [ProfileOp.exit 0 0 50, ProfileOp.exit 0 5 15, ProfileOp.dump true "profile_dump p v".toList 64 true,
       ProfileOp.exit 1 0 7, ProfileOp.exit 0 1 2, ProfileOp.dump true "profile_dump p v".toList 64 false,
       ProfileOp.exit 0 3 9] (profile_fresh "p".toList "v".toList 2 9 [])).2)) % 2 ^ 64
      = exit_count 0
      [ProfileOp.exit 0 0 50, ProfileOp.exit 0 5 15, ProfileOp.dump true "profile_dump p v".toList 64 true,
       ProfileOp.exit 1 0 7, ProfileOp.exit 0 1 2, ProfileOp.dump true "profile_dump p v".toList 64 false,
       ProfileOp.exit 0 3 9] % 2 ^ 64 :=
  ⟨⟨by decide, by decide⟩, by decide,
    (profile_calls_accounted "p".toList "v".toList 2 9 []
      [ProfileOp.exit 0 0 50, ProfileOp.exit 0 5 15, ProfileOp.dump true "profile_dump p v".toList 64 true,
       ProfileOp.exit 1 0 7, ProfileOp.exit 0 1 2, ProfileOp.dump true "profile_dump p v".toList 64 false,
       ProfileOp.exit 0 3 9] 0 (by decide) (by decide)).1⟩

theorem str2words_split_ne_nil (s : List Char) : str2words_split s ≠ [] := by
  cases s with
  | nil => simp [str2words_split]
  | cons c p =>
    unfold str2words_split
    split
    · simp
    · split
      · simp
      · split <;> simp

theorem str2words_split_token (w : List Char) (h : is_token w) : str2words_split w = [w] := by
  induction w with
  | nil => rfl
  | cons c p ih =>
    obtain ⟨h1, h2⟩ := h
    simp only [List.mem_cons, not_or] at h1 h2
    have ihp := ih ⟨h1.2, h2.2⟩
    unfold str2words_split
    rw [if_neg (Ne.symm h2.1), if_neg (Ne.symm h1.1), ihp]

theorem str2words_split_token_space (w rest : List Char) (h : is_token w) :
    str2words_split (w ++ ' ' :: rest) = w :: str2words_split rest := by
  induction w with
  | nil =>
    simp only [List.nil_append]
    rw [str2words_split]
    rw [if_neg (by decide), if_pos rfl]
  | cons c p ih =>
    obtain ⟨h1, h2⟩ := h
    simp only [List.mem_cons, not_or] at h1 h2
    have ihp := ih ⟨h1.2, h2.2⟩
    simp only [List.cons_append]
    rw [str2words_split]
    rw [if_neg (Ne.symm h2.1), if_neg (Ne.symm h1.1), ihp]

theorem str2words_count_split (s : List Char) (n : Nat) :
    str2words_count s n + 1 = n + (str2words_split s).length := by
  induction s generalizing n with
  | nil => simp [str2words_count, str2words_split]
  | cons c p ih =>
    unfold str2words_count str2words_split
    by_cases h0 : c = NUL
    · simp [h0]
    · by_cases h1 : c = ' '
      · subst h1
        rw [if_neg h0, if_pos rfl, if_neg h0, if_pos rfl]
        have := ih (n + 1)
        simp only [List.length_cons]
        omega
      · simp only [h0, h1, if_false]
        have := ih n
        cases hs : str2words_split p with
        | nil => exact absurd hs (str2words_split_ne_nil p)
        | cons w ws =>
          rw [hs] at this
          simpa using this

theorem str2words_ok (s : List Char) :
    str2words true s = (Ret.val (str2words_split s).length, str2words_split s) := by
  have := str2words_count_split s 1
  simp only [str2words, if_true]
  congr 2
  omega

theorem elapsed_spec_eq (start stop : Nat) : elapsed_spec start stop = profile_elapsed stop start := by
  unfold elapsed_spec profile_elapsed
  split <;> omega

theorem elapsed_spec_le (start stop : Nat) (h : stop < 2 ^ 64) : elapsed_spec start stop ≤ UINT64_MAX := by
  unfold elapsed_spec UINT64_MAX
  omega

theorem is_statistics_of_reset : is_statistics_of [] profile_element_reset := by
  simp [is_statistics_of, profile_element_reset]

theorem is_statistics_of_credit (els : List Nat) (pe : profile_element) (e : Nat)
    (h : is_statistics_of els pe) (hels : ∀ x ∈ els, x ≤ UINT64_MAX) (he : e ≤ UINT64_MAX) :
    is_statistics_of (els ++ [e]) (profile_element_credit pe e) := by
  obtain ⟨h1, h2, h3, h4⟩ := h
  have hc : (profile_element_credit pe e).pe_total_calls = (els ++ [e]).length % 2 ^ 64 := by
    have : (profile_element_credit pe e).pe_total_calls = (pe.pe_total_calls + 1) % 2 ^ 64 := by
      unfold profile_element_credit; simp only; split <;> split <;> rfl
    rw [this, h1]; simp only [List.length_append, List.length_singleton]; omega
  have ht : (profile_element_credit pe e).pe_total_micros = (els ++ [e]).sum % 2 ^ 64 := by
    have : (profile_element_credit pe e).pe_total_micros = (pe.pe_total_micros + e) % 2 ^ 64 := by
      unfold profile_element_credit; simp only; split <;> split <;> rfl
    rw [this, h2]; simp only [List.sum_append, List.sum_singleton]; omega
  have hmin : (profile_element_credit pe e).pe_min_micros = if pe.pe_min_micros > e then e else pe.pe_min_micros := by
    unfold profile_element_credit; simp only; split <;> split <;> rfl
  have hmax : (profile_element_credit pe e).pe_max_micros = if pe.pe_max_micros < e then e else pe.pe_max_micros := by
    unfold profile_element_credit; simp only; split <;> split <;> rfl
  refine ⟨hc, ht, fun hn => absurd hn (by simp), fun _ => ?_⟩
  rw [hmin, hmax]
  by_cases hnil : els = []
  · obtain ⟨m1, m2⟩ := h3 hnil
    subst hnil
    rw [m1, m2]
    simp only [List.nil_append, List.mem_singleton, forall_eq]
    refine ⟨⟨?_, ?_⟩, ?_, ?_⟩ <;> split <;> omega
  · obtain ⟨⟨a1, a2⟩, b1, b2⟩ := h4 hnil
    simp only [List.mem_append, List.mem_singleton]
    refine ⟨⟨?_, ?_⟩, ?_, ?_⟩
    · split
      · exact Or.inr rfl
      · exact Or.inl a1
    · intro x hx
      rcases hx with hx | hx
      · have := a2 x hx; split <;> omega
      · subst hx; split <;> omega
    · split
      · exact Or.inr rfl
      · exact Or.inl b1
    · intro x hx
      rcases hx with hx | hx
      · have := b2 x hx; split <;> omega
      · subst hx; split <;> omega

theorem record_samples_append (cookie : Nat) (xs : List (Nat × Nat × Nat)) (s : Nat × Nat × Nat)
    (l : List profile) :
    record_samples cookie (xs ++ [s]) l
      = profile_exit_at cookie s.2.2 s.1 s.2.1 (record_samples cookie xs l) := by
  simp [record_samples, List.foldl_append]

theorem elapsed_on_append (f : Nat) (xs : List (Nat × Nat × Nat)) (s : Nat × Nat × Nat) :
    elapsed_on f (xs ++ [s])
      = elapsed_on f xs ++ (if s.1 = f then [elapsed_spec s.2.1 s.2.2] else []) := by
  unfold elapsed_on
  by_cases h : s.1 = f <;> simp [List.filter_append, h]

theorem elapsed_on_le (f : Nat) (samples : List (Nat × Nat × Nat))
    (hs : ∀ s ∈ samples, s.1 < flags ∧ s.2.2 < 2 ^ 64) :
    ∀ x ∈ elapsed_on f samples, x ≤ UINT64_MAX := by
  intro x hx
  simp only [elapsed_on, List.mem_map, List.mem_filter] at hx
  obtain ⟨s, ⟨hm, _⟩, rfl⟩ := hx
  exact elapsed_spec_le _ _ (hs s hm).2

theorem kdbl_profile_exit_getD (stop : Nat) (pc : profile) (flag start f : Nat)
    (hflag : flag < pc.pc_array.length) :
    (kdbl_profile_exit stop pc flag start).pc_array.getD f profile_element_reset =
      if flag = f then
        profile_element_credit (pc.pc_array.getD f profile_element_reset) (profile_elapsed stop start)
      else pc.pc_array.getD f profile_element_reset := by
  unfold kdbl_profile_exit
  have hg : pc.pc_array.get? flag = some (pc.pc_array.get ⟨flag, hflag⟩) := List.get?_eq_get hflag
  rw [hg]
  by_cases hf : flag = f
  · subst hf
    simp only [if_true]
    rw [List.getD_eq_getElem _ _ (by simpa using hflag), List.getD_eq_getElem _ _ hflag]
    simp only [List.getElem_set_self, List.get_eq_getElem]
  · simp only [hf, if_false]
    simp only [List.getD_eq_getElem?_getD]
    rw [List.getElem?_set_ne hf]

theorem kdbl_profile_exit_names (stop : Nat) (pc : profile) (flag start : Nat) :
    (kdbl_profile_exit stop pc flag start).pc_program = pc.pc_program ∧
    (kdbl_profile_exit stop pc flag start).pc_version = pc.pc_version := by
  unfold kdbl_profile_exit
  cases h : pc.pc_array.get? flag <;> simp

theorem profile_fresh_eq (program version : List Char) (flags addr : Nat)
    (block : List profile_element) :
    profile_fresh program version flags addr block =
      [{ pc_self := addr, pc_program := program, pc_version := version, pc_flags := flags,
         pc_array := List.replicate flags profile_element_reset, pc_array2 := block }] := by
  simp [profile_fresh, kdbl_profile_create_array, profile_lookup]

theorem record_samples_fresh (program version : List Char) (flags addr : Nat)
    (block : List profile_element) (samples : List (Nat × Nat × Nat))
    (hs : ∀ s ∈ samples, s.1 < flags ∧ s.2.2 < 2 ^ 64) :
    ∃ pc : profile,
      record_samples addr samples (profile_fresh program version flags addr block) = [pc] ∧
      pc.pc_self = addr ∧ pc.pc_flags = flags ∧ pc.pc_program = program ∧
      pc.pc_version = version ∧ pc.pc_array.length = flags ∧
      ∀ f, f < flags →
        is_statistics_of (elapsed_on f samples) (pc.pc_array.getD f profile_element_reset) := by
  induction samples using List.reverseRecOn with
  | nil =>
    refine ⟨_, by rw [profile_fresh_eq]; rfl, rfl, rfl, rfl, rfl, by simp, ?_⟩
    intro f hf
    simp only [elapsed_on, List.filter_nil, List.map_nil]
    rw [List.getD_eq_getElem _ _ (by simpa using hf)]
    simpa using is_statistics_of_reset
  | append_singleton xs s ih =>
    have hxs : ∀ t ∈ xs, t.1 < flags ∧ t.2.2 < 2 ^ 64 := fun t ht => hs t (by simp [ht])
    obtain ⟨hs1, hs2⟩ := hs s (by simp)
    obtain ⟨pc, e0, e1, e2, e3, e4, e5, e6⟩ := ih hxs
    obtain ⟨k1, k2, k3⟩ := kdbl_profile_exit_self s.2.2 pc s.1 s.2.1
    obtain ⟨n1, n2⟩ := kdbl_profile_exit_names s.2.2 pc s.1 s.2.1
    refine ⟨kdbl_profile_exit s.2.2 pc s.1 s.2.1, ?_, k1.trans e1, k2.trans e2, n1.trans e3,
      n2.trans e4, k3.trans e5, ?_⟩
    · rw [record_samples_append, e0, profile_exit_at_single addr _ _ _ pc e1]
    · intro f hf
      rw [kdbl_profile_exit_getD _ _ _ _ _ (by rw [e5]; exact hs1), elapsed_on_append]
      by_cases hsf : s.1 = f
      · simp only [hsf, if_true]
        rw [← elapsed_spec_eq]
        exact is_statistics_of_credit _ _ _ (e6 f hf) (elapsed_on_le f xs hxs)
          (elapsed_spec_le _ _ hs2)
      · simp only [hsf, if_false, List.append_nil]
        exact e6 f hf

theorem profile_dump_command_words (program version : List Char)
    (hp : is_token program) (hv : is_token version) :
    str2words true (profile_dump_command program version)
      = (Ret.val 3, ["profile_dump".toList, program, version]) := by
  rw [str2words_ok]
  have : str2words_split (profile_dump_command program version)
      = ["profile_dump".toList, program, version] := by
    unfold profile_dump_command
    rw [str2words_split_token_space _ _ (by decide)]
    rw [str2words_split_token_space _ _ hp, str2words_split_token _ hv]
  rw [this]
  rfl

theorem profile_dump_command_single (program version : List Char) (size : Nat) (ok : Bool)
    (pc : profile) (hp : is_token program) (hv : is_token version)
    (h1 : pc.pc_program = program) (h2 : pc.pc_version = version) :
    profile_dump true (profile_dump_command program version) size ok [pc] =
      if ok then (Ret.val (pc.pc_flags * 32), pc.pc_array, [profile_snapshot pc])
      else (Ret.err Errno.EFAULT, [], [profile_snapshot pc]) := by
  unfold profile_dump
  rw [profile_dump_command_words program version hp hv]
  simp [profile_lookup, h1, h2, profile_snapshot, sizeof_profile_element]

/-- C2: on a freshly created entry with `flags` flags, the byte count `flags * 32` being
one that the `int` result of `profile_dump` holds (below 2^31), after any list of samples
(each on a flag below `flags`, with 64-bit clock values), every successful `profile_dump`
returns `flags * 32` bytes holding `flags` elements, the element of flag f being the
statistics of the elapsed times `max(0, stop - start)` of the samples on f (their number,
their sum modulo 2^64, their minimum and maximum; `{0, 0, UINT64_MAX, 0}` when there is
none), and every successful dump that follows at once returns `{0, 0, UINT64_MAX, 0}` for
every flag; the command `profile_dump <program> <version>` is such a successful dump, twice
in a row, when program and version are words. -/
theorem profile_dump_statistics (program version : List Char) (flags addr : Nat)
    (block : List profile_element) (samples : List (Nat × Nat × Nat))
    (_hsize : flags * sizeof_profile_element < 2 ^ 31)
    (hs : ∀ s ∈ samples, s.1 < flags ∧ s.2.2 < 2 ^ 64) :
    (∀ wa cmd size ok r out st1,
      profile_dump wa cmd size ok
          (record_samples addr samples (profile_fresh program version flags addr block))
        = (Ret.val r, out, st1) →
      r = flags * 32 ∧ out.length = flags ∧
      (∀ f, f < flags →
        is_statistics_of (elapsed_on f samples) (out.getD f profile_element_reset)) ∧
      (∀ wa2 cmd2 size2 ok2 r2 out2 st2,
        profile_dump wa2 cmd2 size2 ok2 st1 = (Ret.val r2, out2, st2) →
        r2 = flags * 32 ∧ out2 = List.replicate flags profile_element_reset)) ∧
    (is_token program → is_token version → ∀ size size2, ∃ out st1 st2,
      profile_dump true (profile_dump_command program version) size true
          (record_samples addr samples (profile_fresh program version flags addr block))
        = (Ret.val (flags * 32), out, st1) ∧
      profile_dump true (profile_dump_command program version) size2 true st1
        = (Ret.val (flags * 32), List.replicate flags profile_element_reset, st2)) := by
  obtain ⟨pc, e0, e1, e2, e3, e4, e5, e6⟩ :=
    record_samples_fresh program version flags addr block samples hs
  rw [e0]
  constructor
  · intro wa cmd size ok r out st1 hd
    rcases profile_dump_single wa cmd size ok pc with ⟨e, _, h⟩ | ⟨_, h⟩ | ⟨_, h⟩
    · rw [h] at hd; simp at hd
    · rw [h] at hd
      simp only [Prod.mk.injEq, Ret.val.injEq] at hd
      obtain ⟨r1, r2, r3⟩ := hd
      subst r1 r2 r3
      refine ⟨by rw [e2]; rfl, e5, e6, ?_⟩
      intro wa2 cmd2 size2 ok2 r2 out2 st2 hd2
      rcases profile_dump_single wa2 cmd2 size2 ok2 (profile_snapshot pc) with ⟨e, _, h⟩ | ⟨_, h⟩ | ⟨_, h⟩
      · rw [h] at hd2; simp at hd2
      · rw [h] at hd2
        simp only [Prod.mk.injEq, Ret.val.injEq] at hd2
        obtain ⟨r1, r2, _⟩ := hd2
        subst r1 r2
        simp [profile_snapshot, e2, sizeof_profile_element]
      · rw [h] at hd2; simp at hd2
    · rw [h] at hd; simp at hd
  · intro hp hv size size2
    refine ⟨pc.pc_array, [profile_snapshot pc], [profile_snapshot (profile_snapshot pc)], ?_, ?_⟩
    · rw [profile_dump_command_single program version size true pc hp hv e3 e4, e2]; rfl
    · rw [profile_dump_command_single program version size2 true (profile_snapshot pc) hp hv
        (by simpa [profile_snapshot] using e3) (by simpa [profile_snapshot] using e4)]
      simp [profile_snapshot, e2]

/-- Witness of C2: the example of the spec.  On an entry with 2 flags, the samples
(start 0, stop 50) and (start 5, stop 15) on flag 0 give flag 0 = {2, 60, 10, 50} and
flag 1 = {0, 0, UINT64_MAX, 0}; the dump that follows returns the reset values. -/
theorem profile_dump_statistics_witness :
    2 * sizeof_profile_element < 2 ^ 31 ∧
    (∀ s ∈ [((0 : Nat), (0 : Nat), (50 : Nat)), (0, 5, 15)], s.1 < 2 ∧ s.2.2 < 2 ^ 64) ∧
    profile_dump true "profile_dump p v".toList 64 true
        (record_samples 9 [(0, 0, 50), (0, 5, 15)] (profile_fresh "p".toList "v".toList 2 9 []))
      = (Ret.val 64,
          [{ pe_total_calls := 2, pe_total_micros := 60, pe_min_micros := 10, pe_max_micros := 50 },
           { pe_total_calls := 0, pe_total_micros := 0, pe_min_micros := UINT64_MAX, pe_max_micros := 0 }],
          [{ pc_self := 9, pc_program := "p".toList, pc_version := "v".toList, pc_flags := 2,
             pc_array := [profile_element_reset, profile_element_reset],
             pc_array2 :=
               [{ pe_total_calls := 2, pe_total_micros := 60, pe_min_micros := 10, pe_max_micros := 50 },
                { pe_total_calls := 0, pe_total_micros := 0, pe_min_micros := UINT64_MAX,
                  pe_max_micros := 0 }] }]) ∧
    (∀ f, f < 2 → is_statistics_of (elapsed_on f [(0, 0, 50), (0, 5, 15)])
      (([{ pe_total_calls := 2, pe_total_micros := 60, pe_min_micros := 10, pe_max_micros := 50 },
         { pe_total_calls := 0, pe_total_micros := 0, pe_min_micros := UINT64_MAX, pe_max_micros := 0 }]
        : List profile_element).getD f profile_element_reset)) :=
  ⟨by decide, by decide, by decide,
    ((profile_dump_statistics "p".toList "v".toList 2 9 [] [(0, 0, 50), (0, 5, 15)]
        (by decide) (by decide)).1
      true "profile_dump p v".toList 64 true 64
      [{ pe_total_calls := 2, pe_total_micros := 60, pe_min_micros := 10, pe_max_micros := 50 },
       { pe_total_calls := 0, pe_total_micros := 0, pe_min_micros := UINT64_MAX, pe_max_micros := 0 }]
      [{ pc_self := 9, pc_program := "p".toList, pc_version := "v".toList, pc_flags := 2,
         pc_array := [profile_element_reset, profile_element_reset],
         pc_array2 :=
           [{ pe_total_calls := 2, pe_total_micros := 60, pe_min_micros := 10, pe_max_micros := 50 },
            { pe_total_calls := 0, pe_total_micros := 0, pe_min_micros := UINT64_MAX,
              pe_max_micros := 0 }] }]
      (by decide)).2.2.1⟩

theorem usub32_eq (a b : Nat) (hb : b ≤ a) (ha : a < 2 ^ 32) : usub32 a b = a - b := by
  unfold usub32
  omega

theorem printf_dump_buf1 (LEN : Nat) (buf : List Char) (h : buf.length = 2 * LEN) :
    write_at buf LEN (read_at buf 0 LEN) = buf.take LEN ++ buf.take LEN := by
  unfold write_at read_at
  have h1 : (List.take LEN (List.drop 0 buf)).length = LEN := by simp; omega
  rw [h1, h]
  have h2 : List.drop (LEN + LEN) buf = [] := by
    apply List.drop_eq_nil_of_le; omega
  rw [h2]
  have h3 : 2 * LEN - LEN = LEN := by omega
  simp [h3, List.take_take]

theorem printf_dump_zeroed (LEN : Nat) (buf : List Char) (h : buf.length = 2 * LEN) :
    memset (write_at buf LEN (read_at buf 0 LEN)) 0 NUL LEN
      = List.replicate LEN NUL ++ buf.take LEN := by
  rw [printf_dump_buf1 LEN buf h]
  unfold memset write_at
  have hl : (List.take LEN buf).length = LEN := by simp; omega
  simp only [List.take_zero, List.nil_append, List.length_append, hl, Nat.sub_zero,
    List.length_replicate, Nat.zero_add]
  rw [List.take_of_length_le (by simp), List.drop_append_of_le_length (by omega)]
  rw [List.drop_of_length_le (by omega)]
  simp

/-- The value of `printf_dump` on an array of `2 * LEN` chars. -/
theorem printf_dump_eq (LEN size : Nat) (c1 c2 : Bool) (st : printf_state)
    (h : st.printf_buf.length = 2 * LEN) (hsize : LEN ≤ size) :
    printf_dump LEN size c1 c2 st =
      if c1 = false then
        (Ret.err Errno.EFAULT, [],
          { printf_buf := List.replicate LEN NUL ++ st.printf_buf.take LEN, printf_point := 0 })
      else if st.printf_point ≠ 0 ∧ c2 = false then
        (Ret.err Errno.EFAULT,
          read_at (st.printf_buf.take LEN ++ st.printf_buf.take LEN) (LEN + st.printf_point)
            (usub32 LEN st.printf_point),
          { printf_buf := List.replicate LEN NUL ++ st.printf_buf.take LEN, printf_point := 0 })
      else
        (Ret.val LEN,
          read_at (st.printf_buf.take LEN ++ st.printf_buf.take LEN) (LEN + st.printf_point)
            (usub32 LEN st.printf_point)
          ++ read_at (st.printf_buf.take LEN ++ st.printf_buf.take LEN) LEN st.printf_point,
          { printf_buf := List.replicate LEN NUL ++ st.printf_buf.take LEN, printf_point := 0 }) := by
  unfold printf_dump
  rw [if_neg (by omega)]
  have hz := printf_dump_zeroed LEN _ h
  rw [printf_dump_buf1 LEN _ h] at hz
  simp only [printf_dump_buf1 LEN _ h, hz]

theorem printf_dump_parts (LEN p : Nat) (buf : List Char) (h : buf.length = 2 * LEN)
    (hp : p ≤ LEN) (hL : LEN < 2 ^ 32) :
    read_at (buf.take LEN ++ buf.take LEN) (LEN + p) (usub32 LEN p) = (buf.take LEN).drop p ∧
    read_at (buf.take LEN ++ buf.take LEN) LEN p = buf.take p := by
  have hl : (List.take LEN buf).length = LEN := by simp; omega
  unfold read_at
  constructor
  · rw [usub32_eq LEN p hp hL]
    rw [List.drop_append_eq_append_drop]
    rw [List.drop_of_length_le (by omega), hl]
    have : LEN + p - LEN = p := by omega
    rw [this, List.nil_append]
    apply List.take_of_length_le
    simp; omega
  · rw [List.drop_append_eq_append_drop, List.drop_of_length_le (by omega), hl]
    simp [List.take_take, hp]

theorem profile_lookup_at (name : List Char) (pre post : List profile) (pc : profile)
    (hpre : ∀ x ∈ pre, x.pc_program ≠ name) (hpc : pc.pc_program = name) :
    profile_lookup name (pre ++ pc :: post) = some (pre, pc, post) := by
  induction pre with
  | nil => simp [profile_lookup, hpc]
  | cons a t ih =>
    have ha : a.pc_program ≠ name := hpre a (List.mem_cons_self _ _)
    have := ih (fun x hx => hpre x (List.mem_cons_of_mem _ hx))
    rw [List.cons_append, profile_lookup, if_neg ha, this]

/-- C3, as stated, fails: a drain whose transfer faults leaves the log buffer zeroed, not
as it was, and a profile dump whose transfer faults leaves the active statistics reset. -/
theorem dump_fault_changes_source :
    ((printf_dump 2 2 false true { printf_buf := ['a', 'b', NUL, NUL], printf_point := 0 }).1
        = Ret.err Errno.EFAULT ∧
      (printf_dump 2 2 false true { printf_buf := ['a', 'b', NUL, NUL], printf_point := 0 }).2.2
        ≠ { printf_buf := ['a', 'b', NUL, NUL], printf_point := 0 }) ∧
    ((profile_dump true "profile_dump p v".toList 32 false
        (record_samples 9 [(0, 0, 5)] (profile_fresh "p".toList "v".toList 1 9 []))).1
        = Ret.err Errno.EFAULT ∧
      profile_active 9 (profile_dump true "profile_dump p v".toList 32 false
        (record_samples 9 [(0, 0, 5)] (profile_fresh "p".toList "v".toList 1 9 []))).2.2
        ≠ profile_active 9
            (record_samples 9 [(0, 0, 5)] (profile_fresh "p".toList "v".toList 1 9 []))) := by
  decide

/-- C3, amended: a drain or a profile dump that fails with EFAULT has cleared its source
before the transfer.  After a faulting `printf_dump` the cursor is 0 and the log buffer is
all zero, its former contents being kept in the scratch half `tmp_buf` only, and a retry
returns `LEN` zero bytes.  After a faulting `profile_dump` the entry is still registered
with its name, version and flag count, its active statistics are reset and the former
ones are kept in the shadow array only, and a retry returns the reset statistics. -/
theorem dump_fault_clears_source :
    (∀ (LEN size : Nat) (c1 c2 : Bool) (st st1 : printf_state) (out : List Char),
      st.printf_buf.length = 2 * LEN → LEN < 2 ^ 32 →
      printf_dump LEN size c1 c2 st = (Ret.err Errno.EFAULT, out, st1) →
      st1.printf_point = 0 ∧
      read_at st1.printf_buf 0 LEN = List.replicate LEN NUL ∧
      read_at st1.printf_buf LEN LEN = read_at st.printf_buf 0 LEN ∧
      (printf_dump LEN size true true st1).1 = Ret.val LEN ∧
      (printf_dump LEN size true true st1).2.1 = List.replicate LEN NUL) ∧
    (∀ (wa : Bool) (cmd : List Char) (size : Nat) (ok : Bool) (l l1 : List profile)
        (out : List profile_element),
      profile_dump wa cmd size ok l = (Ret.err Errno.EFAULT, out, l1) →
      ∃ pre pc post, l = pre ++ pc :: post ∧
        l1 = pre ++ { pc with pc_array := List.replicate pc.pc_flags profile_element_reset,
                              pc_array2 := pc.pc_array } :: post ∧
        (profile_dump wa cmd size true l1).1 = Ret.val (pc.pc_flags * 32) ∧
        (profile_dump wa cmd size true l1).2.1
          = List.replicate pc.pc_flags profile_element_reset) := by
  constructor
  · intro LEN size c1 c2 st st1 out hlen hL hd
    have hsize : LEN ≤ size := by
      by_contra hc
      unfold printf_dump at hd
      rw [if_pos (by omega)] at hd
      simp at hd
    have hst1 : st1 = { printf_buf := List.replicate LEN NUL ++ st.printf_buf.take LEN,
                        printf_point := 0 } := by
      rw [printf_dump_eq LEN size c1 c2 st hlen hsize] at hd
      split at hd
      · simp only [Prod.mk.injEq] at hd; exact hd.2.2.symm
      · split at hd
        · simp only [Prod.mk.injEq] at hd; exact hd.2.2.symm
        · simp at hd
    have hl : (List.take LEN st.printf_buf).length = LEN := by simp; omega
    have hlen1 : st1.printf_buf.length = 2 * LEN := by rw [hst1]; simp; omega
    have hE := printf_dump_eq LEN size true true st1 hlen1 hsize
    have hp1 : st1.printf_point = 0 := by rw [hst1]
    have hz : List.take LEN st1.printf_buf = List.replicate LEN NUL := by
      rw [hst1]; simp [List.take_append_eq_append_take]
    have hparts := printf_dump_parts LEN 0 st1.printf_buf hlen1 (Nat.zero_le _) hL
    refine ⟨hp1, ?_, ?_, ?_, ?_⟩
    · simpa [read_at] using hz
    · rw [hst1]
      simp [read_at, List.drop_append_eq_append_drop, List.take_append_eq_append_take]
    · rw [hE]; simp
    · rw [hE, hp1]
      simp only [Bool.true_eq_false, if_false, ne_eq, not_true_eq_false, false_and]
      rw [hparts.1, hparts.2, hz]
      simp
  · intro wa cmd size ok l l1 out hd
    rcases profile_dump_cases wa cmd size ok l with ⟨e, he, h⟩ | ⟨pre, pc, post, hwa, hn, hl, hv, h⟩
    · rw [h] at hd
      simp only [Prod.mk.injEq, Ret.err.injEq] at hd
      exact absurd hd.1 he
    · rw [h] at hd
      cases ok with
      | true => simp at hd
      | false =>
        simp only [Bool.false_eq_true, if_false, Prod.mk.injEq, true_and] at hd
        obtain ⟨hs, hname, hpre⟩ := profile_lookup_some hl
        have hl1 : profile_lookup ((str2words_split cmd).getD 1 []) l1
            = some (pre, profile_snapshot pc, post) := by
          rw [← hd.2]
          exact profile_lookup_at _ pre post (profile_snapshot pc) hpre hname
        refine ⟨pre, pc, post, hs, hd.2.symm, ?_, ?_⟩
        · subst hwa
          simp only [profile_dump, str2words, if_true, hn, ne_eq, not_true_eq_false, if_false,
            hl1]
          simp [profile_snapshot, hv, sizeof_profile_element]
        · subst hwa
          simp only [profile_dump, str2words, if_true, hn, ne_eq, not_true_eq_false, if_false,
            hl1]
          simp [profile_snapshot, hv]

/-- Witness of C3 (amended): a faulting drain of a 2-byte log holding "ab", and a faulting
dump of an entry with one sample. -/
theorem dump_fault_clears_source_witness :
    (([ 'a', 'b', NUL, NUL] : List Char).length = 2 * 2 ∧ 2 < 2 ^ 32 ∧
      printf_dump 2 2 false true { printf_buf := ['a', 'b', NUL, NUL], printf_point := 0 }
        = (Ret.err Errno.EFAULT, [], { printf_buf := [NUL, NUL, 'a', 'b'], printf_point := 0 }) ∧
      (printf_dump 2 2 true true { printf_buf := [NUL, NUL, 'a', 'b'], printf_point := 0 }).2.1
        = List.replicate 2 NUL) ∧
    (profile_dump true "profile_dump p v".toList 32 false
        (record_samples 9 [(0, 0, 5)] (profile_fresh "p".toList "v".toList 1 9 []))
        = (Ret.err Errno.EFAULT, [],
            [{ pc_self := 9, pc_program := "p".toList, pc_version := "v".toList, pc_flags := 1,
               pc_array := [profile_element_reset],
               pc_array2 := [{ pe_total_calls := 1, pe_total_micros := 5, pe_min_micros := 5,
                               pe_max_micros := 5 }] }]) ∧
      ∃ pre pc post,
        record_samples 9 [(0, 0, 5)] (profile_fresh "p".toList "v".toList 1 9 [])
          = pre ++ pc :: post ∧
        (profile_dump true "profile_dump p v".toList 32 true
          [{ pc_self := 9, pc_program := "p".toList, pc_version := "v".toList, pc_flags := 1,
             pc_array := [profile_element_reset],
             pc_array2 := [{ pe_total_calls := 1, pe_total_micros := 5, pe_min_micros := 5,
                             pe_max_micros := 5 }] }]).2.1
          = List.replicate pc.pc_flags profile_element_reset) :=
  ⟨⟨by decide, by decide, by decide,
    (dump_fault_clears_source.1 2 2 false true
      { printf_buf := ['a', 'b', NUL, NUL], printf_point := 0 }
      { printf_buf := [NUL, NUL, 'a', 'b'], printf_point := 0 } [] (by decide) (by decide)
      (by decide)).2.2.2.2⟩,
   by decide,
   (dump_fault_clears_source.2 true "profile_dump p v".toList 32 false
      (record_samples 9 [(0, 0, 5)] (profile_fresh "p".toList "v".toList 1 9 []))
      [{ pc_self := 9, pc_program := "p".toList, pc_version := "v".toList, pc_flags := 1,
         pc_array := [profile_element_reset],
         pc_array2 := [{ pe_total_calls := 1, pe_total_micros := 5, pe_min_micros := 5,
                         pe_max_micros := 5 }] }] [] (by decide)).elim
     fun pre h => h.elim fun pc h => h.elim fun post h => ⟨pre, pc, post, h.1, h.2.2.2⟩⟩

theorem trace_test_set (a : List Nat) (i j : Nat) (hi : i / 8 < a.length) :
    KDBL_TRACE_TEST (KDBL_TRACE_SET a i) j = if j = i then true else KDBL_TRACE_TEST a j := by
  unfold KDBL_TRACE_TEST KDBL_TRACE_SET
  by_cases hb : j / 8 = i / 8
  · rw [hb]
    rw [List.getD_eq_getElem _ _ (by simpa using hi)]
    simp only [List.getElem_set_self]
    have h256 : (256 : Nat) = 2 ^ 8 := by norm_num
    rw [h256, Nat.testBit_mod_two_pow, Nat.testBit_or, Nat.one_shiftLeft, Nat.testBit_two_pow]
    have hj8 : j % 8 < 8 := Nat.mod_lt _ (by norm_num)
    by_cases hji : j = i
    · subst hji; simp [hj8]
    · have : i % 8 ≠ j % 8 := by omega
      simp [hj8, hji, this]
  · have hji : j ≠ i := fun h => hb (by rw [h])
    simp only [hji, if_false]
    simp only [List.getD_eq_getElem?_getD]
    rw [List.getElem?_set_ne (Ne.symm hb)]

theorem trace_test_clear (a : List Nat) (i j : Nat) (hi : i / 8 < a.length) :
    KDBL_TRACE_TEST (KDBL_TRACE_CLEAR a i) j = if j = i then false else KDBL_TRACE_TEST a j := by
  unfold KDBL_TRACE_TEST KDBL_TRACE_CLEAR
  by_cases hb : j / 8 = i / 8
  · rw [hb]
    rw [List.getD_eq_getElem _ _ (by simpa using hi)]
    simp only [List.getElem_set_self]
    have h255 : (255 : Nat) = 2 ^ 8 - 1 := by norm_num
    rw [Nat.testBit_and, Nat.testBit_xor, h255, Nat.testBit_two_pow_sub_one, Nat.one_shiftLeft,
      Nat.testBit_two_pow]
    have hj8 : j % 8 < 8 := Nat.mod_lt _ (by norm_num)
    by_cases hji : j = i
    · subst hji; simp [hj8]
    · have : i % 8 ≠ j % 8 := by omega
      simp [hj8, hji, this]
  · have hji : j ≠ i := fun h => hb (by rw [h])
    simp only [hji, if_false]
    simp only [List.getD_eq_getElem?_getD]
    rw [List.getElem?_set_ne (Ne.symm hb)]

theorem digitChar_isdigit : ∀ d, d < 10 →
    isdigit (Nat.digitChar d) = true ∧ (Nat.digitChar d).toNat - 48 = d := by
  decide

theorem isdigit_not_isspace (c : Char) (h : isdigit c = true) : isspace c = false := by
  unfold isdigit at h
  unfold isspace
  simp only [decide_eq_true_eq] at h
  simp only [decide_eq_false_iff_not]
  omega

theorem isdigit_token (c : Char) (h : isdigit c = true) : c ≠ ' ' ∧ c ≠ NUL := by
  unfold isdigit at h
  simp only [decide_eq_true_eq] at h
  constructor
  · intro hc; subst hc; revert h; decide
  · intro hc; subst hc; revert h; decide

theorem toDigitsCore_spec (fuel : Nat) : ∀ n ds, n < fuel →
    ∃ L, Nat.toDigitsCore 10 fuel n ds = L ++ ds ∧ L ≠ [] ∧ (∀ c ∈ L, isdigit c = true) ∧
      ∀ acc rest, (∀ c ∈ L, isdigit c = true) →
        simple_strtoul (L ++ rest) acc = simple_strtoul rest (acc * 10 ^ L.length + n) := by
  induction fuel with
  | zero => intro n ds h; omega
  | succ fuel ih =>
    intro n ds hn
    have hd := digitChar_isdigit (n % 10) (Nat.mod_lt _ (by norm_num))
    unfold Nat.toDigitsCore
    by_cases h0 : n / 10 = 0
    · simp only [h0, if_true]
      refine ⟨[Nat.digitChar (n % 10)], rfl, by simp, by simpa using hd.1, ?_⟩
      intro acc rest _
      simp only [List.singleton_append, simple_strtoul, hd.1, if_true, hd.2, List.length_singleton,
        pow_one]
      congr 1
      omega
    · simp only [h0, if_false]
      obtain ⟨L, e1, e2, e3, e4⟩ := ih (n / 10) (Nat.digitChar (n % 10) :: ds) (by omega)
      refine ⟨L ++ [Nat.digitChar (n % 10)], by rw [e1]; simp, by simp, ?_, ?_⟩
      · intro c hc
        rcases List.mem_append.mp hc with hc | hc
        · exact e3 c hc
        · simp only [List.mem_singleton] at hc; rw [hc]; exact hd.1
      · intro acc rest _
        rw [List.append_assoc, e4 acc _ e3]
        simp only [List.singleton_append, simple_strtoul, hd.1, if_true, hd.2, List.length_append,
          List.length_singleton, pow_succ]
        congr 1
        have := Nat.div_add_mod n 10
        nlinarith [this]

theorem decimal_spec (n : Nat) :
    decimal n ≠ [] ∧ (∀ c ∈ decimal n, isdigit c = true) ∧ simple_strtoul (decimal n) 0 = n := by
  obtain ⟨L, e1, e2, e3, e4⟩ := toDigitsCore_spec (n + 1) n [] (Nat.lt_succ_self n)
  have hL : decimal n = L := by simpa [decimal, Nat.toDigits] using e1
  rw [hL]
  refine ⟨e2, e3, ?_⟩
  have := e4 0 [] e3
  simpa [simple_strtoul] using this

theorem decimal_token (n : Nat) : is_token (decimal n) := by
  obtain ⟨_, h, _⟩ := decimal_spec n
  constructor
  · intro hm; exact (isdigit_token _ (h _ hm)).1 rfl
  · intro hm; exact (isdigit_token _ (h _ hm)).2 rfl

theorem sscanf_u_decimal (n : Nat) : sscanf_u (decimal n) = some (n % 2 ^ 32) := by
  obtain ⟨h1, h2, h3⟩ := decimal_spec n
  unfold sscanf_u
  cases hL : decimal n with
  | nil => exact absurd hL h1
  | cons c cp =>
    have hc : isdigit c = true := h2 c (by rw [hL]; simp)
    have hsp : isspace c = false := isdigit_not_isspace c hc
    rw [List.dropWhile_cons_of_neg (by simp [hsp])]
    simp only [hc, if_true]
    rw [← hL, h3]

theorem trace_lookup_some {name : List Char} {l pre post : List trace} {tc : trace}
    (h : trace_lookup name l = some (pre, tc, post)) :
    l = pre ++ tc :: post ∧ tc.tc_program = name ∧ ∀ x ∈ pre, x.tc_program ≠ name := by
  induction l generalizing pre with
  | nil => simp [trace_lookup] at h
  | cons a rest ih =>
    unfold trace_lookup at h
    by_cases ha : a.tc_program = name
    · simp only [ha, if_true, Option.some.injEq, Prod.mk.injEq] at h
      obtain ⟨h1, h2, h3⟩ := h
      subst h1 h2 h3
      simp [ha]
    · simp only [ha, if_false] at h
      cases hr : trace_lookup name rest with
      | none => simp [hr] at h
      | some t =>
        obtain ⟨pre1, found, post1⟩ := t
        simp only [hr, Option.some.injEq, Prod.mk.injEq] at h
        obtain ⟨h1, h2, h3⟩ := h
        subst h1 h2 h3
        obtain ⟨e1, e2, e3⟩ := ih hr
        refine ⟨by simp [e1], e2, ?_⟩
        intro x hx
        rcases List.mem_cons.mp hx with hx | hx
        · subst hx; exact ha
        · exact e3 x hx

theorem trace_lookup_none {name : List Char} {l : List trace} :
    trace_lookup name l = none ↔ ∀ x ∈ l, x.tc_program ≠ name := by
  induction l with
  | nil => simp [trace_lookup]
  | cons a rest ih =>
    unfold trace_lookup
    by_cases ha : a.tc_program = name
    · simp [ha]
    · simp only [ha, if_false, List.mem_cons, forall_eq_or_imp, ne_eq, not_false_eq_true, true_and]
      rw [← ih]
      cases hr : trace_lookup name rest with
      | none => simp
      | some t => obtain ⟨pre1, found, post1⟩ := t; simp

theorem trace_lookup_at (name : List Char) (pre post : List trace) (tc : trace)
    (hpre : ∀ x ∈ pre, x.tc_program ≠ name) (htc : tc.tc_program = name) :
    trace_lookup name (pre ++ tc :: post) = some (pre, tc, post) := by
  induction pre with
  | nil => simp [trace_lookup, htc]
  | cons a t ih =>
    have ha : a.tc_program ≠ name := hpre a (List.mem_cons_self _ _)
    have := ih (fun x hx => hpre x (List.mem_cons_of_mem _ hx))
    rw [List.cons_append, trace_lookup, if_neg ha, this]

theorem trace_lookup_mem (l : List trace) (e : trace) (hmem : e ∈ l)
    (hnd : (l.map trace.tc_program).Nodup) :
    ∃ pre post, l = pre ++ e :: post ∧ trace_lookup e.tc_program l = some (pre, e, post) := by
  obtain ⟨pre, post, hl⟩ := List.append_of_mem hmem
  refine ⟨pre, post, hl, ?_⟩
  rw [hl]
  apply trace_lookup_at _ _ _ _ _ rfl
  intro x hx hname
  rw [hl, List.map_append, List.map_cons] at hnd
  have hdis := (List.nodup_append.mp hnd).2.2
  exact hdis (List.mem_map_of_mem _ hx) (by rw [hname]; exact List.mem_cons_self _ _)

theorem trace_change_command_words (program version : List Char) (flag : Nat) (onoff : List Char)
    (hp : is_token program) (hv : is_token version) (ho : is_token onoff) :
    str2words true (trace_change_command program version flag onoff)
      = (Ret.val 5, ["trace_change".toList, program, version, decimal flag, onoff]) := by
  rw [str2words_ok]
  have : str2words_split (trace_change_command program version flag onoff)
      = ["trace_change".toList, program, version, decimal flag, onoff] := by
    unfold trace_change_command
    rw [str2words_split_token_space _ _ (by decide), str2words_split_token_space _ _ hp,
      str2words_split_token_space _ _ hv, str2words_split_token_space _ _ (decimal_token flag),
      str2words_split_token _ ho]
  rw [this]
  rfl

theorem trace_change_command_eq (st pre post : List trace) (e : trace) (i : Nat)
    (onoff : List Char) (ho : is_token onoff)
    (hl : trace_lookup e.tc_program st = some (pre, e, post))
    (hname : is_token e.tc_program) (hver : is_token e.tc_version)
    (hi : i < e.tc_flags) (hflags : e.tc_flags < 2 ^ 32) :
    trace_change true (trace_change_command e.tc_program e.tc_version i onoff) st =
      if onoff = "on".toList then
        (Ret.val 0, pre ++ { e with tc_bytes := KDBL_TRACE_SET e.tc_bytes i } :: post)
      else if onoff = "off".toList then
        (Ret.val 0, pre ++ { e with tc_bytes := KDBL_TRACE_CLEAR e.tc_bytes i } :: post)
      else (Ret.err Errno.EINVAL, st) := by
  unfold trace_change
  rw [trace_change_command_words _ _ _ _ hname hver ho]
  have hmod : i % 2 ^ 32 = i := Nat.mod_eq_of_lt (by omega)
  simp only [ne_eq, not_true_eq_false, if_false, List.getD_cons_succ, List.getD_cons_zero, hl,
    sscanf_u_decimal, hmod, ge_iff_le, Nat.not_le.mpr hi]

theorem str2words_split_eq_tokens (s : List Char) : str2words_split s = tokens s := by
  unfold tokens cstr List.splitOn
  induction s with
  | nil => rfl
  | cons c p ih =>
    unfold str2words_split
    by_cases h0 : c = NUL
    · simp [h0]
    · rw [if_neg h0, List.takeWhile_cons_of_pos (by simpa using h0), List.splitOnP_cons]
      by_cases h1 : c = ' '
      · simp [h1, ih]
      · rw [if_neg h1, if_neg (by simpa using h1), ← ih]
        cases hs : str2words_split p with
        | nil => exact absurd hs (str2words_split_ne_nil p)
        | cons w ws => rfl

theorem simple_strtoul_eq (s : List Char) (acc : Nat) :
    simple_strtoul s acc
      = (s.takeWhile isdigit).foldl (fun acc c => acc * 10 + (c.toNat - 48)) acc := by
  induction s generalizing acc with
  | nil => rfl
  | cons c cs ih =>
    unfold simple_strtoul
    by_cases h : isdigit c = true
    · rw [if_pos h, List.takeWhile_cons_of_pos h, List.foldl_cons, ih]
    · rw [if_neg h, List.takeWhile_cons_of_neg h]
      rfl

theorem sscanf_u_eq (w : List Char) :
    sscanf_u w = if leading_digits w = [] then none
                 else some (numeral_value (leading_digits w) % 2 ^ 32) := by
  unfold sscanf_u leading_digits numeral_value
  cases h : List.dropWhile isspace w with
  | nil => simp
  | cons c cp =>
    simp only
    by_cases hc : isdigit c = true
    · rw [if_pos hc, if_neg (by rw [List.takeWhile_cons_of_pos hc]; simp), simple_strtoul_eq]
    · rw [if_neg hc, if_pos (by rw [List.takeWhile_cons_of_neg hc])]

theorem first_named_iff (name : List Char) (tc : trace) (l : List trace) :
    first_named name tc l ↔ ∃ pre post, trace_lookup name l = some (pre, tc, post) := by
  constructor
  · rintro ⟨pre, post, h1, h2, h3⟩
    exact ⟨pre, post, by rw [h1]; exact trace_lookup_at name pre post tc h2 h3⟩
  · rintro ⟨pre, post, h⟩
    obtain ⟨h1, h2, h3⟩ := trace_lookup_some h
    exact ⟨pre, post, h1, h3, h2⟩

/-- The value of `trace_change` in terms of the tokens of the command, when the word array
can be allocated. -/
theorem trace_change_eq (cmd : List Char) (st : List trace) :
    trace_change true cmd st =
      if (tokens cmd).length ≠ 5 then (Ret.err Errno.EINVAL, st)
      else
        match trace_lookup ((tokens cmd).getD 1 []) st with
        | none => (Ret.err Errno.ENOENT, st)
        | some (pre, tc, post) =>
          if tc.tc_version ≠ (tokens cmd).getD 2 [] then (Ret.err Errno.EINVAL, st)
          else if leading_digits ((tokens cmd).getD 3 []) = [] then (Ret.err Errno.EINVAL, st)
          else if scanned_value ((tokens cmd).getD 3 []) ≥ tc.tc_flags then
            (Ret.err Errno.EINVAL, st)
          else if (tokens cmd).getD 4 [] = "on".toList then
            (Ret.val 0, pre ++ { tc with
              tc_bytes := KDBL_TRACE_SET tc.tc_bytes (scanned_value ((tokens cmd).getD 3 [])) }
              :: post)
          else if (tokens cmd).getD 4 [] = "off".toList then
            (Ret.val 0, pre ++ { tc with
              tc_bytes := KDBL_TRACE_CLEAR tc.tc_bytes (scanned_value ((tokens cmd).getD 3 [])) }
              :: post)
          else (Ret.err Errno.EINVAL, st) := by
  unfold trace_change
  rw [str2words_ok, str2words_split_eq_tokens]
  simp only
  split
  · rfl
  · cases hl : trace_lookup ((tokens cmd).getD 1 []) st with
    | none => rfl
    | some t =>
      obtain ⟨pre, tc, post⟩ := t
      simp only
      split
      · rfl
      · rw [sscanf_u_eq]
        by_cases hd : leading_digits ((tokens cmd).getD 3 []) = []
        · simp only [hd, if_true]
        · simp only [hd, if_false, scanned_value]

/-- A failing `trace_change` leaves `trace_list` as it was. -/
theorem trace_change_err_unchanged (wa : Bool) (cmd : List Char) (st : List trace) (e : Errno)
    (h : (trace_change wa cmd st).1 = Ret.err e) : (trace_change wa cmd st).2 = st := by
  unfold trace_change at h ⊢
  cases hw : str2words wa cmd with
  | mk r words =>
    rw [hw] at h
    cases r with
    | err e1 => rfl
    | val n =>
      simp only at h ⊢
      split
      · rfl
      · rename_i hn
        rw [if_neg hn] at h
        cases hl : trace_lookup (words.getD 1 []) st with
        | none => rfl
        | some t =>
          obtain ⟨pre, tc, post⟩ := t
          rw [hl] at h
          simp only at h ⊢
          split
          · rfl
          · rename_i hv
            rw [if_neg hv] at h
            cases hs : sscanf_u (words.getD 3 []) with
            | none => rfl
            | some flag =>
              rw [hs] at h
              simp only at h ⊢
              split
              · rfl
              · rename_i hf
                rw [if_neg hf] at h
                split
                · rename_i ho; rw [if_pos ho] at h; simp at h
                · rename_i ho
                  rw [if_neg ho] at h
                  split
                  · rename_i hoff; rw [if_pos hoff] at h; simp at h
                  · rfl

theorem trace_change_tokens5 (cmd : List Char) (st : List trace) (w0 w1 w2 w3 w4 : List Char)
    (tc : trace) (ht : tokens cmd = [w0, w1, w2, w3, w4]) (hf : first_named w1 tc st)
    (hv : tc.tc_version = w2) :
    ∃ pre post, st = pre ++ tc :: post ∧
      trace_change true cmd st =
        if leading_digits w3 = [] then (Ret.err Errno.EINVAL, st)
        else if scanned_value w3 ≥ tc.tc_flags then (Ret.err Errno.EINVAL, st)
        else if w4 = "on".toList then
          (Ret.val 0, pre ++ { tc with tc_bytes := KDBL_TRACE_SET tc.tc_bytes (scanned_value w3) }
            :: post)
        else if w4 = "off".toList then
          (Ret.val 0, pre ++ { tc with tc_bytes := KDBL_TRACE_CLEAR tc.tc_bytes (scanned_value w3) }
            :: post)
        else (Ret.err Errno.EINVAL, st) := by
  obtain ⟨pre, post, hl⟩ := (first_named_iff w1 tc st).mp hf
  refine ⟨pre, post, (trace_lookup_some hl).1, ?_⟩
  rw [trace_change_eq, ht]
  simp only [List.length_cons, List.length_nil, ne_eq, not_true_eq_false, if_false,
    List.getD_cons_succ, List.getD_cons_zero, hl, hv, Nat.reduceAdd]

/-- C5, as stated, fails: with the entry ("p", "1.0", 16) the command
`trace_change p 1.0 3abc on` returns 0 although its fourth token `3abc` is no plain decimal
integer, and `trace_change p 1.0 4294967299 on` returns 0 although the value of its
fourth token is not below 16. -/
theorem trace_change_accepts_trailing_chars :
    ((trace_change true "trace_change p 1.0 3abc on".toList
        [{ tc_program := "p".toList, tc_version := "1.0".toList, tc_flags := 16, tc_array := 7,
           tc_bytes := [0, 0] }]).1 = Ret.val 0 ∧
      tokens "trace_change p 1.0 3abc on".toList
        = ["trace_change".toList, "p".toList, "1.0".toList, "3abc".toList, "on".toList] ∧
      ¬ is_decimal_numeral "3abc".toList) ∧
    ((trace_change true "trace_change p 1.0 4294967299 on".toList
        [{ tc_program := "p".toList, tc_version := "1.0".toList, tc_flags := 16, tc_array := 7,
           tc_bytes := [0, 0] }]).1 = Ret.val 0 ∧
      tokens "trace_change p 1.0 4294967299 on".toList
        = ["trace_change".toList, "p".toList, "1.0".toList, "4294967299".toList, "on".toList] ∧
      is_decimal_numeral "4294967299".toList ∧
      ¬ numeral_value "4294967299".toList < 16) := by
  decide

/-- C5, amended: when the word array can be allocated, `trace_change` returns 0 if and only
if the text (up to its first NUL) consists of exactly 5 space-separated tokens, the second
token names a live entry, the third token equals the version of the first entry so named,
the fourth token has a decimal digit after its leading white space and the value of its
leading run of digits, reduced modulo 2^32, is below the flag count of that entry (what
follows the digits is ignored), and the fifth token is exactly `on` or exactly `off`; with
the first three conditions met, a fourth token without a leading digit or with a value so
read that is not below the flag count fails with EINVAL and changes nothing. -/
theorem trace_change_success_iff (cmd : List Char) (st : List trace) :
    ((trace_change true cmd st).1 = Ret.val 0 ↔
      ∃ w0 w1 w2 w3 w4 tc, tokens cmd = [w0, w1, w2, w3, w4] ∧ first_named w1 tc st ∧
        tc.tc_version = w2 ∧ leading_digits w3 ≠ [] ∧ scanned_value w3 < tc.tc_flags ∧
        (w4 = "on".toList ∨ w4 = "off".toList)) ∧
    (∀ w0 w1 w2 w3 w4 tc, tokens cmd = [w0, w1, w2, w3, w4] → first_named w1 tc st →
      tc.tc_version = w2 → (leading_digits w3 = [] ∨ tc.tc_flags ≤ scanned_value w3) →
      trace_change true cmd st = (Ret.err Errno.EINVAL, st)) := by
  constructor
  · constructor
    · intro h
      rw [trace_change_eq] at h
      by_cases hn : (tokens cmd).length = 5
      · rw [if_neg (by simpa using hn)] at h
        rcases hT : tokens cmd with _ | ⟨w0, _ | ⟨w1, _ | ⟨w2, _ | ⟨w3, _ | ⟨w4, _ | ⟨w5, t⟩⟩⟩⟩⟩⟩ <;>
          rw [hT] at hn <;> simp at hn
        rw [hT] at h
        simp only [List.getD_cons_succ, List.getD_cons_zero] at h
        cases hl : trace_lookup w1 st with
        | none => rw [hl] at h; simp at h
        | some t =>
          obtain ⟨pre, tc, post⟩ := t
          rw [hl] at h
          simp only at h
          by_cases hv : tc.tc_version = w2
          · rw [if_neg (by simpa using hv)] at h
            by_cases hd : leading_digits w3 = []
            · rw [if_pos hd] at h; simp at h
            · rw [if_neg hd] at h
              by_cases hf : scanned_value w3 ≥ tc.tc_flags
              · rw [if_pos hf] at h; simp at h
              · rw [if_neg hf] at h
                refine ⟨w0, w1, w2, w3, w4, tc, rfl, (first_named_iff w1 tc st).mpr ⟨pre, post, hl⟩,
                  hv, hd, by omega, ?_⟩
                by_cases hon : w4 = "on".toList
                · exact Or.inl hon
                · rw [if_neg hon] at h
                  by_cases hoff : w4 = "off".toList
                  · exact Or.inr hoff
                  · rw [if_neg hoff] at h; simp at h
          · rw [if_pos (by simpa using hv)] at h; simp at h
      · rw [if_pos (by simpa using hn)] at h; simp at h
    · rintro ⟨w0, w1, w2, w3, w4, tc, ht, hf, hv, hd, hlt, hon⟩
      obtain ⟨pre, post, _, he⟩ := trace_change_tokens5 cmd st w0 w1 w2 w3 w4 tc ht hf hv
      rw [he, if_neg hd, if_neg (by omega)]
      rcases hon with hon | hon
      · rw [if_pos hon]
      · rw [hon, if_neg (by decide), if_pos rfl]
  · intro w0 w1 w2 w3 w4 tc ht hf hv hbad
    obtain ⟨pre, post, _, he⟩ := trace_change_tokens5 cmd st w0 w1 w2 w3 w4 tc ht hf hv
    rw [he]
    rcases hbad with hbad | hbad
    · rw [if_pos hbad]
    · by_cases hd : leading_digits w3 = []
      · rw [if_pos hd]
      · rw [if_neg hd, if_pos hbad]

/-- Witness of C5 (amended): with the entry ("p", "1.0", 16), the token `x3` has no leading
digit and the command with it fails with EINVAL, while `3abc` is read as 3 and accepted. -/
theorem trace_change_success_iff_witness :
    (tokens "trace_change p 1.0 x3 on".toList
        = ["trace_change".toList, "p".toList, "1.0".toList, "x3".toList, "on".toList] ∧
      first_named "p".toList
        { tc_program := "p".toList, tc_version := "1.0".toList, tc_flags := 16, tc_array := 7,
          tc_bytes := [0, 0] }
        [{ tc_program := "p".toList, tc_version := "1.0".toList, tc_flags := 16, tc_array := 7,
           tc_bytes := [0, 0] }] ∧
      leading_digits "x3".toList = []) ∧
    trace_change true "trace_change p 1.0 x3 on".toList
        [{ tc_program := "p".toList, tc_version := "1.0".toList, tc_flags := 16, tc_array := 7,
           tc_bytes := [0, 0] }]
      = (Ret.err Errno.EINVAL,
          [{ tc_program := "p".toList, tc_version := "1.0".toList, tc_flags := 16, tc_array := 7,
             tc_bytes := [0, 0] }]) ∧
    (leading_digits "3abc".toList = ['3'] ∧ scanned_value "3abc".toList = 3) :=
  ⟨⟨by decide, ⟨[], [], rfl, by simp, rfl⟩, by decide⟩,
    (trace_change_success_iff "trace_change p 1.0 x3 on".toList
      [{ tc_program := "p".toList, tc_version := "1.0".toList, tc_flags := 16, tc_array := 7,
         tc_bytes := [0, 0] }]).2
      "trace_change".toList "p".toList "1.0".toList "x3".toList "on".toList
      { tc_program := "p".toList, tc_version := "1.0".toList, tc_flags := 16, tc_array := 7,
        tc_bytes := [0, 0] }
      (by decide) ⟨[], [], rfl, by simp, rfl⟩ rfl (Or.inl (by decide)),
    by decide⟩

/-- The value of `profile_dump` in terms of the tokens of the command, when the word array
can be allocated. -/
theorem profile_dump_eq (cmd : List Char) (size : Nat) (ok : Bool) (l : List profile) :
    profile_dump true cmd size ok l =
      if (tokens cmd).length ≠ 3 then (Ret.err Errno.EINVAL, [], l)
      else
        match profile_lookup ((tokens cmd).getD 1 []) l with
        | none => (Ret.err Errno.ENOENT, [], l)
        | some (pre, pc, post) =>
          if pc.pc_version ≠ (tokens cmd).getD 2 [] then (Ret.err Errno.EINVAL, [], l)
          else if ok then
            (Ret.val (pc.pc_flags * 32), pc.pc_array, pre ++ profile_snapshot pc :: post)
          else (Ret.err Errno.EFAULT, [], pre ++ profile_snapshot pc :: post) := by
  unfold profile_dump
  rw [str2words_ok, str2words_split_eq_tokens]
  rfl

/-- A `profile_dump` that fails otherwise than with EFAULT leaves `profile_list` as it
was. -/
theorem profile_dump_err_unchanged (wa : Bool) (cmd : List Char) (size : Nat) (ok : Bool)
    (l : List profile) (e : Errno) (h : (profile_dump wa cmd size ok l).1 = Ret.err e)
    (he : e ≠ Errno.EFAULT) : (profile_dump wa cmd size ok l).2.2 = l := by
  rcases profile_dump_cases wa cmd size ok l with ⟨e1, _, h1⟩ | ⟨pre, pc, post, _, _, _, _, h1⟩
  · rw [h1]
  · rw [h1] at h
    cases ok with
    | true => simp at h
    | false =>
      simp only [Bool.false_eq_true, if_false, Ret.err.injEq] at h
      exact absurd h.symm he

/-- C6, as stated, fails: with the entry ("p", "1.0", 16) the version mismatch of
`trace_change p 2.0 3 off` and the out-of-range index of `trace_change p 1.0 16 on` are
answered with the same error, EINVAL, as is the version mismatch of a `profile_dump`; and a
`profile_dump` that fails with EFAULT has changed the statistics of the entry. -/
theorem version_mismatch_is_einval :
    (trace_change true "trace_change p 2.0 3 off".toList
        [{ tc_program := "p".toList, tc_version := "1.0".toList, tc_flags := 16, tc_array := 7,
           tc_bytes := [0, 0] }]).1 = Ret.err Errno.EINVAL ∧
    (trace_change true "trace_change p 1.0 16 on".toList
        [{ tc_program := "p".toList, tc_version := "1.0".toList, tc_flags := 16, tc_array := 7,
           tc_bytes := [0, 0] }]).1 = Ret.err Errno.EINVAL ∧
    (profile_dump true "profile_dump p w".toList 32 true
        (record_samples 9 [(0, 2, 5)] (profile_fresh "p".toList "v".toList 1 9 []))).1
      = Ret.err Errno.EINVAL ∧
    ((profile_dump true "profile_dump p v".toList 32 false
        (record_samples 9 [(0, 2, 5)] (profile_fresh "p".toList "v".toList 1 9 []))).1
        = Ret.err Errno.EFAULT ∧
      (profile_dump true "profile_dump p v".toList 32 false
        (record_samples 9 [(0, 2, 5)] (profile_fresh "p".toList "v".toList 1 9 []))).2.2
        ≠ record_samples 9 [(0, 2, 5)] (profile_fresh "p".toList "v".toList 1 9 [])) := by
  decide

/-- C6, amended: when the word array can be allocated, a 5-token `trace_change` command
(a 3-token `profile_dump` command) whose name token matches no live entry fails with
ENOENT whatever its other tokens are; one whose name token matches a live entry, the first
so named having a version different from the version token, fails with EINVAL, the very
error returned for an out-of-range flag index or an unrecognised on/off token; every
failing `trace_change` leaves the trace list as it was, and so does every failing
`profile_dump` for the profile list unless it fails with EFAULT. -/
theorem command_failures :
    (∀ (cmd : List Char) (st : List trace), (tokens cmd).length = 5 →
      (∀ tc ∈ st, tc.tc_program ≠ (tokens cmd).getD 1 []) →
      trace_change true cmd st = (Ret.err Errno.ENOENT, st)) ∧
    (∀ (cmd : List Char) (st : List trace) (tc : trace), (tokens cmd).length = 5 →
      first_named ((tokens cmd).getD 1 []) tc st → tc.tc_version ≠ (tokens cmd).getD 2 [] →
      trace_change true cmd st = (Ret.err Errno.EINVAL, st)) ∧
    (∀ (wa : Bool) (cmd : List Char) (st : List trace) (e : Errno),
      (trace_change wa cmd st).1 = Ret.err e → (trace_change wa cmd st).2 = st) ∧
    (∀ (cmd : List Char) (size : Nat) (ok : Bool) (l : List profile), (tokens cmd).length = 3 →
      (∀ pc ∈ l, pc.pc_program ≠ (tokens cmd).getD 1 []) →
      profile_dump true cmd size ok l = (Ret.err Errno.ENOENT, [], l)) ∧
    (∀ (cmd : List Char) (size : Nat) (ok : Bool) (l pre post : List profile) (pc : profile),
      (tokens cmd).length = 3 → l = pre ++ pc :: post →
      (∀ x ∈ pre, x.pc_program ≠ (tokens cmd).getD 1 []) →
      pc.pc_program = (tokens cmd).getD 1 [] → pc.pc_version ≠ (tokens cmd).getD 2 [] →
      profile_dump true cmd size ok l = (Ret.err Errno.EINVAL, [], l)) ∧
    (∀ (wa : Bool) (cmd : List Char) (size : Nat) (ok : Bool) (l : List profile) (e : Errno),
      (profile_dump wa cmd size ok l).1 = Ret.err e → e ≠ Errno.EFAULT →
      (profile_dump wa cmd size ok l).2.2 = l) := by
  refine ⟨?_, ?_, trace_change_err_unchanged, ?_, ?_, profile_dump_err_unchanged⟩
  · intro cmd st hn hnone
    rw [trace_change_eq, if_neg (by simpa using hn), trace_lookup_none.mpr hnone]
  · intro cmd st tc hn hf hv
    obtain ⟨pre, post, hl⟩ := (first_named_iff _ tc st).mp hf
    rw [trace_change_eq, if_neg (by simpa using hn), hl]
    simp only [ne_eq, hv, not_false_eq_true, if_true]
  · intro cmd size ok l hn hnone
    rw [profile_dump_eq, if_neg (by simpa using hn), profile_lookup_none.mpr hnone]
  · intro cmd size ok l pre post pc hn hl hpre hname hv
    rw [profile_dump_eq, if_neg (by simpa using hn), hl, profile_lookup_at _ pre post pc hpre hname]
    simp only [ne_eq, hv, not_false_eq_true, if_true]

/-- Witness of C6 (amended): the examples of the spec on the entry ("p", "1.0", 16), an
unknown name, and a `profile_dump` with a wrong version. -/
theorem command_failures_witness :
    ((tokens "trace_change q 1.0 3 on".toList).length = 5 ∧
      trace_change true "trace_change q 1.0 3 on".toList
        [{ tc_program := "p".toList, tc_version := "1.0".toList, tc_flags := 16, tc_array := 7,
           tc_bytes := [0, 0] }]
      = (Ret.err Errno.ENOENT,
          [{ tc_program := "p".toList, tc_version := "1.0".toList, tc_flags := 16, tc_array := 7,
             tc_bytes := [0, 0] }])) ∧
    ((tokens "trace_change p 2.0 3 off".toList).length = 5 ∧
      trace_change true "trace_change p 2.0 3 off".toList
        [{ tc_program := "p".toList, tc_version := "1.0".toList, tc_flags := 16, tc_array := 7,
           tc_bytes := [0, 0] }]
      = (Ret.err Errno.EINVAL,
          [{ tc_program := "p".toList, tc_version := "1.0".toList, tc_flags := 16, tc_array := 7,
             tc_bytes := [0, 0] }])) ∧
    ((tokens "profile_dump p w".toList).length = 3 ∧
      profile_dump true "profile_dump p w".toList 32 true
          (profile_fresh "p".toList "v".toList 1 9 [])
        = (Ret.err Errno.EINVAL, [], profile_fresh "p".toList "v".toList 1 9 [])) :=
  ⟨⟨by decide, command_failures.1 "trace_change q 1.0 3 on".toList
      [{ tc_program := "p".toList, tc_version := "1.0".toList, tc_flags := 16, tc_array := 7,
         tc_bytes := [0, 0] }] (by decide) (by decide)⟩,
   ⟨by decide, command_failures.2.1 "trace_change p 2.0 3 off".toList
      [{ tc_program := "p".toList, tc_version := "1.0".toList, tc_flags := 16, tc_array := 7,
         tc_bytes := [0, 0] }]
      { tc_program := "p".toList, tc_version := "1.0".toList, tc_flags := 16, tc_array := 7,
        tc_bytes := [0, 0] } (by decide) ⟨[], [], rfl, by simp, by decide⟩ (by decide)⟩,
   ⟨by decide, command_failures.2.2.2.2.1 "profile_dump p w".toList 32 true
      (profile_fresh "p".toList "v".toList 1 9 []) [] []
      { pc_self := 9, pc_program := "p".toList, pc_version := "v".toList, pc_flags := 1,
        pc_array := [profile_element_reset], pc_array2 := [] }
      (by decide) (by decide) (by simp) (by decide) (by decide)⟩⟩

theorem trace_change_names (wa : Bool) (cmd : List Char) (st : List trace) :
    (trace_change wa cmd st).2.map trace.tc_program = st.map trace.tc_program := by
  cases hr : (trace_change wa cmd st).1 with
  | err e => rw [trace_change_err_unchanged wa cmd st e hr]
  | val n =>
    cases wa with
    | false => simp [trace_change, str2words] at hr
    | true =>
      rw [trace_change_eq] at hr ⊢
      split at hr
      · simp at hr
      · rename_i hn
        rw [if_neg hn]
        cases hl : trace_lookup ((tokens cmd).getD 1 []) st with
        | none => rfl
        | some t =>
          obtain ⟨pre, tc, post⟩ := t
          have hst := (trace_lookup_some hl).1
          simp only
          split
          · rfl
          · split
            · rfl
            · split
              · rfl
              · split
                · rw [hst]; simp
                · split
                  · rw [hst]; simp
                  · rfl

theorem kdbl_trace_destroy_array_sublist (array : Nat) (st : List trace) :
    (kdbl_trace_destroy_array array st).2.Sublist st := by
  induction st with
  | nil => simp [kdbl_trace_destroy_array]
  | cons a t ih =>
    unfold kdbl_trace_destroy_array
    split
    · exact List.sublist_cons_self a t
    · exact ih.cons₂ a

theorem kdbl_trace_create_array_names (program version : List Char) (flags : Nat) (a : Bool)
    (b : Option Nat) (st : List trace) (h : (st.map trace.tc_program).Nodup) :
    ((kdbl_trace_create_array program version flags a b st).2.2.map trace.tc_program).Nodup := by
  unfold kdbl_trace_create_array
  cases hl : trace_lookup program st with
  | some t => exact h
  | none =>
    simp only
    cases a with
    | false => exact h
    | true =>
      cases b with
      | none => exact h
      | some addr =>
        simp only [if_true, List.map_cons, List.nodup_cons]
        refine ⟨?_, h⟩
        intro hm
        obtain ⟨x, hx, hxe⟩ := List.mem_map.mp hm
        exact trace_lookup_none.mp hl x hx hxe

theorem trace_reach_nodup (ops : List TraceOp) :
    ((trace_reach ops).map trace.tc_program).Nodup := by
  unfold trace_reach
  induction ops using List.reverseRecOn with
  | nil => simp
  | append_singleton ops op ih =>
    rw [List.foldl_append]
    simp only [List.foldl_cons, List.foldl_nil]
    cases op with
    | create program version flags a b => exact kdbl_trace_create_array_names _ _ _ _ _ _ ih
    | destroy array =>
      exact List.Nodup.sublist ((kdbl_trace_destroy_array_sublist array _).map _) ih
    | change wa cmd =>
      simp only [trace_step]
      rw [trace_change_names]
      exact ih

theorem profile_dump_names (wa : Bool) (cmd : List Char) (size : Nat) (ok : Bool)
    (l : List profile) :
    (profile_dump wa cmd size ok l).2.2.map profile.pc_program = l.map profile.pc_program := by
  rcases profile_dump_cases wa cmd size ok l with ⟨e1, _, h1⟩ | ⟨pre, pc, post, _, _, hl, _, h1⟩
  · rw [h1]
  · rw [h1, (profile_lookup_some hl).1]
    cases ok <;> simp [profile_snapshot]

theorem profile_exit_at_names (cookie stop flag start : Nat) (l : List profile) :
    (profile_exit_at cookie stop flag start l).map profile.pc_program
      = l.map profile.pc_program := by
  unfold profile_exit_at
  rw [List.map_map]
  apply List.map_congr_left
  intro pc _
  simp only [Function.comp]
  split
  · exact (kdbl_profile_exit_names stop pc flag start).1
  · rfl

theorem kdbl_profile_destroy_array_sublist (cookie : Nat) (l : List profile) :
    (kdbl_profile_destroy_array cookie l).Sublist l := by
  induction l with
  | nil => simp [kdbl_profile_destroy_array]
  | cons a t ih =>
    unfold kdbl_profile_destroy_array
    split
    · exact List.sublist_cons_self a t
    · exact ih.cons₂ a

theorem kdbl_profile_create_array_names (program version : List Char) (flags : Nat)
    (a : Option Nat) (b : Bool) (c : Option (List profile_element)) (l : List profile)
    (h : (l.map profile.pc_program).Nodup) :
    ((kdbl_profile_create_array program version flags a b c l).2.2.map profile.pc_program).Nodup := by
  unfold kdbl_profile_create_array
  cases hl : profile_lookup program l with
  | some t => exact h
  | none =>
    simp only
    cases a with
    | none => exact h
    | some addr =>
      cases b with
      | false => exact h
      | true =>
        cases c with
        | none => exact h
        | some block =>
          simp only [if_true, List.map_cons, List.nodup_cons]
          refine ⟨?_, h⟩
          intro hm
          obtain ⟨x, hx, hxe⟩ := List.mem_map.mp hm
          exact profile_lookup_none.mp hl x hx hxe

theorem profile_reach_nodup (ops : List ProfileRegOp) :
    ((profile_reach ops).map profile.pc_program).Nodup := by
  unfold profile_reach
  induction ops using List.reverseRecOn with
  | nil => simp
  | append_singleton ops op ih =>
    rw [List.foldl_append]
    simp only [List.foldl_cons, List.foldl_nil]
    cases op with
    | create program version flags a b c => exact kdbl_profile_create_array_names _ _ _ _ _ _ _ ih
    | destroy cookie =>
      exact List.Nodup.sublist ((kdbl_profile_destroy_array_sublist cookie _).map _) ih
    | exit cookie flag start stop =>
      simp only [profile_step]
      rw [profile_exit_at_names]
      exact ih
    | dump wa cmd size ok =>
      simp only [profile_step]
      rw [profile_dump_names]
      exact ih

/-- C7: in every trace list and every profile list reached from the empty list by any
sequence of create, destroy, sample and command operations, the names of the entries are
pairwise distinct; and a create whose name is that of a live entry returns EEXIST and
leaves the list, with every entry in it, as it was, whatever the allocations do. -/
theorem registry_names_unique :
    (∀ ops : List TraceOp, ((trace_reach ops).map trace.tc_program).Nodup) ∧
    (∀ ops : List ProfileRegOp, ((profile_reach ops).map profile.pc_program).Nodup) ∧
    (∀ (program version : List Char) (flags : Nat) (tc_alloc : Bool) (array_alloc : Option Nat)
        (st : List trace), (∃ tc ∈ st, tc.tc_program = program) →
      kdbl_trace_create_array program version flags tc_alloc array_alloc st
        = (Ret.err Errno.EEXIST, none, st)) ∧
    (∀ (program version : List Char) (flags : Nat) (pc_alloc : Option Nat) (array_alloc : Bool)
        (array2_alloc : Option (List profile_element)) (l : List profile),
      (∃ pc ∈ l, pc.pc_program = program) →
      kdbl_profile_create_array program version flags pc_alloc array_alloc array2_alloc l
        = (Ret.err Errno.EEXIST, none, l)) := by
  refine ⟨trace_reach_nodup, profile_reach_nodup, ?_, ?_⟩
  · intro program version flags a b st ⟨tc, hm, hn⟩
    unfold kdbl_trace_create_array
    cases hl : trace_lookup program st with
    | some t => rfl
    | none => exact absurd hn (trace_lookup_none.mp hl tc hm)
  · intro program version flags a b c l ⟨pc, hm, hn⟩
    unfold kdbl_profile_create_array
    cases hl : profile_lookup program l with
    | some t => rfl
    | none => exact absurd hn (profile_lookup_none.mp hl pc hm)

/-- Witness of C7: a second create of "p", with another version and flag count, on the
list holding the entry "p". -/
theorem registry_names_unique_witness :
    ((∃ tc ∈ (kdbl_trace_create_array "p".toList "1.0".toList 16 true (some 7) []).2.2,
        tc.tc_program = "p".toList) ∧
      kdbl_trace_create_array "p".toList "2.0".toList 8 true (some 8)
          (kdbl_trace_create_array "p".toList "1.0".toList 16 true (some 7) []).2.2
        = (Ret.err Errno.EEXIST, none,
            (kdbl_trace_create_array "p".toList "1.0".toList 16 true (some 7) []).2.2)) ∧
    ((∃ pc ∈ profile_fresh "p".toList "v".toList 2 9 [], pc.pc_program = "p".toList) ∧
      kdbl_profile_create_array "p".toList "w".toList 3 (some 10) true (some [])
          (profile_fresh "p".toList "v".toList 2 9 [])
        = (Ret.err Errno.EEXIST, none, profile_fresh "p".toList "v".toList 2 9 [])) :=
  ⟨⟨by decide, registry_names_unique.2.2.1 "p".toList "2.0".toList 8 true (some 8)
      (kdbl_trace_create_array "p".toList "1.0".toList 16 true (some 7) []).2.2 (by decide)⟩,
   ⟨by decide, registry_names_unique.2.2.2 "p".toList "w".toList 3 (some 10) true (some [])
      (profile_fresh "p".toList "v".toList 2 9 []) (by decide)⟩⟩

theorem kdbl_trace_destroy_array_at (pre post : List trace) (e : trace)
    (hpre : ∀ x ∈ pre, x.tc_array ≠ e.tc_array) :
    kdbl_trace_destroy_array e.tc_array (pre ++ e :: post) = (none, pre ++ post) := by
  induction pre with
  | nil => simp [kdbl_trace_destroy_array]
  | cons a t ih =>
    have ha : a.tc_array ≠ e.tc_array := hpre a (List.mem_cons_self _ _)
    have := ih (fun x hx => hpre x (List.mem_cons_of_mem _ hx))
    rw [List.cons_append, kdbl_trace_destroy_array, if_neg ha, this]
    rfl

theorem kdbl_trace_destroy_array_unknown (array : Nat) (st : List trace)
    (h : ∀ tc ∈ st, tc.tc_array ≠ array) :
    kdbl_trace_destroy_array array st
      = (some "kdbl: kdbl_trace_destroy_array(): unknown array\n", st) := by
  induction st with
  | nil => rfl
  | cons a t ih =>
    have ha : a.tc_array ≠ array := h a (List.mem_cons_self _ _)
    have := ih (fun x hx => h x (List.mem_cons_of_mem _ hx))
    rw [kdbl_trace_destroy_array, if_neg ha, this]

/-- C8: in a trace list whose handles are pairwise distinct, `kdbl_trace_destroy_array`
with the handle of a live entry removes exactly that entry and leaves the entries before
and after it, flags included, as they were; when the names are pairwise distinct too, a
create with the name of the removed entry then succeeds (if its allocations do).  With
a handle that no live entry has, the list is left as it was and the call only logs a
message. -/
theorem trace_destroy_removes_entry :
    (∀ (pre post : List trace) (e : trace),
      ((pre ++ e :: post).map trace.tc_array).Nodup →
      kdbl_trace_destroy_array e.tc_array (pre ++ e :: post) = (none, pre ++ post) ∧
      (((pre ++ e :: post).map trace.tc_program).Nodup →
        ∀ (version : List Char) (flags addr : Nat),
          kdbl_trace_create_array e.tc_program version flags true (some addr) (pre ++ post)
            = (Ret.val 0, some addr,
                { tc_program := e.tc_program, tc_version := version, tc_flags := flags,
                  tc_array := addr, tc_bytes := List.replicate (DIV_RU flags 8) 0 }
                  :: (pre ++ post)))) ∧
    (∀ (array : Nat) (st : List trace), (∀ tc ∈ st, tc.tc_array ≠ array) →
      kdbl_trace_destroy_array array st
        = (some "kdbl: kdbl_trace_destroy_array(): unknown array\n", st)) := by
  refine ⟨?_, kdbl_trace_destroy_array_unknown⟩
  intro pre post e hnd
  constructor
  · apply kdbl_trace_destroy_array_at
    intro x hx heq
    rw [List.map_append, List.map_cons] at hnd
    exact (List.nodup_append.mp hnd).2.2 (List.mem_map_of_mem _ hx)
      (by rw [heq]; exact List.mem_cons_self _ _)
  · intro hnames version flags addr
    have hnone : trace_lookup e.tc_program (pre ++ post) = none := by
      rw [trace_lookup_none]
      intro x hx heq
      rw [List.map_append, List.map_cons] at hnames
      obtain ⟨h1, h2, h3⟩ := List.nodup_append.mp hnames
      rcases List.mem_append.mp hx with hx | hx
      · exact h3 (List.mem_map_of_mem _ hx) (by rw [heq]; exact List.mem_cons_self _ _)
      · exact (List.nodup_cons.mp h2).1 (by rw [← heq]; exact List.mem_map_of_mem _ hx)
    simp [kdbl_trace_create_array, hnone]

/-- Witness of C8: with the entries "q" (handle 8) and "p" (handle 7), destroying handle 7
leaves "q", after which "p" can be created again; destroying the unknown handle 5 changes
nothing. -/
theorem trace_destroy_removes_entry_witness :
    ((List.map trace.tc_array
        ([{ tc_program := "q".toList, tc_version := "1".toList, tc_flags := 8, tc_array := 8,
            tc_bytes := [1] }] ++
          { tc_program := "p".toList, tc_version := "1.0".toList, tc_flags := 16, tc_array := 7,
            tc_bytes := [8, 0] } :: [])).Nodup ∧
      kdbl_trace_destroy_array 7
          [{ tc_program := "q".toList, tc_version := "1".toList, tc_flags := 8, tc_array := 8,
             tc_bytes := [1] },
           { tc_program := "p".toList, tc_version := "1.0".toList, tc_flags := 16, tc_array := 7,
             tc_bytes := [8, 0] }]
        = (none, [{ tc_program := "q".toList, tc_version := "1".toList, tc_flags := 8,
                    tc_array := 8, tc_bytes := [1] }])) ∧
    ((∀ tc ∈ [({ tc_program := "q".toList, tc_version := "1".toList, tc_flags := 8, tc_array := 8,
                 tc_bytes := [1] } : trace)], tc.tc_array ≠ 5) ∧
      kdbl_trace_destroy_array 5
          [{ tc_program := "q".toList, tc_version := "1".toList, tc_flags := 8, tc_array := 8,
             tc_bytes := [1] }]
        = (some "kdbl: kdbl_trace_destroy_array(): unknown array\n",
            [{ tc_program := "q".toList, tc_version := "1".toList, tc_flags := 8, tc_array := 8,
               tc_bytes := [1] }])) :=
  ⟨⟨by decide,
    (trace_destroy_removes_entry.1
      [{ tc_program := "q".toList, tc_version := "1".toList, tc_flags := 8, tc_array := 8,
         tc_bytes := [1] }] []
      { tc_program := "p".toList, tc_version := "1.0".toList, tc_flags := 16, tc_array := 7,
        tc_bytes := [8, 0] } (by decide)).1⟩,
   ⟨by decide, trace_destroy_removes_entry.2 5
      [{ tc_program := "q".toList, tc_version := "1".toList, tc_flags := 8, tc_array := 8,
         tc_bytes := [1] }] (by decide)⟩⟩

theorem write_at_length (buf : List Char) (off : Nat) (data : List Char) :
    (write_at buf off data).length = buf.length := by
  unfold write_at
  simp only [List.length_append, List.length_take, List.length_drop]
  omega

theorem write_at_append (a x : List Char) (data : List Char) (h : data.length ≤ x.length) :
    write_at (a ++ x) a.length data = a ++ (data ++ x.drop data.length) := by
  unfold write_at
  rw [List.take_left', List.append_assoc]
  · congr 1
    have h1 : (a ++ x).length - a.length = x.length := by simp
    rw [h1, List.take_of_length_le h, List.drop_append_eq_append_drop]
    rw [List.drop_of_length_le (by omega)]
    simp
  · rfl

theorem write_at_zero (x data : List Char) (h : data.length ≤ x.length) :
    write_at x 0 data = data ++ x.drop data.length := by
  have := write_at_append [] x data h
  simpa using this

theorem printf_after_drain (LEN WIDTH : Nat) (text : List Char) (buf : List Char)
    (hbuf : buf.length = 2 * LEN) (ht : text.length < LEN) (hL : LEN < 2 ^ 32) :
    (kdbl_printf LEN WIDTH text { printf_buf := buf, printf_point := 0 }).1 = text.length ∧
    (kdbl_printf LEN WIDTH text { printf_buf := buf, printf_point := 0 }).2.printf_point
      = text.length ∧
    read_at (kdbl_printf LEN WIDTH text { printf_buf := buf, printf_point := 0 }).2.printf_buf
      0 text.length = text := by
  have key : ∀ b : List Char, b.length = 2 * LEN →
      read_at (vsnprintf b 0 LEN text) 0 text.length = text := by
    intro b hb
    unfold vsnprintf
    rw [if_neg (by omega), List.take_of_length_le (by omega)]
    rw [write_at_zero _ _ (by simp; omega)]
    unfold read_at
    simp
  unfold kdbl_printf
  refine ⟨rfl, ?_, ?_⟩
  · split
    · simp only [Nat.zero_add]; exact Nat.mod_eq_of_lt (by omega)
    · simp only [Nat.zero_add]; exact Nat.mod_eq_of_lt (by omega)
  · split
    · exact key _ (by unfold memset; rw [write_at_length]; exact hbuf)
    · exact key _ hbuf

/-- C9: for a log state whose array holds `2 * LEN` chars and whose cursor `p` is at most
`LEN`: with a destination smaller than `LEN`, `printf_dump` fails with ENOBUFS and leaves
buffer and cursor as they were; with a destination of at least `LEN` and a transfer that
succeeds, it returns `LEN` and delivers exactly `LEN` chars, `buf[p..LEN)` followed by
`buf[0..p)`, and afterwards the cursor is 0 and every char of the log buffer is zero, so
that the next `kdbl_printf` puts its text at offset 0. -/
theorem printf_dump_drains (LEN size : Nat) (c1 c2 : Bool) (st : printf_state)
    (hbuf : st.printf_buf.length = 2 * LEN) (hp : st.printf_point ≤ LEN) (hL : LEN < 2 ^ 32) :
    (size < LEN → printf_dump LEN size c1 c2 st = (Ret.err Errno.ENOBUFS, [], st)) ∧
    (LEN ≤ size →
      (printf_dump LEN size true true st).1 = Ret.val LEN ∧
      (printf_dump LEN size true true st).2.1
        = read_at st.printf_buf st.printf_point (LEN - st.printf_point)
          ++ read_at st.printf_buf 0 st.printf_point ∧
      (printf_dump LEN size true true st).2.1.length = LEN ∧
      (printf_dump LEN size true true st).2.2.printf_point = 0 ∧
      read_at (printf_dump LEN size true true st).2.2.printf_buf 0 LEN = List.replicate LEN NUL ∧
      ∀ (WIDTH : Nat) (text : List Char), text.length < LEN →
        (kdbl_printf LEN WIDTH text (printf_dump LEN size true true st).2.2).1 = text.length ∧
        (kdbl_printf LEN WIDTH text (printf_dump LEN size true true st).2.2).2.printf_point
          = text.length ∧
        read_at (kdbl_printf LEN WIDTH text (printf_dump LEN size true true st).2.2).2.printf_buf
          0 text.length = text) := by
  constructor
  · intro hs
    unfold printf_dump
    rw [if_pos hs]
  · intro hs
    have hE := printf_dump_eq LEN size true true st hbuf hs
    simp only [Bool.true_eq_false, if_false, and_false] at hE
    obtain ⟨q1, q2⟩ := printf_dump_parts LEN st.printf_point st.printf_buf hbuf hp hL
    rw [q1, q2] at hE
    rw [hE]
    have hl : (List.take LEN st.printf_buf).length = LEN := by simp; omega
    have hr1 : read_at st.printf_buf st.printf_point (LEN - st.printf_point)
        = (st.printf_buf.take LEN).drop st.printf_point := by
      unfold read_at
      rw [List.drop_take]
    have hr2 : read_at st.printf_buf 0 st.printf_point = st.printf_buf.take st.printf_point := by
      simp [read_at]
    refine ⟨rfl, by rw [hr1, hr2], ?_, rfl, ?_, ?_⟩
    · simp only [List.length_append, List.length_drop, List.length_take]
      omega
    · simp [read_at, List.take_append_eq_append_take]
    · intro WIDTH text ht
      exact printf_after_drain LEN WIDTH text _ (by simp; omega) ht hL

/-- Witness of C9: a log of 4 chars holding "cd", a hole and "b", cursor 2, drained into a
destination of 4 bytes and of 3 bytes; and the log of kdbl.c, just initialised, drained
into a destination one byte too small. -/
theorem printf_dump_drains_witness :
    (([ 'c', 'd', NUL, 'b', 'x', 'x', 'x', 'x'] : List Char).length = 2 * 4 ∧ 2 ≤ 4 ∧
      4 < 2 ^ 32) ∧
    printf_dump 4 3 true true { printf_buf := ['c', 'd', NUL, 'b', 'x', 'x', 'x', 'x'], printf_point := 2 }
      = (Ret.err Errno.ENOBUFS, [],
          { printf_buf := ['c', 'd', NUL, 'b', 'x', 'x', 'x', 'x'], printf_point := 2 }) ∧
    printf_dump 4 4 true true { printf_buf := ['c', 'd', NUL, 'b', 'x', 'x', 'x', 'x'], printf_point := 2 }
      = (Ret.val 4, [NUL, 'b', 'c', 'd'],
          { printf_buf := [NUL, NUL, NUL, NUL, 'c', 'd', NUL, 'b'], printf_point := 0 }) ∧
    printf_dump PRINTF_BUF_LEN 1048575 true true (printf_init PRINTF_BUF_LEN)
      = (Ret.err Errno.ENOBUFS, [], printf_init PRINTF_BUF_LEN) :=
  ⟨⟨by decide, by decide, by decide⟩,
    (printf_dump_drains 4 3 true true
      { printf_buf := ['c', 'd', NUL, 'b', 'x', 'x', 'x', 'x'], printf_point := 2 }
      (by decide) (by decide) (by decide)).1 (by decide),
    by decide,
    (printf_dump_drains PRINTF_BUF_LEN 1048575 true true (printf_init PRINTF_BUF_LEN)
      (by simp [printf_init]) (Nat.zero_le _) (by decide)).1 (by decide)⟩

theorem filter_nul_replicate (k : Nat) :
    (List.replicate k NUL).filter (fun c => c ≠ NUL) = [] := by
  induction k with
  | zero => rfl
  | succ k ih => simp [List.replicate_succ]

theorem filter_nul_id (l : List Char) (h : NUL ∉ l) : l.filter (fun c => c ≠ NUL) = l := by
  rw [List.filter_eq_self]
  intro c hc
  simp only [ne_eq, decide_not, Bool.not_eq_true', decide_eq_false_iff_not]
  intro hcn
  exact h (hcn ▸ hc)

theorem not_mem_drop {l : List Char} (h : NUL ∉ l) (n : Nat) : NUL ∉ l.drop n :=
  fun hm => h (List.mem_of_mem_drop hm)

theorem dump2console_body_shape (LEN : Nat) (st : printf_state) (prev cur : List Char) (k : Nat)
    (scratch : List Char) (h : log_shape LEN st prev cur k scratch) :
    dump2console_body LEN st = prev.drop (cur.length + 1) ++ cur := by
  obtain ⟨hb, hp, hlen, hc, hpv⟩ := h
  rw [List.length_drop] at hlen
  unfold dump2console_body read_at
  rw [hp, hb]
  have h1 : List.take (LEN - cur.length)
      (List.drop cur.length
        (cur ++ NUL :: (prev.drop (cur.length + 1) ++ (List.replicate k NUL ++ scratch))))
      = NUL :: (prev.drop (cur.length + 1) ++ List.replicate k NUL) := by
    rw [List.drop_left']
    · have e : LEN - cur.length = (NUL :: (prev.drop (cur.length + 1) ++ List.replicate k NUL)).length := by
        simp; omega
      rw [e]
      have : NUL :: (prev.drop (cur.length + 1) ++ (List.replicate k NUL ++ scratch))
          = (NUL :: (prev.drop (cur.length + 1) ++ List.replicate k NUL)) ++ scratch := by simp
      rw [this, List.take_left']
      rfl
    · rfl
  have h2 : List.take cur.length
      (List.drop 0
        (cur ++ NUL :: (prev.drop (cur.length + 1) ++ (List.replicate k NUL ++ scratch)))) = cur := by
    rw [List.drop_zero, List.take_left']
    rfl
  rw [h1, h2, filter_nul_id cur hc]
  rw [List.filter_cons_of_neg (by simp), List.filter_append, filter_nul_replicate,
    filter_nul_id _ (not_mem_drop hpv _)]
  simp

theorem printf_init_shape (LEN : Nat) (h : 0 < LEN) :
    log_shape LEN (printf_init LEN) [] [] (LEN - 1) (List.replicate LEN NUL) := by
  refine ⟨?_, rfl, by simp; omega, by simp, by simp⟩
  simp only [printf_init, List.nil_append, List.drop_nil, List.length_nil]
  have : 2 * LEN = 1 + ((LEN - 1) + LEN) := by omega
  rw [this, List.replicate_add, List.replicate_add]
  rfl

theorem drop_shape (R S : List Char) (k n : Nat) (h : n ≤ R.length + k) :
    (R ++ (List.replicate k NUL ++ S)).drop n
      = R.drop n ++ (List.replicate (k - (n - R.length)) NUL ++ S) := by
  rw [List.drop_append_eq_append_drop, List.drop_append_eq_append_drop, List.drop_replicate]
  have : n - R.length - (List.replicate k NUL).length = 0 := by simp; omega
  rw [this, List.drop_zero]

theorem kdbl_printf_shape (LEN WIDTH : Nat) (t : List Char) (st : printf_state)
    (prev cur : List Char) (k : Nat) (scratch : List Char)
    (h : log_shape LEN st prev cur k scratch) (hW : WIDTH ≤ LEN) (hL : LEN + WIDTH ≤ 2 ^ 32)
    (ht : t.length < WIDTH) (hn : NUL ∉ t) :
    ∃ prev1 cur1 k1, log_shape LEN (kdbl_printf LEN WIDTH t st).2 prev1 cur1 k1 scratch ∧
      ((prev1 = prev ∧ cur1 = cur ++ t) ∨ (prev1 = cur ∧ cur1 = t)) := by
  obtain ⟨hb, hp, hlen, hc, hpv⟩ := h
  have hlen0 := hlen
  rw [List.length_drop] at hlen
  have hmod : (cur.length + WIDTH) % 2 ^ 32 = cur.length + WIDTH := Nat.mod_eq_of_lt (by omega)
  unfold kdbl_printf
  rw [hp, hmod]
  by_cases hwrap : cur.length + WIDTH > LEN
  · -- the tail is cleared and the message goes to offset 0
    rw [if_pos hwrap]
    simp only
    refine ⟨cur, t, LEN - cur.length - (t.length + 1 - cur.length), ?_, Or.inr ⟨rfl, rfl⟩⟩
    have hu : usub32 LEN cur.length = LEN - cur.length := usub32_eq _ _ (by omega) (by omega)
    have hb1 : memset st.printf_buf cur.length NUL (usub32 LEN cur.length)
        = cur ++ (List.replicate (LEN - cur.length) NUL ++ scratch) := by
      rw [hu, hb]
      unfold memset
      rw [write_at_append _ _ _ (by simp; omega)]
      congr 2
      have e : (List.replicate (LEN - cur.length) NUL).length
          = (NUL :: (prev.drop (cur.length + 1) ++ List.replicate k NUL)).length := by
        simp; omega
      have e2 : NUL :: (prev.drop (cur.length + 1) ++ (List.replicate k NUL ++ scratch))
          = (NUL :: (prev.drop (cur.length + 1) ++ List.replicate k NUL)) ++ scratch := by simp
      rw [e, e2, List.drop_left']
      rfl
    rw [hb1]
    refine ⟨?_, ?_, ?_, hn, hc⟩
    · unfold vsnprintf
      rw [if_neg (by omega), List.take_of_length_le (by omega)]
      rw [write_at_zero _ _ (by simp; omega)]
      rw [List.length_append, List.length_singleton]
      rw [drop_shape cur scratch (LEN - cur.length) (t.length + 1) (by omega)]
      simp
    · simp only [Nat.zero_add]
      exact Nat.mod_eq_of_lt (by omega)
    · rw [List.length_drop]; omega
  · -- the message goes to the cursor
    rw [if_neg hwrap]
    simp only
    rw [hp]
    refine ⟨prev, cur ++ t, k - (t.length - (prev.drop (cur.length + 1)).length), ?_,
      Or.inl ⟨rfl, rfl⟩⟩
    refine ⟨?_, ?_, ?_, ?_, hpv⟩
    · unfold vsnprintf
      rw [if_neg (by omega), List.take_of_length_le (by omega), hb]
      rw [write_at_append _ _ _ (by simp; omega)]
      rw [List.length_append, List.length_singleton, List.drop_succ_cons]
      rw [drop_shape _ scratch k t.length (by rw [List.length_drop]; omega)]
      rw [List.drop_drop]
      simp only [List.length_append, List.append_assoc, List.singleton_append]
      have : cur.length + 1 + t.length = cur.length + t.length + 1 := by omega
      rw [this]
    · rw [List.length_append]
      exact Nat.mod_eq_of_lt (by omega)
    · simp only [List.length_append, List.length_drop]
      omega
    · intro hm
      rcases List.mem_append.mp hm with hm | hm
      · exact hc hm
      · exact hn hm

theorem printf_all_append (LEN WIDTH : Nat) (xs : List (List Char)) (m : List Char) :
    printf_all LEN WIDTH (xs ++ [m]) = (kdbl_printf LEN WIDTH m (printf_all LEN WIDTH xs)).2 := by
  simp [printf_all, List.foldl_append]

theorem printf_all_shape (LEN WIDTH : Nat) (msgs : List (List Char)) (h0 : 0 < LEN)
    (hW : WIDTH ≤ LEN) (hL : LEN + WIDTH ≤ 2 ^ 32)
    (hm : ∀ m ∈ msgs, m.length < WIDTH ∧ NUL ∉ m) :
    ∃ older prev cur k,
      log_shape LEN (printf_all LEN WIDTH msgs) prev cur k (List.replicate LEN NUL) ∧
      msgs.flatten = older ++ prev ++ cur ∧
      ∀ m, msgs.getLast? = some m → m <:+ cur := by
  induction msgs using List.reverseRecOn with
  | nil =>
    exact ⟨[], [], [], LEN - 1, printf_init_shape LEN h0, rfl, by simp⟩
  | append_singleton xs m ih =>
    obtain ⟨older, prev, cur, k, hs, hf, _⟩ := ih (fun x hx => hm x (by simp [hx]))
    obtain ⟨hm1, hm2⟩ := hm m (by simp)
    obtain ⟨prev1, cur1, k1, hs1, hcase⟩ :=
      kdbl_printf_shape LEN WIDTH m _ prev cur k _ hs hW hL hm1 hm2
    rw [printf_all_append]
    have hlast : (xs ++ [m]).getLast? = some m := List.getLast?_concat xs
    rcases hcase with ⟨e1, e2⟩ | ⟨e1, e2⟩
    · rw [e1, e2] at hs1
      refine ⟨older, prev, cur ++ m, k1, hs1, ?_, ?_⟩
      · rw [List.flatten_append, hf]; simp
      · intro x hx
        rw [hlast, Option.some.injEq] at hx
        rw [← hx]
        exact List.suffix_append _ _
    · rw [e1, e2] at hs1
      refine ⟨older ++ prev, cur, m, k1, hs1, ?_, ?_⟩
      · rw [List.flatten_append, hf]; simp
      · intro x hx
        rw [hlast, Option.some.injEq] at hx
        rw [← hx]

/-- C10: starting from the all-zero log buffer of `kdbl_init`, after any sequence of
messages, each free of NUL and shorter than `WIDTH` (with `WIDTH ≤ LEN`, and
`LEN + WIDTH` within `unsigned int`), whatever their total length, the chars that
`kdbl_printf_dump2console` prints between its header and its closing newline (the non-zero
chars of `buf[cursor..LEN)`, then those of `buf[0..cursor)`) are a suffix of the
concatenation of the messages in order, and the last message is whole at their end. -/
theorem dump2console_chronological (LEN WIDTH : Nat) (msgs : List (List Char))
    (hW : WIDTH ≤ LEN) (hL : LEN + WIDTH ≤ 2 ^ 32)
    (hm : ∀ m ∈ msgs, m.length < WIDTH ∧ NUL ∉ m) :
    dump2console_body LEN (printf_all LEN WIDTH msgs) <:+ msgs.flatten ∧
    (∀ m, msgs.getLast? = some m → m <:+ dump2console_body LEN (printf_all LEN WIDTH msgs)) ∧
    kdbl_printf_dump2console LEN (printf_all LEN WIDTH msgs)
      = "\nKdbl log:\n\n".toList ++ dump2console_body LEN (printf_all LEN WIDTH msgs)
        ++ "\n".toList := by
  by_cases hnil : msgs = []
  · subst hnil
    refine ⟨?_, by simp, rfl⟩
    simp only [List.flatten_nil, List.suffix_nil]
    simp only [printf_all, List.foldl_nil, dump2console_body, printf_init, read_at,
      List.drop_zero, List.take_zero, List.filter_nil, List.append_nil, Nat.sub_zero]
    rw [List.take_replicate, filter_nul_replicate]
  · have hpos : 0 < LEN := by
      cases msgs with
      | nil => exact absurd rfl hnil
      | cons a t => have := (hm a (List.mem_cons_self _ _)).1; omega
    obtain ⟨older, prev, cur, k, hs, hf, hlast⟩ := printf_all_shape LEN WIDTH msgs hpos hW hL hm
    have hbody := dump2console_body_shape LEN _ prev cur k _ hs
    refine ⟨?_, ?_, rfl⟩
    · rw [hbody, hf]
      refine ⟨older ++ prev.take (cur.length + 1), ?_⟩
      rw [List.append_assoc, List.append_assoc, ← List.append_assoc (List.take _ prev),
        List.take_append_drop]
    · intro m hx
      rw [hbody]
      exact (hlast m hx).trans (List.suffix_append _ _)

/-- Witness of C10: a log of 8 chars and width 3; the messages "gh", "ef", "cd", "ab" wrap
once, and "fcdab" is printed.  The same messages with the constants of kdbl.c. -/
theorem dump2console_chronological_witness :
    ((3 : Nat) ≤ 8 ∧ 8 + 3 ≤ 2 ^ 32 ∧
      ∀ m ∈ ["gh".toList, "ef".toList, "cd".toList, "ab".toList], m.length < 3 ∧ NUL ∉ m) ∧
    dump2console_body 8 (printf_all 8 3 ["gh".toList, "ef".toList, "cd".toList, "ab".toList])
      = "fcdab".toList ∧
    dump2console_body 8 (printf_all 8 3 ["gh".toList, "ef".toList, "cd".toList, "ab".toList])
      <:+ ["gh".toList, "ef".toList, "cd".toList, "ab".toList].flatten ∧
    (PRINTF_BUF_WIDTH ≤ PRINTF_BUF_LEN ∧ PRINTF_BUF_LEN + PRINTF_BUF_WIDTH ≤ 2 ^ 32 ∧
      ∀ m ∈ ["gh".toList, "ef".toList, "cd".toList, "ab".toList],
        m.length < PRINTF_BUF_WIDTH ∧ NUL ∉ m) ∧
    dump2console_body PRINTF_BUF_LEN
        (printf_all PRINTF_BUF_LEN PRINTF_BUF_WIDTH
          ["gh".toList, "ef".toList, "cd".toList, "ab".toList])
      <:+ ["gh".toList, "ef".toList, "cd".toList, "ab".toList].flatten :=
  ⟨⟨by decide, by decide, by decide⟩, by decide,
    (dump2console_chronological 8 3 ["gh".toList, "ef".toList, "cd".toList, "ab".toList]
      (by decide) (by decide) (by decide)).1,
    ⟨by decide, by decide, by decide⟩,
    (dump2console_chronological PRINTF_BUF_LEN PRINTF_BUF_WIDTH
      ["gh".toList, "ef".toList, "cd".toList, "ab".toList]
      (by decide) (by decide) (by decide)).1⟩

theorem write_at_drop (buf : List Char) (off : Nat) (data : List Char) (n : Nat)
    (h : off + data.length ≤ n) (hb : off + data.length ≤ buf.length) :
    (write_at buf off data).drop n = buf.drop n := by
  have hsplit : buf = buf.take off ++ buf.drop off := (List.take_append_drop off buf).symm
  have hl : (buf.take off).length = off := by simp; omega
  have hw := write_at_append (buf.take off) (buf.drop off) data (by simp; omega)
  rw [hl, ← hsplit] at hw
  rw [hw, List.drop_append_eq_append_drop, List.drop_of_length_le (by omega), hl, List.nil_append,
    List.drop_append_eq_append_drop, List.drop_of_length_le (by omega), List.nil_append,
    List.drop_drop, List.drop_drop]
  congr 1
  omega

theorem kdbl_printf_point (LEN WIDTH : Nat) (text : List Char) (st : printf_state) :
    (kdbl_printf LEN WIDTH text st).2.printf_point
      = ((if (st.printf_point + WIDTH) % 2 ^ 32 > LEN then 0 else st.printf_point)
          + text.length) % 2 ^ 32 := by
  unfold kdbl_printf
  split <;> rfl

theorem vsnprintf_length (buf : List Char) (off size : Nat) (text : List Char) :
    (vsnprintf buf off size text).length = buf.length := by
  unfold vsnprintf
  split
  · rfl
  · exact write_at_length _ _ _

theorem kdbl_printf_length (LEN WIDTH : Nat) (text : List Char) (st : printf_state) :
    (kdbl_printf LEN WIDTH text st).2.printf_buf.length = st.printf_buf.length := by
  unfold kdbl_printf
  simp only
  rw [vsnprintf_length]
  split
  · exact write_at_length _ _ _
  · rfl

theorem printf_dump_state (LEN size : Nat) (c1 c2 : Bool) (st : printf_state) :
    (printf_dump LEN size c1 c2 st).2.2.printf_buf.length = st.printf_buf.length ∧
    (printf_dump LEN size c1 c2 st).2.2.printf_point ≤ st.printf_point := by
  unfold printf_dump
  split
  · exact ⟨rfl, Nat.le_refl _⟩
  · simp only
    split
    · exact ⟨by simp [memset, write_at_length], Nat.zero_le _⟩
    · split
      · exact ⟨by simp [memset, write_at_length], Nat.zero_le _⟩
      · exact ⟨by simp [memset, write_at_length], Nat.zero_le _⟩

theorem vsnprintf_drop (buf : List Char) (off LEN n : Nat) (text : List Char)
    (h : off + (min text.length (LEN - 1) + 1) ≤ n)
    (hb : off + (min text.length (LEN - 1) + 1) ≤ buf.length) :
    (vsnprintf buf off LEN text).drop n = buf.drop n := by
  unfold vsnprintf
  split
  · rfl
  · apply write_at_drop
    · simp only [List.length_append, List.length_take, List.length_singleton]; omega
    · simp only [List.length_append, List.length_take, List.length_singleton]; omega

/-- An append of a message of length at most `WIDTH` stores nothing beyond offset `LEN`,
and nothing at offset `LEN` either when the message is shorter than `WIDTH`; the cursor
ends at most at `LEN`, and below `LEN` when the message is shorter than `WIDTH`. -/
theorem kdbl_printf_bounds (LEN WIDTH : Nat) (text : List Char) (st : printf_state)
    (hW0 : 0 < WIDTH) (hW : WIDTH ≤ LEN) (hL : LEN + WIDTH < 2 ^ 32)
    (hbuf : st.printf_buf.length = 2 * LEN) (hp : st.printf_point ≤ LEN)
    (ht : text.length ≤ WIDTH) :
    (kdbl_printf LEN WIDTH text st).2.printf_point ≤ LEN ∧
    (kdbl_printf LEN WIDTH text st).2.printf_buf.drop (LEN + 1) = st.printf_buf.drop (LEN + 1) ∧
    (text.length < WIDTH →
      (kdbl_printf LEN WIDTH text st).2.printf_point < LEN ∧
      (kdbl_printf LEN WIDTH text st).2.printf_buf.drop LEN = st.printf_buf.drop LEN) := by
  have hmod : (st.printf_point + WIDTH) % 2 ^ 32 = st.printf_point + WIDTH :=
    Nat.mod_eq_of_lt (by omega)
  rw [kdbl_printf_point, hmod]
  unfold kdbl_printf
  rw [hmod]
  by_cases hwrap : st.printf_point + WIDTH > LEN
  · simp only [if_pos hwrap]
    have hu : usub32 LEN st.printf_point = LEN - st.printf_point := usub32_eq _ _ hp (by omega)
    have hmlen : (memset st.printf_buf st.printf_point NUL (usub32 LEN st.printf_point)).length
        = 2 * LEN := by unfold memset; rw [write_at_length, hbuf]
    have hmd : ∀ n, LEN ≤ n →
        (memset st.printf_buf st.printf_point NUL (usub32 LEN st.printf_point)).drop n
          = st.printf_buf.drop n := by
      intro n hn
      unfold memset
      apply write_at_drop
      · rw [hu, List.length_replicate]; omega
      · rw [hu, List.length_replicate]; omega
    refine ⟨?_, ?_, fun hlt => ⟨?_, ?_⟩⟩
    · rw [Nat.zero_add, Nat.mod_eq_of_lt (by omega)]; omega
    · rw [vsnprintf_drop _ _ _ _ _ (by omega) (by omega), hmd _ (by omega)]
    · rw [Nat.zero_add, Nat.mod_eq_of_lt (by omega)]; omega
    · rw [vsnprintf_drop _ _ _ _ _ (by omega) (by omega), hmd _ (by omega)]
  · simp only [if_neg hwrap]
    refine ⟨?_, ?_, fun hlt => ⟨?_, ?_⟩⟩
    · rw [Nat.mod_eq_of_lt (by omega)]; omega
    · rw [vsnprintf_drop _ _ _ _ _ (by omega) (by omega)]
    · rw [Nat.mod_eq_of_lt (by omega)]; omega
    · rw [vsnprintf_drop _ _ _ _ _ (by omega) (by omega)]

theorem log_reach_append (LEN WIDTH : Nat) (ops : List LogOp) (op : LogOp) :
    log_reach LEN WIDTH (ops ++ [op]) = log_step LEN WIDTH (log_reach LEN WIDTH ops) op := by
  simp [log_reach, List.foldl_append]

theorem log_reach_inv (LEN WIDTH : Nat) (ops : List LogOp)
    (hW0 : 0 < WIDTH) (hW : WIDTH ≤ LEN) (hL : LEN + WIDTH < 2 ^ 32)
    (h : appends_shorter (WIDTH + 1) ops) :
    (log_reach LEN WIDTH ops).printf_buf.length = 2 * LEN ∧
    (log_reach LEN WIDTH ops).printf_point ≤ LEN ∧
    (appends_shorter WIDTH ops → (log_reach LEN WIDTH ops).printf_point < LEN) := by
  induction ops using List.reverseRecOn with
  | nil =>
    refine ⟨by simp [log_reach, printf_init], by simp [log_reach, printf_init], fun _ => ?_⟩
    simp only [log_reach, List.foldl_nil, printf_init]
    omega
  | append_singleton ops op ih =>
    have hprev : appends_shorter (WIDTH + 1) ops := fun o ho => h o (by simp [ho])
    obtain ⟨i1, i2, i3⟩ := ih hprev
    rw [log_reach_append]
    cases op with
    | append text =>
      have ht : text.length ≤ WIDTH := by
        have := h (LogOp.append text) (by simp)
        simp only [append_shorter, decide_eq_true_eq] at this
        omega
      obtain ⟨b1, _, b3⟩ :=
        kdbl_printf_bounds LEN WIDTH text (log_reach LEN WIDTH ops) hW0 hW hL i1 i2 ht
      refine ⟨?_, b1, fun hs => ?_⟩
      · simp only [log_step]; rw [kdbl_printf_length]; exact i1
      · have hlt : text.length < WIDTH := by
          have := hs (LogOp.append text) (by simp)
          simpa [append_shorter] using this
        exact (b3 hlt).1
    | drain size c1 c2 =>
      obtain ⟨d1, d2⟩ := printf_dump_state LEN size c1 c2 (log_reach LEN WIDTH ops)
      refine ⟨?_, ?_, fun hs => ?_⟩
      · simp only [log_step]; rw [d1]; exact i1
      · simp only [log_step]; omega
      · have := i3 (fun o ho => hs o (by simp [ho]))
        simp only [log_step]; omega

theorem log_reach_fill (LEN WIDTH : Nat) (c : Char) (hL : LEN < 2 ^ 32) (n : Nat)
    (h : n * WIDTH ≤ LEN) :
    (log_reach LEN WIDTH (List.replicate n (LogOp.append (List.replicate WIDTH c)))).printf_point
      = n * WIDTH := by
  induction n with
  | zero => simp [log_reach, printf_init]
  | succ n ih =>
    have hn : n * WIDTH ≤ LEN := by
      have : n * WIDTH ≤ (n + 1) * WIDTH := Nat.mul_le_mul_right _ (Nat.le_succ n)
      omega
    have hs : (n + 1) * WIDTH = n * WIDTH + WIDTH := by ring
    rw [List.replicate_succ', log_reach_append]
    simp only [log_step]
    have h2 : n * WIDTH + WIDTH ≤ LEN := hs ▸ h
    have h1 : (n * WIDTH + WIDTH) % 2 ^ 32 = n * WIDTH + WIDTH := Nat.mod_eq_of_lt (by omega)
    rw [kdbl_printf_point, ih hn, List.length_replicate, h1, if_neg (by omega), h1, hs]

/-- C11, as stated, fails: 4096 messages of 256 chars, each of a length that is at most
PRINTF_BUF_WIDTH, bring the cursor to PRINTF_BUF_LEN, which is not below it; on a log of
8 chars with width 4, two messages of 4 chars do the same, and after a drain has copied
the log to the scratch half the second of them stores its NUL at offset 8. -/
theorem cursor_reaches_capacity :
    (appends_shorter (PRINTF_BUF_WIDTH + 1)
        (List.replicate 4096 (LogOp.append (List.replicate PRINTF_BUF_WIDTH 'a'))) ∧
      (log_reach PRINTF_BUF_LEN PRINTF_BUF_WIDTH
        (List.replicate 4096 (LogOp.append (List.replicate PRINTF_BUF_WIDTH 'a')))).printf_point
        = PRINTF_BUF_LEN) ∧
    (appends_shorter (4 + 1) [LogOp.append "abcd".toList, LogOp.append "efgh".toList] ∧
      (log_reach 8 4 [LogOp.append "abcd".toList, LogOp.append "efgh".toList]).printf_point = 8) ∧
    (appends_shorter (4 + 1)
        [LogOp.append "abcd".toList, LogOp.append "efgh".toList, LogOp.drain 8 true true,
          LogOp.append "abcd".toList] ∧
      (kdbl_printf 8 4 "efgh".toList
        (log_reach 8 4 [LogOp.append "abcd".toList, LogOp.append "efgh".toList,
          LogOp.drain 8 true true, LogOp.append "abcd".toList])).2.printf_buf.drop 8
      ≠ (log_reach 8 4 [LogOp.append "abcd".toList, LogOp.append "efgh".toList,
          LogOp.drain 8 true true, LogOp.append "abcd".toList]).printf_buf.drop 8) := by
  refine ⟨⟨?_, ?_⟩, by decide, by decide⟩
  · intro op hop
    rw [List.eq_of_mem_replicate hop]
    simp only [append_shorter, List.length_replicate, decide_eq_true_eq]
    omega
  · have h := log_reach_fill PRINTF_BUF_LEN PRINTF_BUF_WIDTH 'a' (by decide) 4096 (by decide)
    rw [h]
    decide

/-- C11, amended: in every state reached from initialisation by appends and drains, with
`0 < WIDTH ≤ LEN` and `LEN + WIDTH < 2^32`: when every appended message is shorter than
`WIDTH`, the cursor is below `LEN` and an append of such a message leaves every char at
an offset `LEN` or higher as it was; when the messages have length at most `WIDTH`, the
cursor is at most `LEN` and an append of such a message leaves every char at an offset
above `LEN` as it was (a message of exactly `WIDTH` chars can end at `LEN`, with its NUL
at offset `LEN`). -/
theorem log_cursor_bounds (LEN WIDTH : Nat) (ops : List LogOp)
    (hW0 : 0 < WIDTH) (hW : WIDTH ≤ LEN) (hL : LEN + WIDTH < 2 ^ 32) :
    (appends_shorter WIDTH ops →
      (log_reach LEN WIDTH ops).printf_point < LEN ∧
      ∀ text : List Char, text.length < WIDTH →
        (kdbl_printf LEN WIDTH text (log_reach LEN WIDTH ops)).2.printf_buf.drop LEN
          = (log_reach LEN WIDTH ops).printf_buf.drop LEN) ∧
    (appends_shorter (WIDTH + 1) ops →
      (log_reach LEN WIDTH ops).printf_point ≤ LEN ∧
      ∀ text : List Char, text.length ≤ WIDTH →
        (kdbl_printf LEN WIDTH text (log_reach LEN WIDTH ops)).2.printf_buf.drop (LEN + 1)
          = (log_reach LEN WIDTH ops).printf_buf.drop (LEN + 1)) := by
  constructor
  · intro hs
    have hs1 : appends_shorter (WIDTH + 1) ops := by
      intro op hop
      have := hs op hop
      cases op with
      | append text => simp only [append_shorter, decide_eq_true_eq] at this ⊢; omega
      | drain size c1 c2 => rfl
    obtain ⟨i1, i2, i3⟩ := log_reach_inv LEN WIDTH ops hW0 hW hL hs1
    refine ⟨i3 hs, fun text ht => ?_⟩
    exact ((kdbl_printf_bounds LEN WIDTH text _ hW0 hW hL i1 i2 (by omega)).2.2 ht).2
  · intro hs1
    obtain ⟨i1, i2, _⟩ := log_reach_inv LEN WIDTH ops hW0 hW hL hs1
    refine ⟨i2, fun text ht => ?_⟩
    exact (kdbl_printf_bounds LEN WIDTH text _ hW0 hW hL i1 i2 ht).2.1

/-- Witness of C11 (amended): a log of 8 chars with width 4, messages of 3 chars around a
drain; and the constants of kdbl.c. -/
theorem log_cursor_bounds_witness :
    ((0 < 4 ∧ 4 ≤ 8 ∧ 8 + 4 < 2 ^ 32) ∧
      appends_shorter 4 [LogOp.append "abc".toList, LogOp.append "def".toList,
        LogOp.drain 8 true true, LogOp.append "ghi".toList]) ∧
    (log_reach 8 4 [LogOp.append "abc".toList, LogOp.append "def".toList,
        LogOp.drain 8 true true, LogOp.append "ghi".toList]).printf_point < 8 ∧
    ((0 < PRINTF_BUF_WIDTH ∧ PRINTF_BUF_WIDTH ≤ PRINTF_BUF_LEN ∧
        PRINTF_BUF_LEN + PRINTF_BUF_WIDTH < 2 ^ 32) ∧
      appends_shorter PRINTF_BUF_WIDTH [LogOp.append "abc".toList, LogOp.drain 5 true true]) ∧
    (log_reach PRINTF_BUF_LEN PRINTF_BUF_WIDTH
        [LogOp.append "abc".toList, LogOp.drain 5 true true]).printf_point < PRINTF_BUF_LEN :=
  ⟨⟨⟨by decide, by decide, by decide⟩, by decide⟩,
    ((log_cursor_bounds 8 4 [LogOp.append "abc".toList, LogOp.append "def".toList,
        LogOp.drain 8 true true, LogOp.append "ghi".toList]
      (by decide) (by decide) (by decide)).1 (by decide)).1,
    ⟨⟨by decide, by decide, by decide⟩, by decide⟩,
    ((log_cursor_bounds PRINTF_BUF_LEN PRINTF_BUF_WIDTH
        [LogOp.append "abc".toList, LogOp.drain 5 true true]
      (by decide) (by decide) (by decide)).1 (by decide)).1⟩

theorem write_at_eq (buf : List Char) (off : Nat) (data : List Char)
    (hb : off + data.length ≤ buf.length) :
    write_at buf off data = buf.take off ++ (data ++ buf.drop (off + data.length)) := by
  have hsplit : buf = buf.take off ++ buf.drop off := (List.take_append_drop off buf).symm
  have hl : (buf.take off).length = off := by simp; omega
  have hw := write_at_append (buf.take off) (buf.drop off) data (by simp; omega)
  rw [hl, ← hsplit, List.drop_drop] at hw
  rw [hw]

/-- C12, as stated, fails: with the constants of kdbl.c, the cursor at 1048315 and a message
of 10 chars, cursor + len(text) = 1048325 exceeds C - 256 = 1048320, yet `kdbl_printf` does
not reset the cursor: it writes at 1048315 and the cursor becomes 1048325.  The same on a
log of 16 chars with width 4, cursor 10 and a message of 3 chars. -/
theorem append_wrap_ignores_length :
    (1048315 + (List.replicate 10 'a').length > PRINTF_BUF_LEN - PRINTF_BUF_WIDTH ∧
      (kdbl_printf PRINTF_BUF_LEN PRINTF_BUF_WIDTH (List.replicate 10 'a')
        { printf_buf := List.replicate (2 * PRINTF_BUF_LEN) NUL,
          printf_point := 1048315 }).2.printf_point = 1048325) ∧
    (10 + "xyz".toList.length > 16 - 4 ∧
      kdbl_printf 16 4 "xyz".toList
          { printf_buf := "abcdefghij".toList ++ List.replicate 22 NUL, printf_point := 10 }
        = (3, { printf_buf := "abcdefghijxyz".toList ++ List.replicate 19 NUL,
                printf_point := 13 })) := by
  refine ⟨⟨by decide, ?_⟩, by decide, by decide⟩
  rw [kdbl_printf_point]
  decide

/-- C12, amended: for a log array of `2 * LEN` chars (`0 < LEN`, `LEN + WIDTH < 2^32`), a
cursor `p` at most `LEN` and every message text, `kdbl_printf` returns the length of the
text; if and only if `p + WIDTH` exceeds `LEN`, whatever the length of the text, it
zero-fills `buf[p..LEN)` and writes from offset 0, the cursor ending at the length of the
text; otherwise it writes at `p`, the cursor advancing by the length of the text.  What
it writes is the text (its first `LEN - 1` chars) followed by a NUL, and no other char of
the array is touched.  The cursor is kept modulo 2^32. -/
theorem kdbl_printf_wraps_on_width (LEN WIDTH : Nat) (text : List Char) (st : printf_state)
    (h0 : 0 < LEN) (hL : LEN + WIDTH < 2 ^ 32)
    (hbuf : st.printf_buf.length = 2 * LEN) (hp : st.printf_point ≤ LEN) :
    (kdbl_printf LEN WIDTH text st).1 = text.length ∧
    (LEN < st.printf_point + WIDTH →
      (kdbl_printf LEN WIDTH text st).2.printf_buf
        = (text.take (LEN - 1) ++ [NUL]) ++
            (st.printf_buf.take st.printf_point ++
              (List.replicate (LEN - st.printf_point) NUL ++ st.printf_buf.drop LEN)).drop
              (min text.length (LEN - 1) + 1) ∧
      (kdbl_printf LEN WIDTH text st).2.printf_point = text.length % 2 ^ 32) ∧
    (st.printf_point + WIDTH ≤ LEN →
      (kdbl_printf LEN WIDTH text st).2.printf_buf
        = st.printf_buf.take st.printf_point ++
            ((text.take (LEN - 1) ++ [NUL]) ++
              st.printf_buf.drop (st.printf_point + (min text.length (LEN - 1) + 1))) ∧
      (kdbl_printf LEN WIDTH text st).2.printf_point
        = (st.printf_point + text.length) % 2 ^ 32) := by
  have hmod : (st.printf_point + WIDTH) % 2 ^ 32 = st.printf_point + WIDTH :=
    Nat.mod_eq_of_lt (by omega)
  have hdl : (text.take (LEN - 1) ++ [NUL]).length = min text.length (LEN - 1) + 1 := by
    simp only [List.length_append, List.length_take, List.length_singleton]; omega
  refine ⟨rfl, fun hw => ?_, fun hw => ?_⟩
  · rw [kdbl_printf_point, hmod, if_pos hw, Nat.zero_add]
    refine ⟨?_, rfl⟩
    unfold kdbl_printf
    rw [hmod]
    simp only [if_pos hw]
    have hu : usub32 LEN st.printf_point = LEN - st.printf_point := usub32_eq _ _ hp (by omega)
    have hm : memset st.printf_buf st.printf_point NUL (usub32 LEN st.printf_point)
        = st.printf_buf.take st.printf_point ++
            (List.replicate (LEN - st.printf_point) NUL ++ st.printf_buf.drop LEN) := by
      unfold memset
      rw [hu, write_at_eq _ _ _ (by rw [List.length_replicate]; omega), List.length_replicate]
      congr 3
      omega
    rw [hm]
    unfold vsnprintf
    rw [if_neg (by omega), write_at_zero _ _ (by
      rw [hdl]
      simp only [List.length_append, List.length_take, List.length_replicate, List.length_drop]
      omega), hdl]
  · rw [kdbl_printf_point, hmod, if_neg (by omega)]
    refine ⟨?_, rfl⟩
    unfold kdbl_printf
    rw [hmod]
    simp only [if_neg (Nat.not_lt.mpr hw)]
    unfold vsnprintf
    rw [if_neg (by omega), write_at_eq _ _ _ (by rw [hdl]; omega), hdl]

/-- Witness of C12 (amended): on a log of 16 chars with width 4, a message of 3 chars at
cursor 10 (no wrap) and at cursor 13 (wrap). -/
theorem kdbl_printf_wraps_on_width_witness :
    ((0 < 16 ∧ 16 + 4 < 2 ^ 32) ∧
      ("abcdefghij".toList ++ List.replicate 22 NUL).length = 2 * 16 ∧ 10 ≤ 16 ∧ 10 + 4 ≤ 16) ∧
    (kdbl_printf 16 4 "xyz".toList
        { printf_buf := "abcdefghij".toList ++ List.replicate 22 NUL, printf_point := 10 }).2.printf_point
      = (10 + "xyz".toList.length) % 2 ^ 32 ∧
    (("abcdefghijklm".toList ++ List.replicate 19 NUL).length = 2 * 16 ∧ 13 ≤ 16 ∧ 16 < 13 + 4) ∧
    (kdbl_printf 16 4 "xyz".toList
        { printf_buf := "abcdefghijklm".toList ++ List.replicate 19 NUL, printf_point := 13 }).2.printf_point
      = "xyz".toList.length % 2 ^ 32 ∧
    kdbl_printf 16 4 "xyz".toList
        { printf_buf := "abcdefghijklm".toList ++ List.replicate 19 NUL, printf_point := 13 }
      = (3, { printf_buf := "xyz".toList ++ [NUL] ++ "efghijklm".toList ++ List.replicate 19 NUL,
              printf_point := 3 }) :=
  ⟨⟨⟨by decide, by decide⟩, by decide, by decide, by decide⟩,
    ((kdbl_printf_wraps_on_width 16 4 "xyz".toList
        { printf_buf := "abcdefghij".toList ++ List.replicate 22 NUL, printf_point := 10 }
        (by decide) (by decide) (by decide) (by decide)).2.2 (by decide)).2,
    ⟨by decide, by decide, by decide⟩,
    ((kdbl_printf_wraps_on_width 16 4 "xyz".toList
        { printf_buf := "abcdefghijklm".toList ++ List.replicate 19 NUL, printf_point := 13 }
        (by decide) (by decide) (by decide) (by decide)).2.1 (by decide)).2,
    by decide⟩

theorem cstr_append (t x : List Char) (h : NUL ∉ t) : cstr (t ++ x) = t ++ cstr x := by
  induction t with
  | nil => rfl
  | cons c p ih =>
    simp only [List.mem_cons, not_or] at h
    have hc : c ≠ NUL := fun e => h.1 e.symm
    unfold cstr at ih ⊢
    rw [List.cons_append, List.takeWhile_cons_of_pos (by simpa using hc), ih h.2]
    rfl

theorem cstr_of_no_nul (s : List Char) (h : NUL ∉ s) : cstr s = s := by
  have := cstr_append s [] h
  simpa [cstr] using this

theorem strncmp_eq_iff_prefix (p kw : List Char) (hk : NUL ∉ kw) :
    strncmp_eq p kw kw.length = true ↔ kw <+: cstr p := by
  unfold strncmp_eq
  rw [decide_eq_true_eq, cstr_of_no_nul kw hk, List.take_length, List.prefix_iff_eq_take]
  exact eq_comm

theorem strcmp_eq_iff (p kw : List Char) (hk : NUL ∉ kw) :
    strcmp_eq p kw = true ↔ cstr p = kw := by
  unfold strcmp_eq
  rw [decide_eq_true_eq, cstr_of_no_nul kw hk]

/-- C13: whatever was in the slot and however the first write ends, a write of a non-empty
text B that succeeds leaves B alone in the slot, so that the next read is the read of a
session to which only B was submitted: the text A of the write before is not dispatched
and changes neither the result nor the globals (a write never touches the globals).  A
read with nothing pending fails with ENOENT and changes nothing; every read empties the
slot, so that a read right after any read fails with ENOENT and changes nothing. -/
theorem mailbox_last_writer_wins (LEN : Nat) (A B : List Char) (hB : B ≠ [])
    (slot : Option (List Char)) (st : kdbl_state) :
    (∀ pa ca : Bool,
      kdbl_proc_write true true B (kdbl_proc_write pa ca A slot).2 = (Ret.val B.length, some B)) ∧
    (∀ (pa ca wa c1 c2 : Bool) (size : Nat),
      kdbl_proc_read LEN wa c1 c2 size
          (kdbl_proc_write true true B (kdbl_proc_write pa ca A slot).2).2 st
        = kdbl_proc_read LEN wa c1 c2 size (kdbl_proc_write true true B none).2 st ∧
      kdbl_proc_read LEN wa c1 c2 size (kdbl_proc_write true true B none).2 st
        = kdbl_proc_read LEN wa c1 c2 size (some B) st) ∧
    (∀ (wa c1 c2 : Bool) (size : Nat),
      kdbl_proc_read LEN wa c1 c2 size none st = (Ret.err Errno.ENOENT, ([], []), none, st)) ∧
    (∀ (wa c1 c2 wa2 c3 c4 : Bool) (size size2 : Nat),
      (kdbl_proc_read LEN wa c1 c2 size slot st).2.2.1 = none ∧
      kdbl_proc_read LEN wa2 c3 c4 size2 (kdbl_proc_read LEN wa c1 c2 size slot st).2.2.1
          (kdbl_proc_read LEN wa c1 c2 size slot st).2.2.2
        = (Ret.err Errno.ENOENT, ([], []), none,
            (kdbl_proc_read LEN wa c1 c2 size slot st).2.2.2)) := by
  have hlen : B.length ≠ 0 := fun h => hB (List.length_eq_zero.mp h)
  have hw : ∀ s : Option (List Char),
      kdbl_proc_write true true B s = (Ret.val B.length, some B) := by
    intro s
    simp [kdbl_proc_write, hlen]
  have hslot : ∀ (wa c1 c2 : Bool) (size : Nat),
      (kdbl_proc_read LEN wa c1 c2 size slot st).2.2.1 = none := by
    intro wa c1 c2 size
    unfold kdbl_proc_read
    cases slot with
    | none => rfl
    | some p =>
      simp only
      split
      · rfl
      · split
        · rfl
        · split
          · rfl
          · split <;> rfl
  refine ⟨fun pa ca => hw _, fun pa ca wa c1 c2 size => ?_, fun wa c1 c2 size => rfl, ?_⟩
  · rw [hw, hw]
    exact ⟨rfl, rfl⟩
  · intro wa c1 c2 wa2 c3 c4 size size2
    refine ⟨hslot wa c1 c2 size, ?_⟩
    rw [hslot wa c1 c2 size]
    rfl

/-- Witness of C13: "junk" then "trace_change p 1.0 3 on" are submitted; the read sets flag 3
of the entry ("p", "1.0", 16), and a second read fails with ENOENT. -/
theorem mailbox_last_writer_wins_witness :
    "trace_change p 1.0 3 on".toList ≠ [] ∧
    kdbl_proc_read 4 true true true 8
        (kdbl_proc_write true true "trace_change p 1.0 3 on".toList
          (kdbl_proc_write true true "junk".toList none).2).2
        { log := printf_init 4,
          trace_list := [{ tc_program := "p".toList, tc_version := "1.0".toList, tc_flags := 16,
                           tc_array := 7, tc_bytes := [0, 0] }],
          profile_list := [] }
      = kdbl_proc_read 4 true true true 8
        (kdbl_proc_write true true "trace_change p 1.0 3 on".toList none).2
        { log := printf_init 4,
          trace_list := [{ tc_program := "p".toList, tc_version := "1.0".toList, tc_flags := 16,
                           tc_array := 7, tc_bytes := [0, 0] }],
          profile_list := [] } ∧
    kdbl_proc_read 4 true true true 8 (some "trace_change p 1.0 3 on".toList)
        { log := printf_init 4,
          trace_list := [{ tc_program := "p".toList, tc_version := "1.0".toList, tc_flags := 16,
                           tc_array := 7, tc_bytes := [0, 0] }],
          profile_list := [] }
      = (Ret.val 0, ([], []), none,
          { log := printf_init 4,
            trace_list := [{ tc_program := "p".toList, tc_version := "1.0".toList, tc_flags := 16,
                             tc_array := 7, tc_bytes := [8, 0] }],
            profile_list := [] }) :=
  ⟨by decide,
    ((mailbox_last_writer_wins 4 "junk".toList "trace_change p 1.0 3 on".toList (by decide) none
        { log := printf_init 4,
          trace_list := [{ tc_program := "p".toList, tc_version := "1.0".toList, tc_flags := 16,
                           tc_array := 7, tc_bytes := [0, 0] }],
          profile_list := [] }).2.1 true true true true true 8).1,
    by decide⟩

/-- C16: a write of an empty text returns EINVAL and leaves the slot empty whatever was
pending, so that the read that follows fails with ENOENT and changes nothing; a read with
a zero size on a pending command returns EINVAL, runs no command (log, trace list and
profile list stay as they were), delivers nothing and leaves the slot empty. -/
theorem rejected_operation_empties_slot :
    (∀ (pa ca : Bool) (slot : Option (List Char)),
      kdbl_proc_write pa ca [] slot = (Ret.err Errno.EINVAL, none)) ∧
    (∀ (LEN : Nat) (pa ca wa c1 c2 : Bool) (size : Nat) (slot : Option (List Char))
        (st : kdbl_state),
      kdbl_proc_read LEN wa c1 c2 size (kdbl_proc_write pa ca [] slot).2 st
        = (Ret.err Errno.ENOENT, ([], []), none, st)) ∧
    (∀ (LEN : Nat) (wa c1 c2 : Bool) (p : List Char) (st : kdbl_state),
      kdbl_proc_read LEN wa c1 c2 0 (some p) st = (Ret.err Errno.EINVAL, ([], []), none, st)) := by
  refine ⟨fun pa ca slot => rfl, fun LEN pa ca wa c1 c2 size slot st => rfl,
    fun LEN wa c1 c2 p st => ?_⟩
  simp [kdbl_proc_read]

theorem strncmp_trace_change (p : List Char) :
    strncmp_eq p "trace_change".toList 12 = true ↔ "trace_change".toList <+: cstr p :=
  strncmp_eq_iff_prefix p "trace_change".toList (by decide)

theorem strncmp_profile_dump (p : List Char) :
    strncmp_eq p "profile_dump".toList 12 = true ↔ "profile_dump".toList <+: cstr p :=
  strncmp_eq_iff_prefix p "profile_dump".toList (by decide)

theorem strcmp_printf_dump (p : List Char) :
    strcmp_eq p "printf_dump".toList = true ↔ cstr p = "printf_dump".toList :=
  strcmp_eq_iff p "printf_dump".toList (by decide)

theorem prefix_take {kw l : List Char} (n : Nat) (h : kw <+: l) (hk : n ≤ kw.length) :
    kw.take n = l.take n := by
  obtain ⟨t, rfl⟩ := h
  rw [List.take_append_of_le_length hk]

theorem cstr_prefix_of_prefix (kw x : List Char) (hk : NUL ∉ kw) : kw <+: cstr (kw ++ x) := by
  rw [cstr_append kw x hk]
  exact List.prefix_append _ _

/-- C14, as stated, fails: the text "printf_dump" followed by a zero byte is not
the text "printf_dump", and a write takes its 12 bytes as it takes any text; yet the read
of it does not give ENOSYS: `strcmp` stops at the zero byte, the drain runs, the chars of
the log are delivered and the log is zeroed.  With the constants of kdbl.c the read
returns PRINTF_BUF_LEN and takes the cursor from 2 back to 0. -/
theorem printf_dump_nul_runs_drain :
    "printf_dump".toList ++ [NUL] ≠ "printf_dump".toList ∧
    kdbl_proc_write true true ("printf_dump".toList ++ [NUL]) none
      = (Ret.val 12, some ("printf_dump".toList ++ [NUL])) ∧
    kdbl_proc_read 4 true true true 8 (some ("printf_dump".toList ++ [NUL]))
        { log := { printf_buf := ['a', 'b', NUL, NUL, NUL, NUL, NUL, NUL], printf_point := 2 },
          trace_list := [], profile_list := [] }
      = (Ret.val 4, ([NUL, NUL, 'a', 'b'], []), none,
          { log := { printf_buf := [NUL, NUL, NUL, NUL, 'a', 'b', NUL, NUL], printf_point := 0 },
            trace_list := [], profile_list := [] }) ∧
    (kdbl_printf PRINTF_BUF_LEN PRINTF_BUF_WIDTH "ab".toList
      (printf_init PRINTF_BUF_LEN)).2.printf_point = 2 ∧
    (kdbl_proc_read PRINTF_BUF_LEN true true true PRINTF_BUF_LEN
        (some ("printf_dump".toList ++ [NUL]))
        { log := (kdbl_printf PRINTF_BUF_LEN PRINTF_BUF_WIDTH "ab".toList
                    (printf_init PRINTF_BUF_LEN)).2,
          trace_list := [], profile_list := [] }).1 = Ret.val PRINTF_BUF_LEN ∧
    (kdbl_proc_read PRINTF_BUF_LEN true true true PRINTF_BUF_LEN
        (some ("printf_dump".toList ++ [NUL]))
        { log := (kdbl_printf PRINTF_BUF_LEN PRINTF_BUF_WIDTH "ab".toList
                    (printf_init PRINTF_BUF_LEN)).2,
          trace_list := [], profile_list := [] }).2.2.2.log.printf_point = 0 := by
  have h : strcmp_eq ("printf_dump".toList ++ [NUL]) "printf_dump".toList = true := by decide
  have h0 : PRINTF_BUF_LEN ≠ 0 := by decide
  refine ⟨by decide, by decide, by decide, ?_, ?_, ?_⟩
  · rw [kdbl_printf_point]
    decide
  · unfold kdbl_proc_read
    simp only [if_neg h0, h, if_true]
    unfold printf_dump
    simp
  · unfold kdbl_proc_read
    simp only [if_neg h0, h, if_true]
    unfold printf_dump
    simp

/-- C14, amended: a pending command read with a non-zero size is dispatched on the C string
`cstr p` it holds, the chars before its first zero byte: `printf_dump` runs when, and only
when, that string is exactly "printf_dump" (otherwise the log is left as it was);
`trace_change` runs when the string begins with "trace_change"; `profile_dump` runs when it
begins with "profile_dump"; every other string, among them "printf_dump" followed by any
further char that is not a zero byte, gives ENOSYS and leaves the log, the trace list and
the profile list as they were.  The slot is empty afterwards in every case. -/
theorem read_dispatch (LEN : Nat) (wa c1 c2 : Bool) (size : Nat) (p : List Char)
    (st : kdbl_state) (hsize : size ≠ 0) :
    (cstr p = "printf_dump".toList →
      kdbl_proc_read LEN wa c1 c2 size (some p) st
        = ((printf_dump LEN size c1 c2 st.log).1, ((printf_dump LEN size c1 c2 st.log).2.1, []),
            none, { st with log := (printf_dump LEN size c1 c2 st.log).2.2 })) ∧
    (cstr p ≠ "printf_dump".toList →
      (kdbl_proc_read LEN wa c1 c2 size (some p) st).2.2.2.log = st.log) ∧
    ("trace_change".toList <+: cstr p →
      kdbl_proc_read LEN wa c1 c2 size (some p) st
        = ((trace_change wa p st.trace_list).1, ([], []), none,
            { st with trace_list := (trace_change wa p st.trace_list).2 })) ∧
    ("profile_dump".toList <+: cstr p →
      kdbl_proc_read LEN wa c1 c2 size (some p) st
        = ((profile_dump wa p (size % 2 ^ 32) c1 st.profile_list).1,
            ([], (profile_dump wa p (size % 2 ^ 32) c1 st.profile_list).2.1), none,
            { st with profile_list := (profile_dump wa p (size % 2 ^ 32) c1 st.profile_list).2.2 })) ∧
    (cstr p ≠ "printf_dump".toList → ¬ "trace_change".toList <+: cstr p →
      ¬ "profile_dump".toList <+: cstr p →
      kdbl_proc_read LEN wa c1 c2 size (some p) st = (Ret.err Errno.ENOSYS, ([], []), none, st)) ∧
    (∀ (c : Char) (rest : List Char), c ≠ NUL → p = "printf_dump".toList ++ c :: rest →
      kdbl_proc_read LEN wa c1 c2 size (some p) st = (Ret.err Errno.ENOSYS, ([], []), none, st)) := by
  have hpd : strcmp_eq p "printf_dump".toList = true ↔ cstr p = "printf_dump".toList :=
    strcmp_printf_dump p
  have htc := strncmp_trace_change p
  have hpr := strncmp_profile_dump p
  have hnot_tc : "trace_change".toList <+: cstr p → ¬ cstr p = "printf_dump".toList := by
    intro h e
    have := prefix_take 1 h (by decide)
    rw [e] at this
    revert this
    decide
  have hnot_pr : "profile_dump".toList <+: cstr p → ¬ cstr p = "printf_dump".toList := by
    intro h e
    have := prefix_take 3 h (by decide)
    rw [e] at this
    revert this
    decide
  have hexcl : "profile_dump".toList <+: cstr p → ¬ "trace_change".toList <+: cstr p := by
    intro h h2
    have a := prefix_take 1 h (by decide)
    have b := prefix_take 1 h2 (by decide)
    rw [← b] at a
    revert a
    decide
  have hnosys : cstr p ≠ "printf_dump".toList → ¬ "trace_change".toList <+: cstr p →
      ¬ "profile_dump".toList <+: cstr p →
      kdbl_proc_read LEN wa c1 c2 size (some p) st
        = (Ret.err Errno.ENOSYS, ([], []), none, st) := by
    intro h1 h2 h3
    unfold kdbl_proc_read
    simp only [if_neg hsize]
    rw [if_neg (fun h => h1 (hpd.mp h)), if_neg (fun h => h2 (htc.mp h)),
      if_neg (fun h => h3 (hpr.mp h))]
  refine ⟨?_, ?_, ?_, ?_, hnosys, ?_⟩
  · intro h
    unfold kdbl_proc_read
    simp only [if_neg hsize]
    rw [if_pos (hpd.mpr h)]
  · intro h
    unfold kdbl_proc_read
    simp only [if_neg hsize]
    rw [if_neg (fun e => h (hpd.mp e))]
    split
    · rfl
    · split <;> rfl
  · intro h
    unfold kdbl_proc_read
    simp only [if_neg hsize]
    rw [if_neg (fun e => hnot_tc h (hpd.mp e)), if_pos (htc.mpr h)]
  · intro h
    unfold kdbl_proc_read
    simp only [if_neg hsize]
    rw [if_neg (fun e => hnot_pr h (hpd.mp e)), if_neg (fun e => hexcl h (htc.mp e)),
      if_pos (hpr.mpr h)]
  · intro c rest hc hp
    have hcs : cstr p = "printf_dump".toList ++ c :: cstr rest := by
      rw [hp, cstr_append _ _ (by decide)]
      congr 1
      unfold cstr
      rw [List.takeWhile_cons_of_pos (by simpa using hc)]
    apply hnosys
    · rw [hcs]
      intro e
      have := congrArg List.length e
      simp at this
    · intro h
      have := prefix_take 1 h (by decide)
      rw [hcs, List.take_append_of_le_length (by decide)] at this
      revert this
      decide
    · intro h
      have := prefix_take 3 h (by decide)
      rw [hcs, List.take_append_of_le_length (by decide)] at this
      revert this
      decide

/-- Witness of C14 (amended): on a log of 4 chars holding "ab", the text "printf_dump" drains
the log and the text "printf_dump " gives ENOSYS and leaves the log as it was. -/
theorem read_dispatch_witness :
    ((8 : Nat) ≠ 0 ∧ cstr "printf_dump".toList = "printf_dump".toList) ∧
    kdbl_proc_read 4 true true true 8 (some "printf_dump".toList)
        { log := { printf_buf := ['a', 'b', NUL, NUL, NUL, NUL, NUL, NUL], printf_point := 2 },
          trace_list := [], profile_list := [] }
      = (Ret.val 4, ([NUL, NUL, 'a', 'b'], []), none,
          { log := { printf_buf := [NUL, NUL, NUL, NUL, 'a', 'b', NUL, NUL], printf_point := 0 },
            trace_list := [], profile_list := [] }) ∧
    kdbl_proc_read 4 true true true 8 (some "printf_dump ".toList)
        { log := { printf_buf := ['a', 'b', NUL, NUL, NUL, NUL, NUL, NUL], printf_point := 2 },
          trace_list := [], profile_list := [] }
      = (Ret.err Errno.ENOSYS, ([], []), none,
          { log := { printf_buf := ['a', 'b', NUL, NUL, NUL, NUL, NUL, NUL], printf_point := 2 },
            trace_list := [], profile_list := [] }) :=
  ⟨⟨by decide, by decide⟩, by decide,
    (read_dispatch 4 true true true 8 "printf_dump ".toList
      { log := { printf_buf := ['a', 'b', NUL, NUL, NUL, NUL, NUL, NUL], printf_point := 2 },
        trace_list := [], profile_list := [] } (by decide)).2.2.2.2.2 ' ' [] (by decide) rfl⟩

theorem str2words_split_token_append (t r : List Char) (h : is_token t) :
    str2words_split (t ++ r)
      = (t ++ (str2words_split r).headD []) :: (str2words_split r).tail := by
  induction t with
  | nil =>
    cases hs : str2words_split r with
    | nil => exact absurd hs (str2words_split_ne_nil r)
    | cons w ws => simp [hs]
  | cons c p ih =>
    obtain ⟨h1, h2⟩ := h
    simp only [List.mem_cons, not_or] at h1 h2
    have ihp := ih ⟨h1.2, h2.2⟩
    rw [List.cons_append, str2words_split, if_neg (Ne.symm h2.1), if_neg (Ne.symm h1.1), ihp]
    rfl

theorem str2words_keyword (wa : Bool) (kw s r : List Char) (hk : is_token kw) (hs : is_token s) :
    ∃ n w1 w2 ws,
      str2words wa (kw ++ s ++ r) = (n, if wa then w1 :: ws else []) ∧
      str2words wa (kw ++ r) = (n, if wa then w2 :: ws else []) := by
  have hks : is_token (kw ++ s) := by
    constructor
    · intro hm
      rcases List.mem_append.mp hm with hm | hm
      · exact hk.1 hm
      · exact hs.1 hm
    · intro hm
      rcases List.mem_append.mp hm with hm | hm
      · exact hk.2 hm
      · exact hs.2 hm
  have e1 := str2words_split_token_append (kw ++ s) r hks
  have e2 := str2words_split_token_append kw r hk
  have c1 := str2words_count_split (kw ++ s ++ r) 1
  have c2 := str2words_count_split (kw ++ r) 1
  rw [e1] at c1
  rw [e2] at c2
  simp only [List.length_cons] at c1 c2
  have hc : str2words_count (kw ++ s ++ r) 1 = str2words_count (kw ++ r) 1 := by omega
  cases wa with
  | false => exact ⟨Ret.err Errno.ENOMEM, [], [], [], by simp [str2words], by simp [str2words]⟩
  | true =>
    refine ⟨Ret.val (str2words_count (kw ++ r) 1), kw ++ s ++ (str2words_split r).headD [],
      kw ++ (str2words_split r).headD [], (str2words_split r).tail, ?_, ?_⟩
    · simp only [str2words, if_true, e1, hc]
    · simp only [str2words, if_true, e2]

theorem trace_change_word0 (wa : Bool) (c1 c2 : List Char) (st : List trace) (n : Ret)
    (w1 w2 : List Char) (ws : List (List Char))
    (h1 : str2words wa c1 = (n, if wa then w1 :: ws else []))
    (h2 : str2words wa c2 = (n, if wa then w2 :: ws else [])) :
    trace_change wa c1 st = trace_change wa c2 st := by
  unfold trace_change
  rw [h1, h2]
  cases wa <;> cases n <;> simp

theorem profile_dump_word0 (wa : Bool) (c1 c2 : List Char) (size : Nat) (ok : Bool)
    (l : List profile) (n : Ret) (w1 w2 : List Char) (ws : List (List Char))
    (h1 : str2words wa c1 = (n, if wa then w1 :: ws else []))
    (h2 : str2words wa c2 = (n, if wa then w2 :: ws else [])) :
    profile_dump wa c1 size ok l = profile_dump wa c2 size ok l := by
  unfold profile_dump
  rw [h1, h2]
  cases wa <;> cases n <;> simp

/-- C18, as stated, fails: the string made of one zero byte holds no space, and a
write takes the 24 bytes of "trace_change" ++ s ++ " p 1.0 3 on" as it takes any text; yet the
read of that text gives EINVAL and leaves flag 3 of the entry ("p", "1.0", 16) off, where
the read of "trace_change p 1.0 3 on" returns 0 and sets it: `str2words` stops at the zero
byte and counts one word.  In the same way the read of "profile_dump" ++ s ++ " p v" gives
EINVAL and leaves the statistics of the entry ("p", "v", 1) in place, where the read of
"profile_dump p v" returns its 32 bytes and resets them. -/
theorem keyword_suffix_with_nul :
    ' ' ∉ [NUL] ∧
    kdbl_proc_write true true ("trace_change".toList ++ [NUL] ++ " p 1.0 3 on".toList) none
      = (Ret.val 24, some ("trace_change".toList ++ [NUL] ++ " p 1.0 3 on".toList)) ∧
    kdbl_proc_read 4 true true true 8
        (some ("trace_change".toList ++ [NUL] ++ " p 1.0 3 on".toList))
        { log := printf_init 4,
          trace_list := [{ tc_program := "p".toList, tc_version := "1.0".toList, tc_flags := 16,
                           tc_array := 7, tc_bytes := [0, 0] }],
          profile_list := [] }
      = (Ret.err Errno.EINVAL, ([], []), none,
          { log := printf_init 4,
            trace_list := [{ tc_program := "p".toList, tc_version := "1.0".toList, tc_flags := 16,
                             tc_array := 7, tc_bytes := [0, 0] }],
            profile_list := [] }) ∧
    kdbl_proc_read 4 true true true 8 (some ("trace_change".toList ++ " p 1.0 3 on".toList))
        { log := printf_init 4,
          trace_list := [{ tc_program := "p".toList, tc_version := "1.0".toList, tc_flags := 16,
                           tc_array := 7, tc_bytes := [0, 0] }],
          profile_list := [] }
      = (Ret.val 0, ([], []), none,
          { log := printf_init 4,
            trace_list := [{ tc_program := "p".toList, tc_version := "1.0".toList, tc_flags := 16,
                             tc_array := 7, tc_bytes := [8, 0] }],
            profile_list := [] }) ∧
    kdbl_proc_read 4 true true true 32 (some ("profile_dump".toList ++ [NUL] ++ " p v".toList))
        { log := printf_init 4, trace_list := [],
          profile_list :=
            [{ pc_self := 9, pc_program := "p".toList, pc_version := "v".toList, pc_flags := 1,
               pc_array := [{ pe_total_calls := 1, pe_total_micros := 5, pe_min_micros := 5,
                              pe_max_micros := 5 }],
               pc_array2 := [profile_element_reset] }] }
      = (Ret.err Errno.EINVAL, ([], []), none,
          { log := printf_init 4, trace_list := [],
            profile_list :=
              [{ pc_self := 9, pc_program := "p".toList, pc_version := "v".toList, pc_flags := 1,
                 pc_array := [{ pe_total_calls := 1, pe_total_micros := 5, pe_min_micros := 5,
                                pe_max_micros := 5 }],
                 pc_array2 := [profile_element_reset] }] }) ∧
    kdbl_proc_read 4 true true true 32 (some ("profile_dump".toList ++ " p v".toList))
        { log := printf_init 4, trace_list := [],
          profile_list :=
            [{ pc_self := 9, pc_program := "p".toList, pc_version := "v".toList, pc_flags := 1,
               pc_array := [{ pe_total_calls := 1, pe_total_micros := 5, pe_min_micros := 5,
                              pe_max_micros := 5 }],
               pc_array2 := [profile_element_reset] }] }
      = (Ret.val 32,
          ([], [{ pe_total_calls := 1, pe_total_micros := 5, pe_min_micros := 5,
                  pe_max_micros := 5 }]), none,
          { log := printf_init 4, trace_list := [],
            profile_list :=
              [{ pc_self := 9, pc_program := "p".toList, pc_version := "v".toList, pc_flags := 1,
                 pc_array := [profile_element_reset],
                 pc_array2 := [{ pe_total_calls := 1, pe_total_micros := 5, pe_min_micros := 5,
                                 pe_max_micros := 5 }] }] }) := by
  refine ⟨by decide, by decide, by decide, by decide, by decide, by decide⟩

/-- C18, amended: the keyword of a command is examined up to its 12th char only.  For every
string `s` without a space and without a zero byte, every text `r` put after it (such as
" n v i o"),
every state, read size and outcome of the allocation and the transfers, a read of
"trace_change" ++ s ++ r gives the result, the output and the state of a read of
"trace_change" ++ r, and a read of "profile_dump" ++ s ++ r those of a read of
"profile_dump" ++ r. -/
theorem keyword_suffix_ignored (LEN : Nat) (wa c1 c2 : Bool) (size : Nat) (s r : List Char)
    (st : kdbl_state) (hs : is_token s) :
    kdbl_proc_read LEN wa c1 c2 size (some ("trace_change".toList ++ s ++ r)) st
      = kdbl_proc_read LEN wa c1 c2 size (some ("trace_change".toList ++ r)) st ∧
    kdbl_proc_read LEN wa c1 c2 size (some ("profile_dump".toList ++ s ++ r)) st
      = kdbl_proc_read LEN wa c1 c2 size (some ("profile_dump".toList ++ r)) st := by
  have key : ∀ kw : List Char, is_token kw → kw.length = 12 →
      kw.take 3 ≠ "printf_dump".toList.take 3 ∨ kw.take 1 ≠ "printf_dump".toList.take 1 →
      ∀ x : List Char,
        strcmp_eq (kw ++ x) "printf_dump".toList = false ∧
        ∀ kw2 : List Char, NUL ∉ kw2 → kw2.length = 12 →
          strncmp_eq (kw ++ x) kw2 12 = decide (kw = kw2) := by
    intro kw hk hlen hne x
    have hcs : cstr (kw ++ x) = kw ++ cstr x := cstr_append kw x hk.2
    constructor
    · rw [Bool.eq_false_iff]
      intro h
      have e := (strcmp_printf_dump (kw ++ x)).mp h
      rw [hcs] at e
      have e3 := congrArg (List.take 3) e
      have e1 := congrArg (List.take 1) e
      rw [List.take_append_of_le_length (by omega)] at e3 e1
      rcases hne with hne | hne
      · exact hne e3
      · exact hne e1
    · intro kw2 hk2 hlen2
      unfold strncmp_eq
      rw [hcs, cstr_of_no_nul kw2 hk2, List.take_append_of_le_length (by omega),
        List.take_of_length_le (by omega), List.take_of_length_le (by omega)]
  have htok_tc : is_token "trace_change".toList := by decide
  have htok_pd : is_token "profile_dump".toList := by decide
  constructor
  · have ka := key "trace_change".toList htok_tc (by decide) (Or.inr (by decide))
    obtain ⟨a1, a2⟩ := ka (s ++ r)
    obtain ⟨b1, b2⟩ := ka r
    have a3 : strncmp_eq ("trace_change".toList ++ (s ++ r)) "trace_change".toList 12 = true := by
      rw [a2 _ (by decide) (by decide)]; decide
    have b3 : strncmp_eq ("trace_change".toList ++ r) "trace_change".toList 12 = true := by
      rw [b2 _ (by decide) (by decide)]; decide
    obtain ⟨n, w1, w2, ws, e1, e2⟩ := str2words_keyword wa "trace_change".toList s r htok_tc hs
    have ht := trace_change_word0 wa _ _ st.trace_list n w1 w2 ws e1 e2
    rw [List.append_assoc] at ht ⊢
    unfold kdbl_proc_read
    simp only [a1, b1, a3, b3, ht, Bool.false_eq_true, if_false, if_true]
  · have ka := key "profile_dump".toList htok_pd (by decide) (Or.inl (by decide))
    obtain ⟨a1, a2⟩ := ka (s ++ r)
    obtain ⟨b1, b2⟩ := ka r
    have a3 : strncmp_eq ("profile_dump".toList ++ (s ++ r)) "trace_change".toList 12 = false := by
      rw [a2 _ (by decide) (by decide)]; decide
    have b3 : strncmp_eq ("profile_dump".toList ++ r) "trace_change".toList 12 = false := by
      rw [b2 _ (by decide) (by decide)]; decide
    have a4 : strncmp_eq ("profile_dump".toList ++ (s ++ r)) "profile_dump".toList 12 = true := by
      rw [a2 _ (by decide) (by decide)]; decide
    have b4 : strncmp_eq ("profile_dump".toList ++ r) "profile_dump".toList 12 = true := by
      rw [b2 _ (by decide) (by decide)]; decide
    obtain ⟨n, w1, w2, ws, e1, e2⟩ := str2words_keyword wa "profile_dump".toList s r htok_pd hs
    have ht := fun size ok => profile_dump_word0 wa _ _ size ok st.profile_list n w1 w2 ws e1 e2
    rw [List.append_assoc] at ht ⊢
    unfold kdbl_proc_read
    simp only [a1, b1, a3, b3, a4, b4, ht, Bool.false_eq_true, if_false, if_true]

/-- Witness of C18 (amended): "trace_changeXYZ p 1.0 3 on" acts as "trace_change p 1.0 3 on" does on
the entry ("p", "1.0", 16), flag 3 being set. -/
theorem keyword_suffix_ignored_witness :
    is_token "XYZ".toList ∧
    "trace_change".toList ++ "XYZ".toList ++ " p 1.0 3 on".toList
      = "trace_changeXYZ p 1.0 3 on".toList ∧
    kdbl_proc_read 4 true true true 8
        (some ("trace_change".toList ++ "XYZ".toList ++ " p 1.0 3 on".toList))
        { log := printf_init 4,
          trace_list := [{ tc_program := "p".toList, tc_version := "1.0".toList, tc_flags := 16,
                           tc_array := 7, tc_bytes := [0, 0] }],
          profile_list := [] }
      = kdbl_proc_read 4 true true true 8 (some ("trace_change".toList ++ " p 1.0 3 on".toList))
        { log := printf_init 4,
          trace_list := [{ tc_program := "p".toList, tc_version := "1.0".toList, tc_flags := 16,
                           tc_array := 7, tc_bytes := [0, 0] }],
          profile_list := [] } ∧
    kdbl_proc_read 4 true true true 8 (some "trace_changeXYZ p 1.0 3 on".toList)
        { log := printf_init 4,
          trace_list := [{ tc_program := "p".toList, tc_version := "1.0".toList, tc_flags := 16,
                           tc_array := 7, tc_bytes := [0, 0] }],
          profile_list := [] }
      = (Ret.val 0, ([], []), none,
          { log := printf_init 4,
            trace_list := [{ tc_program := "p".toList, tc_version := "1.0".toList, tc_flags := 16,
                             tc_array := 7, tc_bytes := [8, 0] }],
            profile_list := [] }) :=
  ⟨by decide, by decide,
    (keyword_suffix_ignored 4 true true true 8 "XYZ".toList " p 1.0 3 on".toList
      { log := printf_init 4,
        trace_list := [{ tc_program := "p".toList, tc_version := "1.0".toList, tc_flags := 16,
                         tc_array := 7, tc_bytes := [0, 0] }],
        profile_list := [] } (by decide)).1,
    by decide⟩

theorem str2words_count_spaces (s : List Char) (n : Nat) (h : NUL ∉ s) :
    str2words_count s n = n + s.count ' ' := by
  induction s generalizing n with
  | nil => rfl
  | cons c p ih =>
    simp only [List.mem_cons, not_or] at h
    have hc : c ≠ NUL := fun e => h.1 e.symm
    unfold str2words_count
    rw [if_neg hc]
    by_cases hsp : c = ' '
    · subst hsp
      rw [if_pos rfl, ih (n + 1) h.2, List.count_cons_self]
      omega
    · rw [if_neg hsp, ih n h.2, List.count_cons_of_ne (Ne.symm hsp)]

theorem str2words_split_no_space (s : List Char) : ∀ w ∈ str2words_split s, ' ' ∉ w := by
  induction s with
  | nil => simp [str2words_split]
  | cons c p ih =>
    unfold str2words_split
    split
    · simp
    · split
      · intro w hw
        rcases List.mem_cons.mp hw with hw | hw
        · subst hw; simp
        · exact ih w hw
      · rename_i hsp
        cases hs : str2words_split p with
        | nil => exact absurd hs (str2words_split_ne_nil p)
        | cons w0 ws =>
          rw [hs] at ih
          intro w hw
          simp only at hw
          rcases List.mem_cons.mp hw with hw | hw
          · subst hw
            intro hm
            rcases List.mem_cons.mp hm with hm | hm
            · exact hsp hm.symm
            · exact ih w0 (List.mem_cons_self _ _) hm
          · exact ih w (List.mem_cons_of_mem _ hw)

/-- C19: for every string without a NUL, `str2words` (its word array being allocated)
returns the number of spaces of the string plus one, hence at least 1, and as many words;
no word holds a space, and the words joined with single spaces are the string.  So a
leading, a trailing or a doubled space gives an empty word. -/
theorem str2words_words (s : List Char) (h : NUL ∉ s) :
    (str2words true s).1 = Ret.val (s.count ' ' + 1) ∧
    (str2words true s).2.length = s.count ' ' + 1 ∧
    (∀ w ∈ (str2words true s).2, ' ' ∉ w) ∧
    [' '].intercalate (str2words true s).2 = s := by
  have hc := str2words_count_spaces s 1 h
  have hl := str2words_count_split s 1
  have hs : (str2words true s).2 = str2words_split s := rfl
  refine ⟨?_, ?_, ?_, ?_⟩
  · simp only [str2words, if_true, hc]
    congr 1
    omega
  · rw [hs]; omega
  · rw [hs]; exact str2words_split_no_space s
  · rw [hs, str2words_split_eq_tokens]
    unfold tokens
    rw [cstr_of_no_nul s h]
    exact List.intercalate_splitOn s ' '

/-- Witness of C19: " a  b " has 4 spaces and gives the 5 words "", "a", "", "b", "". -/
theorem str2words_words_witness :
    NUL ∉ " a  b ".toList ∧
    str2words true " a  b ".toList
      = (Ret.val 5, [[], "a".toList, [], "b".toList, []]) ∧
    [' '].intercalate (str2words true " a  b ".toList).2 = " a  b ".toList :=
  ⟨by decide, by decide, (str2words_words " a  b ".toList (by decide)).2.2.2⟩

theorem DIV_RU_ceil (flags : Nat) (h : flags + 7 < 2 ^ 32) : DIV_RU flags 8 = (flags + 7) / 8 := by
  unfold DIV_RU
  have e : flags + 8 - 1 = flags + 7 := by omega
  rw [e, Nat.mod_eq_of_lt h]

/-- Below the wrap of `DIV_RU`, that is for `flags + 7 < 2^32`, a create that succeeds
registers an array of `ceil(flags / 8)` zero bytes: every flag reads as off and every
index below `flags` addresses a byte inside the array. -/
theorem kdbl_trace_create_array_below_wrap (program version : List Char) (flags addr : Nat)
    (st : List trace) (h : flags + 7 < 2 ^ 32)
    (hnew : ∀ tc ∈ st, tc.tc_program ≠ program) :
    ∃ tc, kdbl_trace_create_array program version flags true (some addr) st
        = (Ret.val 0, some addr, tc :: st) ∧
      tc.tc_flags = flags ∧ tc.tc_array = addr ∧
      tc.tc_bytes = List.replicate ((flags + 7) / 8) 0 ∧
      (∀ i, KDBL_TRACE_TEST tc.tc_bytes i = false) ∧
      (∀ i, i < flags → i / 8 < tc.tc_bytes.length) := by
  refine ⟨{ tc_program := program, tc_version := version, tc_flags := flags, tc_array := addr,
            tc_bytes := List.replicate ((flags + 7) / 8) 0 }, ?_, rfl, rfl, rfl, ?_, ?_⟩
  · simp [kdbl_trace_create_array, trace_lookup_none.mpr hnew, DIV_RU_ceil flags h]
  · intro i
    unfold KDBL_TRACE_TEST
    by_cases hi : i / 8 < (flags + 7) / 8
    · rw [List.getD_eq_getElem _ _ (by simpa using hi)]
      simp
    · rw [List.getD_eq_default _ _ (by simpa using hi)]
      simp
  · intro i hi
    simp only [List.length_replicate]
    omega

/-- C15 at the failing input: for `flags = 4294967295` the macro `DIV_RU(flags, 8)` gives 0 in
`unsigned int`, not the ceiling 536870912; the create succeeds and registers an entry of
4294967295 flags whose array has no byte, and `trace_change p 1.0 3 on` then returns 0
although byte 3 / 8 = 0 is not inside the array (the store is outside it, and flag 3
still reads as off in the array). -/
theorem div_ru_wraps_at_uint_max :
    DIV_RU 4294967295 8 = 0 ∧ (4294967295 + 7) / 8 = 536870912 ∧
    kdbl_trace_create_array "p".toList "1.0".toList 4294967295 true (some 7) []
      = (Ret.val 0, some 7,
          [{ tc_program := "p".toList, tc_version := "1.0".toList, tc_flags := 4294967295,
             tc_array := 7, tc_bytes := [] }]) ∧
    trace_change true "trace_change p 1.0 3 on".toList
        [{ tc_program := "p".toList, tc_version := "1.0".toList, tc_flags := 4294967295,
           tc_array := 7, tc_bytes := [] }]
      = (Ret.val 0,
          [{ tc_program := "p".toList, tc_version := "1.0".toList, tc_flags := 4294967295,
             tc_array := 7, tc_bytes := [] }]) ∧
    KDBL_TRACE_TEST ([] : List Nat) 3 = false := by
  decide

theorem profile_reach_append (ops : List ProfileRegOp) (op : ProfileRegOp) :
    profile_reach (ops ++ [op]) = profile_step (profile_reach ops) op := by
  simp [profile_reach, List.foldl_append]

theorem trace_change_sizes (wa : Bool) (cmd : List Char) (st : List trace) :
    (trace_change wa cmd st).2.map (fun t => (t.tc_flags, t.tc_bytes.length))
      = st.map (fun t => (t.tc_flags, t.tc_bytes.length)) := by
  cases hr : (trace_change wa cmd st).1 with
  | err e => rw [trace_change_err_unchanged wa cmd st e hr]
  | val n =>
    cases wa with
    | false => simp [trace_change, str2words] at hr
    | true =>
      rw [trace_change_eq] at hr ⊢
      split at hr
      · simp at hr
      · rename_i hn
        rw [if_neg hn]
        cases hl : trace_lookup ((tokens cmd).getD 1 []) st with
        | none => rfl
        | some t =>
          obtain ⟨pre, tc, post⟩ := t
          have hst := (trace_lookup_some hl).1
          simp only
          split
          · rfl
          · split
            · rfl
            · split
              · rfl
              · split
                · rw [hst]; simp [KDBL_TRACE_SET]
                · split
                  · rw [hst]; simp [KDBL_TRACE_CLEAR]
                  · rfl

/-- Every entry of a reachable trace list has the array that `kdbl_trace_create_array`
gave it: `DIV_RU(tc_flags, 8)` bytes. -/
theorem trace_reach_sizes (ops : List TraceOp) :
    ∀ e ∈ trace_reach ops, e.tc_bytes.length = DIV_RU e.tc_flags 8 := by
  unfold trace_reach
  induction ops using List.reverseRecOn with
  | nil => intro e he; simp at he
  | append_singleton ops op ih =>
    rw [List.foldl_append]
    simp only [List.foldl_cons, List.foldl_nil]
    intro e he
    cases op with
    | create program version flags a b =>
      simp only [trace_step, kdbl_trace_create_array] at he
      cases hl : trace_lookup program (List.foldl trace_step [] ops) with
      | some t => rw [hl] at he; exact ih e he
      | none =>
        rw [hl] at he
        cases a with
        | false => exact ih e he
        | true =>
          cases b with
          | none => exact ih e he
          | some addr =>
            simp only [if_true, List.mem_cons] at he
            rcases he with he | he
            · rw [he]; simp
            · exact ih e he
    | destroy array =>
      exact ih e ((kdbl_trace_destroy_array_sublist array _).subset he)
    | change wa cmd =>
      simp only [trace_step] at he
      have hm : (e.tc_flags, e.tc_bytes.length)
          ∈ (trace_change wa cmd (List.foldl trace_step [] ops)).2.map
              (fun t => (t.tc_flags, t.tc_bytes.length)) :=
        List.mem_map.mpr ⟨e, he, rfl⟩
      rw [trace_change_sizes] at hm
      obtain ⟨e0, he0, heq⟩ := List.mem_map.mp hm
      simp only [Prod.mk.injEq] at heq
      rw [← heq.1, ← heq.2]
      exact ih e0 he0

/-- C4, as stated, fails: `kdbl_trace_create_array` registers the entry of name "a b" as it
registers any name, and for that live entry the command `trace_change a b 1.0 3 on` has six
words: it returns EINVAL and flag 3 stays off.  In the same way, for the live entry of name
"p" and version "1.0 beta" the command `trace_change p 1.0 beta 3 on` returns EINVAL and
flag 3 stays off. -/
theorem trace_change_name_with_space :
    (kdbl_trace_create_array "a b".toList "1.0".toList 16 true (some 7) []
      = (Ret.val 0, some 7,
          [{ tc_program := "a b".toList, tc_version := "1.0".toList, tc_flags := 16,
             tc_array := 7, tc_bytes := [0, 0] }]) ∧
      trace_change_command "a b".toList "1.0".toList 3 "on".toList
        = "trace_change a b 1.0 3 on".toList ∧
      trace_change true "trace_change a b 1.0 3 on".toList
          [{ tc_program := "a b".toList, tc_version := "1.0".toList, tc_flags := 16,
             tc_array := 7, tc_bytes := [0, 0] }]
        = (Ret.err Errno.EINVAL,
            [{ tc_program := "a b".toList, tc_version := "1.0".toList, tc_flags := 16,
               tc_array := 7, tc_bytes := [0, 0] }]) ∧
      KDBL_TRACE_TEST [0, 0] 3 = false) ∧
    (kdbl_trace_create_array "p".toList "1.0 beta".toList 16 true (some 7) []
      = (Ret.val 0, some 7,
          [{ tc_program := "p".toList, tc_version := "1.0 beta".toList, tc_flags := 16,
             tc_array := 7, tc_bytes := [0, 0] }]) ∧
      trace_change_command "p".toList "1.0 beta".toList 3 "on".toList
        = "trace_change p 1.0 beta 3 on".toList ∧
      trace_change true "trace_change p 1.0 beta 3 on".toList
          [{ tc_program := "p".toList, tc_version := "1.0 beta".toList, tc_flags := 16,
             tc_array := 7, tc_bytes := [0, 0] }]
        = (Ret.err Errno.EINVAL,
            [{ tc_program := "p".toList, tc_version := "1.0 beta".toList, tc_flags := 16,
               tc_array := 7, tc_bytes := [0, 0] }])) := by
  refine ⟨⟨by decide, by decide, by decide, by decide⟩, by decide, by decide, by decide⟩

/-- C4, amended: in every trace list reached from the empty list by creates, destroys and
commands, for every live entry whose name and version hold no space (nor, as C strings, a
zero byte) and whose flag count is at most 2^32 - 8, and for every flag index `i` below
its flag count, `trace_change <name> <version> <i> on` returns 0 and sets flag `i` of that
entry, and the same command with `off` returns 0 and clears it; in both cases the entry
keeps its name, version, flag count and handle, every other flag of it keeps its value,
and the entries before and after it in the list are untouched. -/
theorem trace_change_sets_flag (ops : List TraceOp) (e : trace) (i : Nat)
    (hmem : e ∈ trace_reach ops)
    (hname : is_token e.tc_program) (hver : is_token e.tc_version)
    (hflags : e.tc_flags + 7 < 2 ^ 32) (hi : i < e.tc_flags) :
    ∃ pre post e_on e_off, trace_reach ops = pre ++ e :: post ∧
      trace_change true (trace_change_command e.tc_program e.tc_version i "on".toList)
          (trace_reach ops)
        = (Ret.val 0, pre ++ e_on :: post) ∧
      trace_change true (trace_change_command e.tc_program e.tc_version i "off".toList)
          (trace_reach ops)
        = (Ret.val 0, pre ++ e_off :: post) ∧
      (e_on.tc_program = e.tc_program ∧ e_on.tc_version = e.tc_version ∧
        e_on.tc_flags = e.tc_flags ∧ e_on.tc_array = e.tc_array) ∧
      (e_off.tc_program = e.tc_program ∧ e_off.tc_version = e.tc_version ∧
        e_off.tc_flags = e.tc_flags ∧ e_off.tc_array = e.tc_array) ∧
      (∀ j, KDBL_TRACE_TEST e_on.tc_bytes j = if j = i then true else KDBL_TRACE_TEST e.tc_bytes j) ∧
      (∀ j, KDBL_TRACE_TEST e_off.tc_bytes j = if j = i then false else KDBL_TRACE_TEST e.tc_bytes j) := by
  obtain ⟨pre, post, hst, hl⟩ :=
    trace_lookup_mem (trace_reach ops) e hmem (trace_reach_nodup ops)
  have hlen : e.tc_bytes.length = (e.tc_flags + 7) / 8 := by
    rw [trace_reach_sizes ops e hmem, DIV_RU_ceil _ hflags]
  have harr : i / 8 < e.tc_bytes.length := by rw [hlen]; omega
  refine ⟨pre, post, { e with tc_bytes := KDBL_TRACE_SET e.tc_bytes i },
    { e with tc_bytes := KDBL_TRACE_CLEAR e.tc_bytes i }, hst, ?_, ?_, ⟨rfl, rfl, rfl, rfl⟩,
    ⟨rfl, rfl, rfl, rfl⟩, ?_, ?_⟩
  · rw [trace_change_command_eq _ pre post e i _ (by decide) hl hname hver hi (by omega)]
    simp
  · rw [trace_change_command_eq _ pre post e i _ (by decide) hl hname hver hi (by omega)]
    rw [if_neg (by decide), if_pos rfl]
  · intro j; exact trace_test_set e.tc_bytes i j harr
  · intro j; exact trace_test_clear e.tc_bytes i j harr

/-- Witness of C4 (amended): the example of the spec.  After
`kdbl_trace_create_array("p", "1.0", 16)` the command `trace_change p 1.0 3 on` returns 0,
and then bit 3 is set and bit 4 is not. -/
theorem trace_change_sets_flag_witness :
    trace_reach [TraceOp.create "p".toList "1.0".toList 16 true (some 7)]
      = [{ tc_program := "p".toList, tc_version := "1.0".toList, tc_flags := 16, tc_array := 7,
           tc_bytes := [0, 0] }] ∧
    (is_token "p".toList ∧ is_token "1.0".toList ∧ 16 + 7 < 2 ^ 32 ∧ 3 < 16) ∧
    trace_change_command "p".toList "1.0".toList 3 "on".toList = "trace_change p 1.0 3 on".toList ∧
    trace_change true "trace_change p 1.0 3 on".toList
        [{ tc_program := "p".toList, tc_version := "1.0".toList, tc_flags := 16, tc_array := 7,
           tc_bytes := [0, 0] }]
      = (Ret.val 0, [{ tc_program := "p".toList, tc_version := "1.0".toList, tc_flags := 16,
                       tc_array := 7, tc_bytes := [8, 0] }]) ∧
    KDBL_TRACE_TEST [8, 0] 3 = true ∧ KDBL_TRACE_TEST [8, 0] 4 = false ∧
    ∃ pre post e_on e_off,
      trace_reach [TraceOp.create "p".toList "1.0".toList 16 true (some 7)]
        = pre ++ ({ tc_program := "p".toList, tc_version := "1.0".toList, tc_flags := 16,
                    tc_array := 7, tc_bytes := [0, 0] } : trace) :: post ∧
      trace_change true (trace_change_command "p".toList "1.0".toList 3 "on".toList)
          (trace_reach [TraceOp.create "p".toList "1.0".toList 16 true (some 7)])
        = (Ret.val 0, pre ++ e_on :: post) ∧
      trace_change true (trace_change_command "p".toList "1.0".toList 3 "off".toList)
          (trace_reach [TraceOp.create "p".toList "1.0".toList 16 true (some 7)])
        = (Ret.val 0, pre ++ e_off :: post) ∧
      KDBL_TRACE_TEST e_on.tc_bytes 3 = true ∧ KDBL_TRACE_TEST e_off.tc_bytes 3 = false :=
  ⟨by decide, by decide, by decide, by decide, by decide, by decide,
    (trace_change_sets_flag
      [TraceOp.create "p".toList "1.0".toList 16 true (some 7)]
      { tc_program := "p".toList, tc_version := "1.0".toList, tc_flags := 16, tc_array := 7,
        tc_bytes := [0, 0] } 3
      (by decide) (by decide) (by decide) (by decide) (by decide)).elim
      fun pre h => h.elim fun post h => h.elim fun e_on h => h.elim fun e_off h =>
        ⟨pre, post, e_on, e_off, h.1, h.2.1, h.2.2.1,
          by simpa using h.2.2.2.2.2.1 3, by simpa using h.2.2.2.2.2.2 3⟩⟩


theorem cell_samples_fst (name : List Char) (f : Nat) (ops : List ProfileRegOp) :
    (ops.foldl
      (fun (acc : List profile × List Nat) op =>
        (profile_step acc.1 op, cell_samples_step name f acc.1 acc.2 op))
      ([], [])).1 = profile_reach ops := by
  induction ops using List.reverseRecOn with
  | nil => rfl
  | append_singleton ops op ih =>
    rw [List.foldl_append, profile_reach_append]
    simp only [List.foldl_cons, List.foldl_nil]
    rw [ih]

theorem cell_samples_append (name : List Char) (f : Nat) (ops : List ProfileRegOp)
    (op : ProfileRegOp) :
    cell_samples name f (ops ++ [op])
      = cell_samples_step name f (profile_reach ops) (cell_samples name f ops) op := by
  unfold cell_samples
  rw [List.foldl_append]
  simp only [List.foldl_cons, List.foldl_nil]
  rw [cell_samples_fst]

theorem took_snapshot_err (e : Errno) (h : e ≠ Errno.EFAULT) :
    took_snapshot (Ret.err e) = false := by
  cases e <;> first | rfl | exact absurd rfl h

theorem cell_samples_le (name : List Char) (f : Nat) (ops : List ProfileRegOp)
    (h : regops_typed ops) : ∀ x ∈ cell_samples name f ops, x ≤ UINT64_MAX := by
  induction ops using List.reverseRecOn with
  | nil => intro x hx; simp [cell_samples] at hx
  | append_singleton ops op ih =>
    have ih' := ih (fun o ho => h o (by simp [ho]))
    have hop : regop_typed op = true := h op (by simp)
    rw [cell_samples_append]
    intro x hx
    cases op with
    | create program version flags a b c =>
      simp only [cell_samples_step] at hx
      split at hx
      · simp at hx
      · exact ih' x hx
    | destroy cookie => exact ih' x hx
    | exit cookie flag start stop =>
      simp only [cell_samples_step] at hx
      split at hx
      · rcases List.mem_append.mp hx with hx | hx
        · exact ih' x hx
        · simp only [List.mem_singleton] at hx
          have hstop : stop < 2 ^ 64 := by simpa [regop_typed] using hop
          rw [hx, ← elapsed_spec_eq]
          exact elapsed_spec_le _ _ hstop
      · exact ih' x hx
    | dump wa cmd size ok =>
      simp only [cell_samples_step] at hx
      split at hx
      · simp at hx
      · exact ih' x hx

theorem get?_replicate_reset {n f : Nat} {pe : profile_element}
    (h : (List.replicate n profile_element_reset).get? f = some pe) :
    pe = profile_element_reset :=
  List.eq_of_mem_replicate (List.get?_mem h)

/-- A cell holds the statistics of its samples: the elapsed times recorded on it since its
entry was created or last reset. -/
theorem cell_statistics (ops : List ProfileRegOp) (h : regops_typed ops) :
    ∀ pc ∈ profile_reach ops, ∀ (f : Nat) (pe : profile_element),
      pc.pc_array.get? f = some pe →
      is_statistics_of (cell_samples pc.pc_program f ops) pe := by
  induction ops using List.reverseRecOn with
  | nil => intro pc hpc; simp [profile_reach] at hpc
  | append_singleton ops op ih =>
    have ih' := ih (fun o ho => h o (by simp [ho]))
    have hop : regop_typed op = true := h op (by simp)
    have hnd := profile_reach_nodup ops
    rw [profile_reach_append]
    intro pc hpc f pe hpe
    rw [cell_samples_append]
    cases op with
    | create program version flags a b c =>
      simp only [profile_step] at hpc
      simp only [cell_samples_step]
      unfold kdbl_profile_create_array at hpc ⊢
      cases hl : profile_lookup program (profile_reach ops) with
      | some t =>
        rw [hl] at hpc
        simp only [hl]
        rw [if_neg (by simp)]
        exact ih' pc hpc f pe hpe
      | none =>
        rw [hl] at hpc
        simp only [hl]
        cases a with
        | none =>
          rw [if_neg (by simp)]
          exact ih' pc hpc f pe hpe
        | some addr =>
          cases b with
          | false =>
            rw [if_neg (by simp)]
            exact ih' pc hpc f pe hpe
          | true =>
            cases c with
            | none =>
              rw [if_neg (by simp)]
              exact ih' pc hpc f pe hpe
            | some block =>
              simp only [if_true, List.mem_cons] at hpc
              rcases hpc with hpc | hpc
              · rw [hpc] at hpe ⊢
                simp only [and_true, if_true]
                rw [get?_replicate_reset hpe]
                exact is_statistics_of_reset
              · have hne : pc.pc_program ≠ program := profile_lookup_none.mp hl pc hpc
                rw [if_neg (fun hh => hne hh.1.symm)]
                exact ih' pc hpc f pe hpe
    | destroy cookie =>
      exact ih' pc ((kdbl_profile_destroy_array_sublist cookie _).subset hpc) f pe hpe
    | exit cookie flag start stop =>
      simp only [profile_step, profile_exit_at, List.mem_map] at hpc
      obtain ⟨pc0, hpc0, hpceq⟩ := hpc
      simp only [cell_samples_step]
      by_cases hck : pc0.pc_self = cookie
      · rw [if_pos hck] at hpceq
        have hname : pc.pc_program = pc0.pc_program := by
          rw [← hpceq]; exact (kdbl_profile_exit_names stop pc0 flag start).1
        rw [hname]
        unfold kdbl_profile_exit at hpceq
        cases hg : pc0.pc_array.get? flag with
        | none =>
          rw [hg] at hpceq
          rw [← hpceq] at hpe
          have hff : flag ≠ f := by
            intro e; rw [e, hpe] at hg; cases hg
          rw [if_neg (fun hh => hff hh.1)]
          exact ih' pc0 hpc0 f pe hpe
        | some pe0 =>
          rw [hg] at hpceq
          rw [← hpceq] at hpe
          simp only at hpe
          by_cases hff : flag = f
          · subst hff
            rw [if_pos ⟨rfl, pc0, hpc0, hck, rfl⟩]
            have hlt : flag < pc0.pc_array.length := by
              rcases List.get?_eq_some.mp hg with ⟨hlt, _⟩
              exact hlt
            rw [List.get?_eq_getElem?, List.getElem?_set_self hlt] at hpe
            simp only [Option.some.injEq] at hpe
            rw [← hpe]
            have hstop : stop < 2 ^ 64 := by simpa [regop_typed] using hop
            have hel : profile_elapsed stop start ≤ UINT64_MAX := by
              rw [← elapsed_spec_eq]; exact elapsed_spec_le _ _ hstop
            exact is_statistics_of_credit _ pe0 _ (ih' pc0 hpc0 flag pe0 hg)
              (cell_samples_le _ _ ops (fun o ho => h o (by simp [ho]))) hel
          · rw [if_neg (fun hh => hff hh.1)]
            rw [List.get?_eq_getElem?, List.getElem?_set_ne hff, ← List.get?_eq_getElem?] at hpe
            exact ih' pc0 hpc0 f pe hpe
      · rw [if_neg hck] at hpceq
        rw [← hpceq] at hpe ⊢
        have hno : ¬ (flag = f ∧ ∃ pc1 ∈ profile_reach ops,
            pc1.pc_self = cookie ∧ pc1.pc_program = pc0.pc_program) := by
          rintro ⟨_, pc1, hpc1, hs1, hn1⟩
          have := List.inj_on_of_nodup_map hnd hpc1 hpc0 hn1
          rw [this] at hs1
          exact hck hs1
        rw [if_neg hno]
        exact ih' pc0 hpc0 f pe hpe
    | dump wa cmd size ok =>
      simp only [profile_step] at hpc
      simp only [cell_samples_step]
      rcases profile_dump_cases wa cmd size ok (profile_reach ops) with
        ⟨e, hne, hd⟩ | ⟨pre, pc1, post, hwa, _, hl, _, hd⟩
      · rw [hd] at hpc ⊢
        simp only [took_snapshot_err e hne, Bool.false_eq_true, and_false, if_false]
        exact ih' pc hpc f pe hpe
      · obtain ⟨hsplit, hn1, hpre⟩ := profile_lookup_some hl
        have hst : (profile_dump wa cmd size ok (profile_reach ops)).2.2
            = pre ++ profile_snapshot pc1 :: post := by
          rw [hd]; cases ok <;> rfl
        have htook : took_snapshot (profile_dump wa cmd size ok (profile_reach ops)).1 = true := by
          rw [hd]; cases ok <;> rfl
        have hw : (str2words wa cmd).2 = str2words_split cmd := by
          rw [hwa]; rfl
        rw [hst] at hpc
        rw [hw, htook]
        rw [hsplit, List.map_append, List.map_cons] at hnd
        have hnd2 := List.nodup_append.mp hnd
        have hpost : ∀ x ∈ post, x.pc_program ≠ (str2words_split cmd).getD 1 [] := by
          intro x hx e
          have := (List.nodup_cons.mp hnd2.2.1).1
          apply this
          rw [hn1, ← e]
          exact List.mem_map_of_mem _ hx
        rcases List.mem_append.mp hpc with hpc | hpc
        · rw [if_neg (fun hh => hpre pc hpc hh.1.symm)]
          exact ih' pc (by rw [hsplit]; exact List.mem_append_left _ hpc) f pe hpe
        · rcases List.mem_cons.mp hpc with hpc | hpc
          · rw [hpc] at hpe ⊢
            have : (profile_snapshot pc1).pc_program = pc1.pc_program := rfl
            rw [this, hn1, if_pos ⟨rfl, rfl⟩]
            simp only [profile_snapshot] at hpe
            rw [get?_replicate_reset hpe]
            exact is_statistics_of_reset
          · rw [if_neg (fun hh => hpost pc hpc hh.1.symm)]
            exact ih' pc (by rw [hsplit]; exact List.mem_append_right _ (List.mem_cons_of_mem _ hpc))
              f pe hpe
theorem profile_reach_cons_samples (n : Nat) :
    profile_reach (ProfileRegOp.create "p".toList "v".toList 1 (some 9) true (some [])
        :: List.replicate (n + 1) (ProfileRegOp.exit 9 0 0 1))
      = [{ pc_self := 9, pc_program := "p".toList, pc_version := "v".toList, pc_flags := 1,
           pc_array := [{ pe_total_calls := (n + 1) % 2 ^ 64, pe_total_micros := (n + 1) % 2 ^ 64,
                          pe_min_micros := 1, pe_max_micros := 1 }],
           pc_array2 := [] }] := by
  induction n with
  | zero => decide
  | succ n ih =>
    rw [List.replicate_succ', ← List.cons_append, profile_reach_append, ih]
    simp only [profile_step, profile_exit_at, List.map_cons, List.map_nil, if_true,
      kdbl_profile_exit, List.get?_cons_zero, List.set_cons_zero, profile_element_credit,
      profile_elapsed]
    simp only [gt_iff_lt, Nat.lt_irrefl, if_false, Nat.zero_lt_one, if_true, Nat.sub_zero,
      Nat.add_mod_mod, Nat.mod_add_mod]

theorem cell_samples_cons_samples (n : Nat) :
    cell_samples "p".toList 0
        (ProfileRegOp.create "p".toList "v".toList 1 (some 9) true (some [])
          :: List.replicate n (ProfileRegOp.exit 9 0 0 1))
      = List.replicate n 1 := by
  induction n with
  | zero => decide
  | succ n ih =>
    rw [List.replicate_succ', ← List.cons_append, cell_samples_append, ih]
    have hmem : ∃ pc ∈ profile_reach
        (ProfileRegOp.create "p".toList "v".toList 1 (some 9) true (some [])
          :: List.replicate n (ProfileRegOp.exit 9 0 0 1)),
        pc.pc_self = 9 ∧ pc.pc_program = "p".toList := by
      cases n with
      | zero => decide
      | succ m =>
        rw [profile_reach_cons_samples m]
        exact ⟨_, List.mem_singleton.mpr rfl, rfl, rfl⟩
    simp only [cell_samples_step]
    rw [if_pos ⟨trivial, hmem⟩, List.replicate_succ']
    rfl

theorem shadow_samples_fst (name : List Char) (f : Nat) (ops : List ProfileRegOp) :
    (ops.foldl
      (fun (acc : List ProfileRegOp × Option (List Nat)) op =>
        (acc.1 ++ [op],
          shadow_samples_step name (profile_reach acc.1) (cell_samples name f acc.1) acc.2 op))
      ([], none)).1 = ops := by
  induction ops using List.reverseRecOn with
  | nil => rfl
  | append_singleton ops op ih =>
    rw [List.foldl_append]
    simp only [List.foldl_cons, List.foldl_nil]
    rw [ih]

theorem shadow_samples_append (name : List Char) (f : Nat) (ops : List ProfileRegOp)
    (op : ProfileRegOp) :
    shadow_samples name f (ops ++ [op])
      = shadow_samples_step name (profile_reach ops) (cell_samples name f ops)
          (shadow_samples name f ops) op := by
  unfold shadow_samples
  rw [List.foldl_append]
  simp only [List.foldl_cons, List.foldl_nil]
  rw [shadow_samples_fst]

/-- A cell of a shadow array that a dump has written holds the statistics of the samples
that its active cell held when the dump took the snapshot. -/
theorem shadow_statistics (ops : List ProfileRegOp) (h : regops_typed ops) :
    ∀ pc ∈ profile_reach ops, ∀ (f : Nat) (pe : profile_element) (els : List Nat),
      pc.pc_array2.get? f = some pe → shadow_samples pc.pc_program f ops = some els →
      is_statistics_of els pe := by
  induction ops using List.reverseRecOn with
  | nil => intro pc hpc; simp [profile_reach] at hpc
  | append_singleton ops op ih =>
    have ht : regops_typed ops := fun o ho => h o (by simp [ho])
    have ih' := ih ht
    have hnd := profile_reach_nodup ops
    rw [profile_reach_append]
    intro pc hpc f pe els hpe
    rw [shadow_samples_append]
    cases op with
    | create program version flags a b c =>
      simp only [profile_step] at hpc
      simp only [shadow_samples_step]
      unfold kdbl_profile_create_array at hpc ⊢
      cases hl : profile_lookup program (profile_reach ops) with
      | some t =>
        rw [hl] at hpc
        simp only [hl]
        rw [if_neg (by simp)]
        exact ih' pc hpc f pe els hpe
      | none =>
        rw [hl] at hpc
        simp only [hl]
        cases a with
        | none =>
          rw [if_neg (by simp)]
          exact ih' pc hpc f pe els hpe
        | some addr =>
          cases b with
          | false =>
            rw [if_neg (by simp)]
            exact ih' pc hpc f pe els hpe
          | true =>
            cases c with
            | none =>
              rw [if_neg (by simp)]
              exact ih' pc hpc f pe els hpe
            | some block =>
              simp only [if_true, List.mem_cons] at hpc
              rcases hpc with hpc | hpc
              · rw [hpc]
                simp only [and_true, if_true]
                intro hn
                cases hn
              · have hne : pc.pc_program ≠ program := profile_lookup_none.mp hl pc hpc
                rw [if_neg (fun hh => hne hh.1.symm)]
                exact ih' pc hpc f pe els hpe
    | destroy cookie =>
      exact ih' pc ((kdbl_profile_destroy_array_sublist cookie _).subset hpc) f pe els hpe
    | exit cookie flag start stop =>
      simp only [profile_step, profile_exit_at, List.mem_map] at hpc
      obtain ⟨pc0, hpc0, hpceq⟩ := hpc
      simp only [shadow_samples_step]
      have hname : pc.pc_program = pc0.pc_program := by
        rw [← hpceq]
        split
        · exact (kdbl_profile_exit_names stop pc0 flag start).1
        · rfl
      have harr : pc.pc_array2 = pc0.pc_array2 := by
        rw [← hpceq]
        split
        · unfold kdbl_profile_exit
          cases pc0.pc_array.get? flag <;> rfl
        · rfl
      rw [hname]
      rw [harr] at hpe
      exact ih' pc0 hpc0 f pe els hpe
    | dump wa cmd size ok =>
      simp only [profile_step] at hpc
      simp only [shadow_samples_step]
      rcases profile_dump_cases wa cmd size ok (profile_reach ops) with
        ⟨e, hne, hd⟩ | ⟨pre, pc1, post, hwa, _, hl, _, hd⟩
      · rw [hd] at hpc ⊢
        simp only [took_snapshot_err e hne, Bool.false_eq_true, and_false, if_false]
        exact ih' pc hpc f pe els hpe
      · obtain ⟨hsplit, hn1, hpre⟩ := profile_lookup_some hl
        have hst : (profile_dump wa cmd size ok (profile_reach ops)).2.2
            = pre ++ profile_snapshot pc1 :: post := by
          rw [hd]; cases ok <;> rfl
        have htook : took_snapshot (profile_dump wa cmd size ok (profile_reach ops)).1 = true := by
          rw [hd]; cases ok <;> rfl
        have hw : (str2words wa cmd).2 = str2words_split cmd := by
          rw [hwa]; rfl
        have hpc1 : pc1 ∈ profile_reach ops := by
          rw [hsplit]; exact List.mem_append_right _ (List.mem_cons_self _ _)
        rw [hst] at hpc
        rw [hw, htook]
        rw [hsplit, List.map_append, List.map_cons] at hnd
        have hnd2 := List.nodup_append.mp hnd
        have hpost : ∀ x ∈ post, x.pc_program ≠ (str2words_split cmd).getD 1 [] := by
          intro x hx e
          have := (List.nodup_cons.mp hnd2.2.1).1
          apply this
          rw [hn1, ← e]
          exact List.mem_map_of_mem _ hx
        rcases List.mem_append.mp hpc with hpc | hpc
        · rw [if_neg (fun hh => hpre pc hpc hh.1.symm)]
          exact ih' pc (by rw [hsplit]; exact List.mem_append_left _ hpc) f pe els hpe
        · rcases List.mem_cons.mp hpc with hpc | hpc
          · rw [hpc] at hpe ⊢
            have : (profile_snapshot pc1).pc_program = pc1.pc_program := rfl
            rw [this, hn1, if_pos ⟨rfl, rfl⟩]
            simp only [profile_snapshot] at hpe
            intro he
            simp only [Option.some.injEq] at he
            rw [← he, ← hn1]
            exact cell_statistics ops ht pc1 hpc1 f pe hpe
          · rw [if_neg (fun hh => hpost pc hpc hh.1.symm)]
            exact ih' pc (by rw [hsplit]; exact List.mem_append_right _ (List.mem_cons_of_mem _ hpc))
              f pe els hpe

theorem statistics_invariant (els : List Nat) (pe : profile_element)
    (h : is_statistics_of els pe) :
    (pe.pe_total_calls = 0 → els.length < 2 ^ 64 →
      pe.pe_total_micros = 0 ∧ pe.pe_min_micros = UINT64_MAX ∧ pe.pe_max_micros = 0) ∧
    (pe.pe_total_calls > 0 → pe.pe_min_micros ≤ pe.pe_max_micros) ∧
    (pe.pe_total_calls > 0 → els.length < 2 ^ 64 → els.sum < 2 ^ 64 →
      pe.pe_total_calls * pe.pe_min_micros ≤ pe.pe_total_micros ∧
      pe.pe_total_micros ≤ pe.pe_total_calls * pe.pe_max_micros) := by
  obtain ⟨hc, ht, hnil, hne⟩ := h
  have hpos : pe.pe_total_calls > 0 → els ≠ [] := by
    intro hpos h
    rw [h] at hc
    simp at hc
    omega
  refine ⟨?_, ?_, ?_⟩
  · intro h0 hlen
    have hn : els.length = 0 := by
      rw [hc, Nat.mod_eq_of_lt hlen] at h0
      exact h0
    have hels : els = [] := List.length_eq_zero.mp hn
    obtain ⟨m1, m2⟩ := hnil hels
    refine ⟨?_, m1, m2⟩
    rw [ht, hels]
    rfl
  · intro hp
    obtain ⟨⟨m1, _⟩, ⟨_, m4⟩⟩ := hne (hpos hp)
    exact m4 _ m1
  · intro hp hlen hsum
    rw [hc, ht, Nat.mod_eq_of_lt hlen, Nat.mod_eq_of_lt hsum]
    obtain ⟨⟨_, m2⟩, ⟨_, m4⟩⟩ := hne (hpos hp)
    constructor
    · have := List.card_nsmul_le_sum _ pe.pe_min_micros m2
      simpa using this
    · have := List.sum_le_card_nsmul _ pe.pe_max_micros m4
      simpa using this

/-- C17, as stated, fails, in two ways.  On the entry ("p", "v") with one flag, after 2^64
samples of one microsecond (start 0, stop 1) the cell of flag 0 has `calls = 0`, the
counter having wrapped, and `totalMicros = 0`, yet `minMicros = 1` and `maxMicros = 1`, not
UINT64_MAX and 0; the cell does hold 2^64 samples since its reset.  And right after a
create the cells of the shadow array hold what the `kmalloc` block held, which no code has
initialised: here `calls = 0` with `totalMicros = 5`. -/
theorem calls_wrapped_to_zero :
    (regops_typed
        (ProfileRegOp.create "p".toList "v".toList 1 (some 9) true (some [])
          :: List.replicate (2 ^ 64) (ProfileRegOp.exit 9 0 0 1)) ∧
      profile_reach
          (ProfileRegOp.create "p".toList "v".toList 1 (some 9) true (some [])
            :: List.replicate (2 ^ 64) (ProfileRegOp.exit 9 0 0 1))
        = [{ pc_self := 9, pc_program := "p".toList, pc_version := "v".toList, pc_flags := 1,
             pc_array := [{ pe_total_calls := 0, pe_total_micros := 0, pe_min_micros := 1,
                            pe_max_micros := 1 }],
             pc_array2 := [] }] ∧
      (cell_samples "p".toList 0
          (ProfileRegOp.create "p".toList "v".toList 1 (some 9) true (some [])
            :: List.replicate (2 ^ 64) (ProfileRegOp.exit 9 0 0 1))).length = 2 ^ 64 ∧
      (1 : Nat) ≠ UINT64_MAX) ∧
    (regops_typed
        [ProfileRegOp.create "p".toList "v".toList 1 (some 9) true
          (some [{ pe_total_calls := 0, pe_total_micros := 5, pe_min_micros := 0,
                   pe_max_micros := 0 }])] ∧
      profile_reach
          [ProfileRegOp.create "p".toList "v".toList 1 (some 9) true
            (some [{ pe_total_calls := 0, pe_total_micros := 5, pe_min_micros := 0,
                     pe_max_micros := 0 }])]
        = [{ pc_self := 9, pc_program := "p".toList, pc_version := "v".toList, pc_flags := 1,
             pc_array := [profile_element_reset],
             pc_array2 := [{ pe_total_calls := 0, pe_total_micros := 5, pe_min_micros := 0,
                             pe_max_micros := 0 }] }]) := by
  refine ⟨⟨?_, ?_, ?_, by decide⟩, by decide, by decide⟩
  · intro op hop
    rcases List.mem_cons.mp hop with hop | hop
    · rw [hop]; rfl
    · rw [List.eq_of_mem_replicate hop]; rfl
  · have h := profile_reach_cons_samples (2 ^ 64 - 1)
    have e : 2 ^ 64 - 1 + 1 = 2 ^ 64 := by norm_num
    rw [e, Nat.mod_self] at h
    exact h
  · rw [cell_samples_cons_samples, List.length_replicate]

/-- C17, amended: in every profile list reached from the empty list by creates, destroys,
samples (with 64-bit clock values) and dumps, every cell of the active array of every
entry holds the statistics of its samples, the elapsed times recorded on it since its
entry was created or last reset by a dump (`calls` is their number and `totalMicros` their
sum, both modulo 2^64), and every cell of the shadow array of an entry, once a dump has
written that array, holds the statistics of the samples that the active cell held when
the dump took the snapshot.  For such a cell: if `calls = 0` and `calls` has not wrapped
(the cell holds fewer than 2^64 samples), then `totalMicros = 0`, `minMicros = UINT64_MAX`
and `maxMicros = 0`; if `calls > 0` then `minMicros ≤ maxMicros` and, as long as neither
`calls` nor `totalMicros` of that cell has wrapped (fewer than 2^64 samples, of a sum
below 2^64), `calls * minMicros ≤ totalMicros ≤ calls * maxMicros`. -/
theorem profile_cell_invariant (ops : List ProfileRegOp) (htyped : regops_typed ops)
    (pc : profile) (hpc : pc ∈ profile_reach ops) (f : Nat) :
    (∀ pe : profile_element, pc.pc_array.get? f = some pe →
      is_statistics_of (cell_samples pc.pc_program f ops) pe ∧
      (pe.pe_total_calls = 0 → (cell_samples pc.pc_program f ops).length < 2 ^ 64 →
        pe.pe_total_micros = 0 ∧ pe.pe_min_micros = UINT64_MAX ∧ pe.pe_max_micros = 0) ∧
      (pe.pe_total_calls > 0 → pe.pe_min_micros ≤ pe.pe_max_micros) ∧
      (pe.pe_total_calls > 0 → (cell_samples pc.pc_program f ops).length < 2 ^ 64 →
        (cell_samples pc.pc_program f ops).sum < 2 ^ 64 →
        pe.pe_total_calls * pe.pe_min_micros ≤ pe.pe_total_micros ∧
        pe.pe_total_micros ≤ pe.pe_total_calls * pe.pe_max_micros)) ∧
    (∀ (pe : profile_element) (els : List Nat), pc.pc_array2.get? f = some pe →
      shadow_samples pc.pc_program f ops = some els →
      is_statistics_of els pe ∧
      (pe.pe_total_calls = 0 → els.length < 2 ^ 64 →
        pe.pe_total_micros = 0 ∧ pe.pe_min_micros = UINT64_MAX ∧ pe.pe_max_micros = 0) ∧
      (pe.pe_total_calls > 0 → pe.pe_min_micros ≤ pe.pe_max_micros) ∧
      (pe.pe_total_calls > 0 → els.length < 2 ^ 64 → els.sum < 2 ^ 64 →
        pe.pe_total_calls * pe.pe_min_micros ≤ pe.pe_total_micros ∧
        pe.pe_total_micros ≤ pe.pe_total_calls * pe.pe_max_micros)) := by
  constructor
  · intro pe hpe
    have hstat := cell_statistics ops htyped pc hpc f pe hpe
    exact ⟨hstat, statistics_invariant _ pe hstat⟩
  · intro pe els hpe hsh
    have hstat := shadow_statistics ops htyped pc hpc f pe els hpe hsh
    exact ⟨hstat, statistics_invariant _ pe hstat⟩

/-- Witness of C17 (amended): the entries "p" (two flags) and "q"; a sample of 2^63
microseconds on each of the two cells of "p", a sample of 7 on "q", a dump of "q", and a
sample of 10 on cell 0 of "p".  The samples of the sequence add up to more than 2^64, but
cell 0 of "p" holds the samples 2^63 and 10, neither `calls` nor `totalMicros` of it has
wrapped, and it is {2, 2^63 + 10, 10, 2^63}, with 2 * 10 ≤ 2^63 + 10 ≤ 2 * 2^63.  The
shadow cell of "q" holds the sample 7 that the dump moved there, the shadow array of "p"
has not been written. -/
theorem profile_cell_invariant_witness :
    (regops_typed
        [ProfileRegOp.create "p".toList "v".toList 2 (some 9) true (some []),
         ProfileRegOp.create "q".toList "v".toList 1 (some 5) true (some []),
         ProfileRegOp.exit 9 0 0 9223372036854775808, ProfileRegOp.exit 9 1 0 9223372036854775808,
         ProfileRegOp.exit 5 0 0 7, ProfileRegOp.dump true "profile_dump q v".toList 32 true,
         ProfileRegOp.exit 9 0 5 15] ∧
      profile_reach
        [ProfileRegOp.create "p".toList "v".toList 2 (some 9) true (some []),
         ProfileRegOp.create "q".toList "v".toList 1 (some 5) true (some []),
         ProfileRegOp.exit 9 0 0 9223372036854775808, ProfileRegOp.exit 9 1 0 9223372036854775808,
         ProfileRegOp.exit 5 0 0 7, ProfileRegOp.dump true "profile_dump q v".toList 32 true,
         ProfileRegOp.exit 9 0 5 15]
        = [{ pc_self := 5, pc_program := "q".toList, pc_version := "v".toList, pc_flags := 1,
             pc_array := [profile_element_reset],
             pc_array2 := [{ pe_total_calls := 1, pe_total_micros := 7, pe_min_micros := 7,
                             pe_max_micros := 7 }] },
           { pc_self := 9, pc_program := "p".toList, pc_version := "v".toList, pc_flags := 2,
             pc_array :=
               [{ pe_total_calls := 2, pe_total_micros := 9223372036854775818,
                  pe_min_micros := 10, pe_max_micros := 9223372036854775808 },
                { pe_total_calls := 1, pe_total_micros := 9223372036854775808,
                  pe_min_micros := 9223372036854775808,
                  pe_max_micros := 9223372036854775808 }],
             pc_array2 := [] }] ∧
      cell_samples "p".toList 0
        [ProfileRegOp.create "p".toList "v".toList 2 (some 9) true (some []),
         ProfileRegOp.create "q".toList "v".toList 1 (some 5) true (some []),
         ProfileRegOp.exit 9 0 0 9223372036854775808, ProfileRegOp.exit 9 1 0 9223372036854775808,
         ProfileRegOp.exit 5 0 0 7, ProfileRegOp.dump true "profile_dump q v".toList 32 true,
         ProfileRegOp.exit 9 0 5 15]
        = [9223372036854775808, 10] ∧
      shadow_samples "q".toList 0
        [ProfileRegOp.create "p".toList "v".toList 2 (some 9) true (some []),
         ProfileRegOp.create "q".toList "v".toList 1 (some 5) true (some []),
         ProfileRegOp.exit 9 0 0 9223372036854775808, ProfileRegOp.exit 9 1 0 9223372036854775808,
         ProfileRegOp.exit 5 0 0 7, ProfileRegOp.dump true "profile_dump q v".toList 32 true,
         ProfileRegOp.exit 9 0 5 15]
        = some [7] ∧
      shadow_samples "p".toList 0
        [ProfileRegOp.create "p".toList "v".toList 2 (some 9) true (some []),
         ProfileRegOp.create "q".toList "v".toList 1 (some 5) true (some []),
         ProfileRegOp.exit 9 0 0 9223372036854775808, ProfileRegOp.exit 9 1 0 9223372036854775808,
         ProfileRegOp.exit 5 0 0 7, ProfileRegOp.dump true "profile_dump q v".toList 32 true,
         ProfileRegOp.exit 9 0 5 15]
        = none) ∧
    (2 * 10 ≤ 9223372036854775818 ∧ 9223372036854775818 ≤ 2 * 9223372036854775808) :=
  ⟨⟨by decide, by decide, by decide, by decide, by decide⟩,
    ((profile_cell_invariant
      [ProfileRegOp.create "p".toList "v".toList 2 (some 9) true (some []),
       ProfileRegOp.create "q".toList "v".toList 1 (some 5) true (some []),
       ProfileRegOp.exit 9 0 0 9223372036854775808, ProfileRegOp.exit 9 1 0 9223372036854775808,
       ProfileRegOp.exit 5 0 0 7, ProfileRegOp.dump true "profile_dump q v".toList 32 true,
       ProfileRegOp.exit 9 0 5 15]
      (by decide)
      { pc_self := 9, pc_program := "p".toList, pc_version := "v".toList, pc_flags := 2,
        pc_array :=
          [{ pe_total_calls := 2, pe_total_micros := 9223372036854775818,
             pe_min_micros := 10, pe_max_micros := 9223372036854775808 },
           { pe_total_calls := 1, pe_total_micros := 9223372036854775808,
             pe_min_micros := 9223372036854775808,
             pe_max_micros := 9223372036854775808 }],
        pc_array2 := [] }
      (by decide) 0).1
      { pe_total_calls := 2, pe_total_micros := 9223372036854775818, pe_min_micros := 10,
        pe_max_micros := 9223372036854775808 }
      (by decide)).2.2.2 (by decide) (by decide) (by decide)⟩

end Kdbl
